import Mathlib

/-!
# Installation agent: migration pipeline and archive extraction

A shallow embedding of `Service.doInstallation` (service.go), of the repository methods
it calls (migration.go) and of the bundle functions of package `setup` (bundle.go,
checksum.go, manifest.go), of the run state of the service (`TryStart`, `GetStatus`,
`RunInstallation`), of the status payload and the `Status` handler, and of the decoding
of the manifest baseline, followed by the properties of the migration loop, of the
bundle functions, of the run state and of the advisory lock.

Everything outside the process (file system, database connection, clock, zip reader,
HTTP download) is an abstract world `σ` together with an `Env σ` of operations on it.
Each operation returns its result and the next world.  The embedding threads the world
explicitly and appends one `Event` per operation called, so that "the SQL is executed"
or "RecordMigration is called" are statements about the event trace.

Go `error` values are `Option String` (`none` is `nil`, `some msg` carries `err.Error()`).
Go strings are `String`; file contents and SQL batches are byte lists.
Log calls have no effect on the results and are left out.
-/

namespace AgentService

/-- Contents of a file, and the text of an SQL batch (`string(bytes)` keeps the bytes). -/
abbrev Bytes := List UInt8

/-- Instant in nanoseconds; `0` is the zero value `time.Time{}`. -/
abbrev Time := Int

/-! ## Data model -/

/-- Type `setup.Migration` of manifest.go. -/
structure Migration where
  Version : String
  Name : String
  File : String
  Transaction : Bool
  deriving DecidableEq, Repr

/-- Type `setup.Manifest` of manifest.go (`Checks.Smoke` flattened to `Smoke`). -/
structure Manifest where
  Baseline : String
  Migrations : List Migration
  Smoke : String
  deriving DecidableEq, Repr

/-- Type `repository.MigrationRecord` of migration.go. -/
structure MigrationRecord where
  Version : String
  Name : String
  Checksum : String
  AppliedAt : Time
  ExecTimeMs : Int
  Success : Bool
  ErrorMsg : String
  deriving DecidableEq, Repr

/-- Row of `hris_meta.schema_migrations` as scanned by `GetMigrationRecord`:
the `error` column is nullable. -/
structure MigrationRow where
  version : String
  name : String
  checksum : String
  applied_at : Time
  execution_time_ms : Int
  success : Bool
  error : Option String
  deriving DecidableEq, Repr

/-- Type `service.InstallationResult` of service.go. -/
structure InstallationResult where
  Success : Bool := false
  Step : String := ""
  Error : String := ""
  SchemaVersion : String := ""
  Duration : Int := 0
  deriving DecidableEq, Repr

/-- Type `service.RunStatus` of service.go. -/
structure RunStatus where
  Status : String
  Step : String := ""
  Error : String := ""
  StartedAt : Time := 0
  FinishedAt : Time := 0
  deriving DecidableEq, Repr

def StepDownloadBundle : String := "DOWNLOAD_BUNDLE"
def StepExtractBundle : String := "EXTRACT_BUNDLE"
def StepVerifyChecksum : String := "VERIFY_CHECKSUM"
def StepParseManifest : String := "PARSE_MANIFEST"
def StepConnectDB : String := "CONNECT_DB"
def StepLockDB : String := "LOCK_DB"
def StepApplyBaseline : String := "APPLY_BASELINE"
def StepApplyMigrations : String := "APPLY_MIGRATIONS"
def StepPostCheck : String := "POST_CHECK"

def StatusRunning : String := "running"
def StatusSuccess : String := "success"
def StatusFailed : String := "failed"

/-- Entry of a zip archive as `archive/zip` presents it: the header name, whether
`FileInfo().IsDir()` holds, and the decompressed content. -/
structure ZipEntry where
  Name : String
  IsDir : Bool
  Data : Bytes
  deriving DecidableEq, Repr

/-! ## Events and the environment -/

/-- One entry per operation the program performs on the outside world. -/
inductive Event where
  | now
  | readFile (path : String)
  | mkdirAll (path : String)
  | removeAll (path : String)
  | stat (path : String)
  | readDir (path : String)
  | download (url dest : String)
  | openZip (src : String)
  | closeZip
  | openEntry (name : String)
  | create (path : String)
  | copy (path : String) (data : Bytes)
  | conn
  | connClose
  | ping
  | lock (key : Int)
  | unlock (key : Int)
  | tableExists
  | ensureMigrationsTable
  | getMigrationRecord (version : String)
  | recordMigration (rec : MigrationRecord)
  | execContext (sql : Bytes)
  | beginTx
  | txExec (sql : Bytes)
  | txRollback
  | txCommit
  deriving DecidableEq, Repr

/-- Operations of the outside world.  `σ` is the state of the world (files, database,
clock); every operation may change it. -/
structure Env (σ : Type) where
  /-- Function `crypto/sha256.Sum256`. -/
  sum256 : Bytes → Bytes
  /-- Function `time.Now`. -/
  now : σ → Time × σ
  /-- Function `os.ReadFile`. -/
  readFile : σ → String → Except String Bytes × σ
  /-- Function `os.MkdirAll`. -/
  mkdirAll : σ → String → Option String × σ
  /-- Function `os.RemoveAll`. -/
  removeAll : σ → String → Option String × σ
  /-- Function `os.Stat`, reduced to its error. -/
  stat : σ → String → Option String × σ
  /-- Function `os.ReadDir`: entry names with their `IsDir` flag. -/
  readDir : σ → String → Except String (List (String × Bool)) × σ
  /-- Function `setup.DownloadBundle`, taken as one operation. -/
  download : σ → String → String → Option String × σ
  /-- Function `zip.OpenReader`: the entries of the archive, in archive order. -/
  openZip : σ → String → Except String (List ZipEntry) × σ
  /-- Method `(*zip.File).Open`. -/
  openEntry : σ → ZipEntry → Option String × σ
  /-- Function `os.Create`. -/
  create : σ → String → Option String × σ
  /-- Function `io.Copy` from an opened entry into the created file. -/
  copy : σ → String → Bytes → Option String × σ
  /-- Parsing of checksums.json by `json.Unmarshal`; the pairs come in the order in
  which the Go map is later ranged over. -/
  parseChecksums : Bytes → Except String (List (String × String))
  /-- Parsing of manifest.json by `json.Unmarshal`. -/
  parseManifest : Bytes → Except String Manifest
  /-- Method `(*zip.ReadCloser).Close`. -/
  closeZip : σ → Option String × σ
  /-- Method `(*sql.DB).Conn`. -/
  conn : σ → Option String × σ
  /-- Method `(*sql.Conn).Close`. -/
  connClose : σ → Option String × σ
  /-- Method `(*sql.Conn).PingContext`. -/
  ping : σ → Option String × σ
  /-- Statement `SELECT pg_advisory_lock(key)` on the connection. -/
  lock : σ → Int → Option String × σ
  /-- Statement `SELECT pg_advisory_unlock(key)` on the connection. -/
  unlock : σ → Int → Option String × σ
  /-- The `SELECT EXISTS (...)` query of `IsFreshDB`. -/
  tableExists : σ → Except String Bool × σ
  /-- The `CREATE SCHEMA / CREATE TABLE IF NOT EXISTS` batch of `EnsureMigrationsTable`. -/
  ensureTable : σ → Option String × σ
  /-- The `SELECT ... WHERE version = $1` query of `GetMigrationRecord`;
  `ok none` is `sql.ErrNoRows`. -/
  selectRecord : σ → String → Except String (Option MigrationRow) × σ
  /-- The `INSERT ... ON CONFLICT (version) DO UPDATE` statement of `RecordMigration`. -/
  upsertRecord : σ → MigrationRecord → Option String × σ
  /-- Method `(*sql.Conn).ExecContext` on an SQL batch read from the bundle. -/
  execContext : σ → Bytes → Option String × σ
  /-- Method `(*sql.Conn).BeginTx`. -/
  beginTx : σ → Option String × σ
  /-- Method `(*sql.Tx).ExecContext`. -/
  txExec : σ → Bytes → Option String × σ
  /-- Method `(*sql.Tx).Rollback`. -/
  txRollback : σ → Option String × σ
  /-- Method `(*sql.Tx).Commit`. -/
  txCommit : σ → Option String × σ

/-- State of a run: the world, the operations performed so far, and the `status`
field of the `Service`. -/
structure St (σ : Type) where
  world : σ
  trace : List Event
  status : Option RunStatus

/-- Perform one operation of the environment and append its event to the trace. -/
def call {σ α : Type} (e : Event) (op : σ → α × σ) (s : St σ) : α × St σ :=
  ((op s.world).1, { s with world := (op s.world).2, trace := s.trace ++ [e] })

/-! ## Library functions the program uses -/

/-- One hexadecimal digit, lower case, as `encoding/hex` writes it. -/
def hexDigit (n : Nat) : Char :=
  "0123456789abcdef".data.getD n '0'

/-- Function `hex.EncodeToString`. -/
def hexEncode (b : Bytes) : String :=
  String.mk (b.flatMap fun x => [hexDigit (x.toNat / 16), hexDigit (x.toNat % 16)])

/-- Function `setup.SHA256Hex` of checksum.go. -/
def SHA256Hex {σ : Type} (env : Env σ) (data : Bytes) : String :=
  hexEncode (env.sum256 data)

/-- Split a path at every separator `/`. -/
def splitSep : List Char → List (List Char)
  | [] => [[]]
  | c :: cs =>
    if c = '/' then [] :: splitSep cs
    else
      match splitSep cs with
      | [] => [[c]]
      | x :: xs => (c :: x) :: xs

/-- One element of the path processed by `filepath.Clean`; `out` holds the elements kept
so far, last one first.  Empty elements and `.` are dropped; `..` removes the last kept
element when there is one that is not itself `..`, is kept when the path is not rooted,
and is dropped at the root. -/
def cleanElem (rooted : Bool) (out : List (List Char)) (c : List Char) : List (List Char) :=
  if c = [] ∨ c = ['.'] then out
  else if c = ['.', '.'] then
    match out with
    | top :: rest => if top = ['.', '.'] then c :: out else rest
    | [] => if rooted then [] else [c]
  else c :: out

/-- Function `filepath.Clean` with separator `/`. -/
def Clean (path : String) : String :=
  if path = "" then "."
  else
    let rooted := path.data.head? = some '/'
    let out := ((splitSep path.data).foldl (cleanElem rooted) []).reverse
    let body := String.mk (List.intercalate ['/'] out)
    if rooted then "/" ++ body
    else if body = "" then "." else body

/-- Function `filepath.Join` applied to two elements. -/
def Join (a b : String) : String :=
  if a ≠ "" then Clean (a ++ "/" ++ b)
  else if b ≠ "" then Clean b
  else ""

/-- The part of a path up to and including its last separator. -/
def dirPart : List Char → List Char
  | [] => []
  | c :: cs => if cs.contains '/' ∨ c = '/' then c :: dirPart cs else []

/-- Function `filepath.Dir` with separator `/`. -/
def Dir (path : String) : String :=
  Clean (String.mk (dirPart path.data))

/-- Function `strings.HasPrefix`. -/
def startsWith (s p : String) : Bool :=
  p.data.isPrefixOf s.data

/-- Function `strconv.ParseBool` with its error dropped (`v, _ := ...`). -/
def ParseBool (str : String) : Bool :=
  str = "1" ∨ str = "t" ∨ str = "T" ∨ str = "true" ∨ str = "TRUE" ∨ str = "True"

/-- Digits of `strconv.ParseUint(s, 10, 64)`: `none` is a syntax error, `some n` with
`n = 2^64 - 1` after a range error (which ends the scan at once). -/
def parseUintDigits : List Char → Nat → Option Nat
  | [], n => some n
  | c :: cs, n =>
    if c.isDigit then
      if n ≥ (2 ^ 64 - 1) / 10 + 1 then some (2 ^ 64 - 1)
      else if n * 10 + (c.toNat - 48) > 2 ^ 64 - 1 then some (2 ^ 64 - 1)
      else parseUintDigits cs (n * 10 + (c.toNat - 48))
    else none

/-- Function `strconv.ParseInt(s, 10, 64)` with its error dropped. -/
def ParseInt (s : String) : Int :=
  match s.data with
  | [] => 0
  | c :: cs =>
    let neg := c = '-'
    let digits := if c = '+' ∨ c = '-' then cs else c :: cs
    if digits = [] then 0
    else
      match parseUintDigits digits 0 with
      | none => 0
      | some un =>
        if ¬ neg ∧ un ≥ 2 ^ 63 then 2 ^ 63 - 1
        else if neg ∧ un > 2 ^ 63 then -(2 ^ 63)
        else if neg then -(un : Int) else (un : Int)

/-- Function `setup.NormalizeChecksum` of checksum.go. -/
def NormalizeChecksum (expected : String) : String :=
  if expected.data.length > 7 ∧ (expected.data.take 7).map Char.toLower = "sha256:".data then
    String.mk (expected.data.drop 7)
  else expected

/-- Method `time.Time.Sub`: the difference, saturated to the range of `time.Duration`. -/
def timeSub (t u : Time) : Int :=
  if t - u > 2 ^ 63 - 1 then 2 ^ 63 - 1
  else if t - u < -(2 ^ 63) then -(2 ^ 63)
  else t - u

/-- Method `time.Duration.Milliseconds`. -/
def Milliseconds (d : Int) : Int :=
  Int.tdiv d 1000000

/-! ## Bundle handling (bundle.go, checksum.go, manifest.go) -/

/-- The zip-slip test of `ExtractZip`, line 64 of bundle.go: true when the entry is
rejected. -/
def illegalPath (dest name : String) : Bool :=
  Clean (Join dest name) ≠ Clean dest ∧
    ¬ startsWith (Clean (Join dest name)) (Clean dest ++ "/")

/-- Lines 73-95 of bundle.go: write one regular entry. -/
def extractFile {σ : Type} (env : Env σ) (dest : String) (f : ZipEntry) (s : St σ) :
    Option String × St σ :=
  let target := Join dest f.Name
  let mk := call (Event.mkdirAll (Dir target)) (fun w => env.mkdirAll w (Dir target)) s
  match mk.1 with
  | some e => (some ("failed to create dir for " ++ f.Name ++ ": " ++ e), mk.2)
  | none =>
    let rc := call (Event.openEntry f.Name) (fun w => env.openEntry w f) mk.2
    match rc.1 with
    | some e => (some ("failed to open zip entry " ++ f.Name ++ ": " ++ e), rc.2)
    | none =>
      let out := call (Event.create target) (fun w => env.create w target) rc.2
      match out.1 with
      | some e => (some ("failed to create " ++ target ++ ": " ++ e), out.2)
      | none =>
        let cp := call (Event.copy target f.Data) (fun w => env.copy w target f.Data) out.2
        match cp.1 with
        | some e => (some ("failed to extract " ++ f.Name ++ ": " ++ e), cp.2)
        | none => (none, cp.2)

/-- The loop `for _, f := range r.File` of `ExtractZip`, lines 61-96 of bundle.go. -/
def extractEntries {σ : Type} (env : Env σ) (dest : String) :
    List ZipEntry → St σ → Option String × St σ
  | [], s => (none, s)
  | f :: rest, s =>
    if illegalPath dest f.Name then (some ("illegal path in zip: " ++ f.Name), s)
    else if f.IsDir then
      extractEntries env dest rest
        (call (Event.mkdirAll (Join dest f.Name)) (fun w => env.mkdirAll w (Join dest f.Name)) s).2
    else
      match extractFile env dest f s with
      | (some e, s1) => (some e, s1)
      | (none, s1) => extractEntries env dest rest s1

/-- Function `setup.ExtractZip` of bundle.go. -/
def ExtractZip {σ : Type} (env : Env σ) (src dest : String) (s : St σ) :
    Option String × St σ :=
  let r := call (Event.openZip src) (fun w => env.openZip w src) s
  match r.1 with
  | .error e => (some ("failed to open zip: " ++ e), r.2)
  | .ok files =>
    let x := extractEntries env dest files r.2
    (x.1, (call Event.closeZip env.closeZip x.2).2)

/-- The loop over the directory entries in `ResolveBaseDir`, lines 113-120 of bundle.go. -/
def findCandidate {σ : Type} (env : Env σ) (extractDir : String) :
    List (String × Bool) → St σ → Option String × St σ
  | [], s => (none, s)
  | e :: rest, s =>
    if e.2 then
      let st := call (Event.stat (Join (Join extractDir e.1) "manifest.json"))
        (fun w => env.stat w (Join (Join extractDir e.1) "manifest.json")) s
      match st.1 with
      | none => (some (Join extractDir e.1), st.2)
      | some _ => findCandidate env extractDir rest st.2
    else findCandidate env extractDir rest s

/-- Function `setup.ResolveBaseDir` of bundle.go. -/
def ResolveBaseDir {σ : Type} (env : Env σ) (extractDir : String) (s : St σ) :
    Except String String × St σ :=
  let st := call (Event.stat (Join extractDir "manifest.json"))
    (fun w => env.stat w (Join extractDir "manifest.json")) s
  match st.1 with
  | none => (.ok extractDir, st.2)
  | some _ =>
    let rd := call (Event.readDir extractDir) (fun w => env.readDir w extractDir) st.2
    match rd.1 with
    | .error e => (.error ("failed to read extract dir: " ++ e), rd.2)
    | .ok entries =>
      match findCandidate env extractDir entries rd.2 with
      | (some c, s1) => (.ok c, s1)
      | (none, s1) => (.error "manifest.json not found in extracted bundle", s1)

/-- Function `setup.LoadChecksums` of bundle.go. -/
def LoadChecksums {σ : Type} (env : Env σ) (baseDir : String) (s : St σ) :
    Except String (List (String × String)) × St σ :=
  let f := call (Event.readFile (Join baseDir "checksums.json"))
    (fun w => env.readFile w (Join baseDir "checksums.json")) s
  match f.1 with
  | .error e => (.error ("failed to read checksums.json: " ++ e), f.2)
  | .ok data =>
    match env.parseChecksums data with
    | .error e => (.error ("failed to parse checksums.json: " ++ e), f.2)
    | .ok checksums => (.ok checksums, f.2)

/-- Function `setup.VerifyChecksums` of checksum.go; the list is the map in the order in
which it is ranged over. -/
def VerifyChecksums {σ : Type} (env : Env σ) (baseDir : String) :
    List (String × String) → St σ → Option String × St σ
  | [], s => (none, s)
  | c :: rest, s =>
    let f := call (Event.readFile (Join baseDir c.1)) (fun w => env.readFile w (Join baseDir c.1)) s
    match f.1 with
    | .error e => (some ("failed to read " ++ c.1 ++ " for checksum: " ++ e), f.2)
    | .ok data =>
      if SHA256Hex env data ≠ NormalizeChecksum c.2 then
        (some ("checksum mismatch for " ++ c.1 ++ ": expected=" ++ NormalizeChecksum c.2 ++
          " actual=" ++ SHA256Hex env data), f.2)
      else VerifyChecksums env baseDir rest f.2

/-- Function `setup.LoadManifest` of manifest.go. -/
def LoadManifest {σ : Type} (env : Env σ) (baseDir : String) (s : St σ) :
    Except String Manifest × St σ :=
  let f := call (Event.readFile (Join baseDir "manifest.json"))
    (fun w => env.readFile w (Join baseDir "manifest.json")) s
  match f.1 with
  | .error e => (.error ("failed to read manifest.json: " ++ e), f.2)
  | .ok data =>
    match env.parseManifest data with
    | .error e => (.error ("failed to parse manifest.json: " ++ e), f.2)
    | .ok m => (.ok m, f.2)

/-! ## Repository (migration.go) -/

/-- Method `Repository.IsFreshDB`: true iff the ledger table does not exist. -/
def IsFreshDB {σ : Type} (env : Env σ) (s : St σ) : Except String Bool × St σ :=
  let q := call Event.tableExists env.tableExists s
  match q.1 with
  | .error e => (.error e, q.2)
  | .ok ex => (.ok (!ex), q.2)

/-- Method `Repository.EnsureMigrationsTable`. -/
def EnsureMigrationsTable {σ : Type} (env : Env σ) (s : St σ) : Option String × St σ :=
  call Event.ensureMigrationsTable env.ensureTable s

/-- Method `Repository.GetMigrationRecord`: `ok none` when no row exists. -/
def GetMigrationRecord {σ : Type} (env : Env σ) (version : String) (s : St σ) :
    Except String (Option MigrationRecord) × St σ :=
  let q := call (Event.getMigrationRecord version) (fun w => env.selectRecord w version) s
  match q.1 with
  | .error e => (.error e, q.2)
  | .ok none => (.ok none, q.2)
  | .ok (some row) =>
    (.ok (some
      { Version := row.version, Name := row.name, Checksum := row.checksum,
        AppliedAt := row.applied_at, ExecTimeMs := row.execution_time_ms,
        Success := row.success,
        ErrorMsg := match row.error with
          | some m => m
          | none => "" }), q.2)

/-- Method `Repository.RecordMigration`. -/
def RecordMigration {σ : Type} (env : Env σ) (rec : MigrationRecord) (s : St σ) :
    Option String × St σ :=
  call (Event.recordMigration rec) (fun w => env.upsertRecord w rec) s

/-- Method `Repository.ExecInTransaction`. -/
def ExecInTransaction {σ : Type} (env : Env σ) (query : Bytes) (s : St σ) :
    Option String × St σ :=
  let b := call Event.beginTx env.beginTx s
  match b.1 with
  | some e => (some ("begin tx: " ++ e), b.2)
  | none =>
    let x := call (Event.txExec query) (fun w => env.txExec w query) b.2
    match x.1 with
    | some e => (some e, (call Event.txRollback env.txRollback x.2).2)
    | none => call Event.txCommit env.txCommit x.2

/-! ## Service (service.go) -/

/-- Method `Service.updateStep`. -/
def updateStep {σ : Type} (step : String) (s : St σ) : St σ :=
  match s.status with
  | some st => { s with status := some { st with Step := step } }
  | none => s

/-- How one iteration of the migration loop ends: `next v` goes on with
`lastVersion = v`, `ret r` returns `r` from `doInstallation`. -/
inductive Flow where
  | next (lastVersion : String)
  | ret (r : InstallationResult)
  deriving DecidableEq, Repr

/-- Execution of a migration's SQL, lines 250-254 of service.go: in a transaction when
the manifest says so, directly on the connection otherwise. -/
def execMigration {σ : Type} (env : Env σ) (mig : Migration) (migrationSQL : Bytes)
    (s : St σ) : Option String × St σ :=
  if mig.Transaction then ExecInTransaction env migrationSQL s
  else call (Event.execContext migrationSQL) (fun w => env.execContext w migrationSQL) s

/-- The record built at lines 257-267 of service.go. -/
def migrationRecord (mig : Migration) (fileChecksum : String) (appliedAt : Time)
    (migDuration : Int) (migErr : Option String) : MigrationRecord :=
  { Version := mig.Version, Name := mig.Name, Checksum := fileChecksum,
    AppliedAt := appliedAt, ExecTimeMs := Milliseconds migDuration,
    Success := migErr.isNone,
    ErrorMsg := match migErr with
      | some m => m
      | none => "" }

/-- Lines 245-276 of service.go: apply one migration and record it. -/
def applyMigration {σ : Type} (env : Env σ) (mig : Migration) (migrationSQL : Bytes)
    (fileChecksum : String) (s : St σ) : Flow × St σ :=
  let t0 := call Event.now env.now s
  let x := execMigration env mig migrationSQL t0.2
  let t1 := call Event.now env.now x.2
  let t2 := call Event.now env.now t1.2
  let rec_ := migrationRecord mig fileChecksum t2.1 (timeSub t1.1 t0.1) x.1
  let w := RecordMigration env rec_ t2.2
  (match x.1 with
    | some e =>
      Flow.ret { Step := StepApplyMigrations,
                 Error := "migration " ++ mig.Version ++ " failed: " ++ e }
    | none => Flow.next mig.Version,
   w.2)

/-- Body of the loop over `manifest.Migrations`, lines 220-276 of service.go. -/
def migrationStep {σ : Type} (env : Env σ) (force : Bool) (baseDir : String) (mig : Migration)
    (s : St σ) : Flow × St σ :=
  let a := GetMigrationRecord env mig.Version s
  match a.1 with
  | .error e =>
    (Flow.ret { Step := StepApplyMigrations,
                Error := "failed to check migration " ++ mig.Version ++ ": " ++ e }, a.2)
  | .ok applied =>
    let f := call (Event.readFile (Join baseDir mig.File))
      (fun w => env.readFile w (Join baseDir mig.File)) a.2
    match f.1 with
    | .error e =>
      (Flow.ret { Step := StepApplyMigrations,
                  Error := "failed to read migration " ++ mig.Version ++ ": " ++ e }, f.2)
    | .ok migrationSQL =>
      let fileChecksum := SHA256Hex env migrationSQL
      match applied with
      | some ap =>
        if ap.Success && !force then (Flow.next mig.Version, f.2)
        else if ap.Checksum ≠ fileChecksum then
          (Flow.ret { Step := StepApplyMigrations,
                      Error := "checksum mismatch for migration " ++ mig.Version ++
                        ": recorded=" ++ ap.Checksum ++ ", file=" ++ fileChecksum }, f.2)
        else applyMigration env mig migrationSQL fileChecksum f.2
      | none => applyMigration env mig migrationSQL fileChecksum f.2

/-- The loop `for _, mig := range manifest.Migrations`, lines 218-277 of service.go. -/
def applyMigrations {σ : Type} (env : Env σ) (force : Bool) (baseDir : String) :
    List Migration → String → St σ → Flow × St σ
  | [], lastVersion, s => (Flow.next lastVersion, s)
  | mig :: rest, _, s =>
    match migrationStep env force baseDir mig s with
    | (Flow.ret r, s1) => (Flow.ret r, s1)
    | (Flow.next v, s1) => applyMigrations env force baseDir rest v s1

/-- The part of the configuration that `doInstallation` reads; `dbURL` is the value of
`cfg.DatabaseURL()`. -/
structure Config where
  dbURL : String
  BundleURL : String
  WorkDir : String
  AdvisoryLockKey : String
  Force : String
  SkipSmoke : String
  deriving DecidableEq, Repr

/-- Lines 279-291 of service.go: the optional smoke check and the success result. -/
def postCheck {σ : Type} (env : Env σ) (skipSmoke : Bool) (baseDir : String)
    (manifest : Manifest) (lastVersion : String) (s : St σ) : InstallationResult × St σ :=
  if !skipSmoke && manifest.Smoke ≠ "" then
    let s1 := updateStep StepPostCheck s
    let f := call (Event.readFile (Join baseDir manifest.Smoke))
      (fun w => env.readFile w (Join baseDir manifest.Smoke)) s1
    match f.1 with
    | .error e => ({ Step := StepPostCheck, Error := "failed to read smoke check: " ++ e }, f.2)
    | .ok smokeSQL =>
      let x := call (Event.execContext smokeSQL) (fun w => env.execContext w smokeSQL) f.2
      match x.1 with
      | some e => ({ Step := StepPostCheck, Error := "smoke check failed: " ++ e }, x.2)
      | none => ({ Success := true, SchemaVersion := lastVersion }, x.2)
  else ({ Success := true, SchemaVersion := lastVersion }, s)

/-- Lines 217-291 of service.go: the migration loop followed by the smoke check. -/
def migrateAndCheck {σ : Type} (env : Env σ) (force skipSmoke : Bool) (baseDir : String)
    (manifest : Manifest) (s : St σ) : InstallationResult × St σ :=
  match applyMigrations env force baseDir manifest.Migrations ""
      (updateStep StepApplyMigrations s) with
  | (Flow.ret r, s1) => (r, s1)
  | (Flow.next lastVersion, s1) => postCheck env skipSmoke baseDir manifest lastVersion s1

/-- Lines 202-215 of service.go: the baseline of a fresh database; `some r` returns `r`. -/
def applyBaseline {σ : Type} (env : Env σ) (baseDir : String) (manifest : Manifest)
    (s : St σ) : Option InstallationResult × St σ :=
  let f := call (Event.readFile (Join baseDir manifest.Baseline))
    (fun w => env.readFile w (Join baseDir manifest.Baseline)) s
  match f.1 with
  | .error e => (some { Step := StepApplyBaseline, Error := "failed to read baseline: " ++ e }, f.2)
  | .ok baselineSQL =>
    let x := call (Event.execContext baselineSQL) (fun w => env.execContext w baselineSQL) f.2
    match x.1 with
    | some e =>
      (some { Step := StepApplyBaseline, Error := "failed to apply baseline: " ++ e }, x.2)
    | none =>
      let t := EnsureMigrationsTable env x.2
      match t.1 with
      | some e =>
        (some { Step := StepApplyBaseline,
                Error := "failed to ensure migrations table: " ++ e }, t.2)
      | none => (none, t.2)

/-- Lines 196-291 of service.go: everything done while the advisory lock is held. -/
def lockedSection {σ : Type} (env : Env σ) (force skipSmoke : Bool) (baseDir : String)
    (manifest : Manifest) (s : St σ) : InstallationResult × St σ :=
  let fr := IsFreshDB env (updateStep StepApplyBaseline s)
  match fr.1 with
  | .error e => ({ Step := StepApplyBaseline, Error := "failed to detect DB state: " ++ e }, fr.2)
  | .ok true =>
    match applyBaseline env baseDir manifest fr.2 with
    | (some r, s1) => (r, s1)
    | (none, s1) => migrateAndCheck env force skipSmoke baseDir manifest s1
  | .ok false => migrateAndCheck env force skipSmoke baseDir manifest fr.2

/-- Lines 179-291 of service.go: ping, advisory lock, the locked section, and the
deferred unlock, which runs on every return after the lock was taken. -/
def connSection {σ : Type} (env : Env σ) (force skipSmoke : Bool) (advisoryKey : Int)
    (baseDir : String) (manifest : Manifest) (s : St σ) : InstallationResult × St σ :=
  let pg := call Event.ping env.ping s
  match pg.1 with
  | some e => ({ Step := StepConnectDB, Error := "failed to ping database: " ++ e }, pg.2)
  | none =>
    let lk := call (Event.lock advisoryKey) (fun w => env.lock w advisoryKey)
      (updateStep StepLockDB pg.2)
    match lk.1 with
    | some e => ({ Step := StepLockDB, Error := "failed to acquire advisory lock: " ++ e }, lk.2)
    | none =>
      let r := lockedSection env force skipSmoke baseDir manifest lk.2
      (r.1, (call (Event.unlock advisoryKey) (fun w => env.unlock w advisoryKey) r.2).2)

/-- Lines 157-170 of service.go: checksum verification and manifest loading. -/
def verifyAndLoad {σ : Type} (env : Env σ) (baseDir : String) (s : St σ) :
    Except InstallationResult Manifest × St σ :=
  let cs := LoadChecksums env baseDir (updateStep StepVerifyChecksum s)
  match cs.1 with
  | .error e => (.error { Step := StepVerifyChecksum, Error := e }, cs.2)
  | .ok checksums =>
    let v := VerifyChecksums env baseDir checksums cs.2
    match v.1 with
    | some e => (.error { Step := StepVerifyChecksum, Error := e }, v.2)
    | none =>
      let m := LoadManifest env baseDir (updateStep StepParseManifest v.2)
      match m.1 with
      | .error e => (.error { Step := StepParseManifest, Error := e }, m.2)
      | .ok manifest => (.ok manifest, m.2)

/-- Lines 172-291 of service.go: the connection, everything done on it, and the deferred
`conn.Close()`, which runs last on every return after the connection was acquired. -/
def connectAndRun {σ : Type} (env : Env σ) (force skipSmoke : Bool) (advisoryKey : Int)
    (baseDir : String) (manifest : Manifest) (s : St σ) : InstallationResult × St σ :=
  let c := call Event.conn env.conn (updateStep StepConnectDB s)
  match c.1 with
  | some e => ({ Step := StepConnectDB, Error := "failed to acquire connection: " ++ e }, c.2)
  | none =>
    let r := connSection env force skipSmoke advisoryKey baseDir manifest c.2
    (r.1, (call Event.connClose env.connClose r.2).2)

/-- Lines 133-155 of service.go: work directory, download, extraction, base directory. -/
def fetchBundle {σ : Type} (env : Env σ) (cfg : Config) (s : St σ) :
    Except InstallationResult String × St σ :=
  let mk := call (Event.mkdirAll cfg.WorkDir) (fun w => env.mkdirAll w cfg.WorkDir) s
  match mk.1 with
  | some e =>
    (.error { Step := StepDownloadBundle, Error := "failed to create work dir: " ++ e }, mk.2)
  | none =>
    let bundlePath := Join cfg.WorkDir "db-bundle.zip"
    let dl := call (Event.download cfg.BundleURL bundlePath)
      (fun w => env.download w cfg.BundleURL bundlePath) (updateStep StepDownloadBundle mk.2)
    match dl.1 with
    | some e => (.error { Step := StepDownloadBundle, Error := e }, dl.2)
    | none =>
      let extractDir := Join cfg.WorkDir "bundle"
      let rm := call (Event.removeAll extractDir) (fun w => env.removeAll w extractDir)
        (updateStep StepExtractBundle dl.2)
      match rm.1 with
      | some e =>
        (.error { Step := StepExtractBundle, Error := "failed to clean extract dir: " ++ e }, rm.2)
      | none =>
        let ex := ExtractZip env bundlePath extractDir rm.2
        match ex.1 with
        | some e => (.error { Step := StepExtractBundle, Error := e }, ex.2)
        | none =>
          let b := ResolveBaseDir env extractDir ex.2
          match b.1 with
          | .error e => (.error { Step := StepParseManifest, Error := e }, b.2)
          | .ok baseDir => (.ok baseDir, b.2)

/-- Method `Service.doInstallation` of service.go. -/
def doInstallation {σ : Type} (env : Env σ) (cfg : Config) (s : St σ) :
    InstallationResult × St σ :=
  if cfg.dbURL = "" ∨ cfg.BundleURL = "" then
    ({ Step := StepConnectDB, Error := "DB_URL or BUNDLE_URL is not configured" }, s)
  else
    let force := ParseBool cfg.Force
    let skipSmoke := ParseBool cfg.SkipSmoke
    let advisoryKey := if ParseInt cfg.AdvisoryLockKey = 0 then 987654321
      else ParseInt cfg.AdvisoryLockKey
    match fetchBundle env cfg s with
    | (.error r, s1) => (r, s1)
    | (.ok baseDir, s1) =>
      match verifyAndLoad env baseDir s1 with
      | (.error r, s2) => (r, s2)
      | (.ok manifest, s2) => connectAndRun env force skipSmoke advisoryKey baseDir manifest s2

/-! ## A small concrete world

Files and archives by path, the ledger table (absent on a fresh database), the SQL
batches the database rejects, and a clock.  Used to run the program on concrete inputs. -/

/-- State of the concrete world. -/
structure Sim where
  files : List (String × Bytes)
  dirs : List String
  archives : List (String × List ZipEntry)
  ledger : Option (List MigrationRow)
  rejected : List Bytes
  clock : Time
  deriving DecidableEq, Repr

/-- The subdirectories of `p` among `dirs`, as directory entries (the program ignores the
entries that are files). -/
def Sim.subdirs (dirs : List String) (p : String) : List (String × Bool) :=
  dirs.filterMap fun d =>
    if startsWith d (p ++ "/") ∧ ¬ (d.data.drop (p.length + 1)).contains '/' then
      some (String.mk (d.data.drop (p.length + 1)), true)
    else none

/-- Insert or replace the ledger row of a version. -/
def Sim.upsert (rows : List MigrationRow) (r : MigrationRecord) : List MigrationRow :=
  { version := r.Version, name := r.Name, checksum := r.Checksum, applied_at := r.AppliedAt,
    execution_time_ms := r.ExecTimeMs, success := r.Success, error := some r.ErrorMsg } ::
    rows.filter (fun x => x.version ≠ r.Version)

/-- Result of running an SQL batch in the concrete world. -/
def Sim.run (w : Sim) (sql : Bytes) : Option String × Sim :=
  (if sql ∈ w.rejected then some "syntax error" else none, w)

/-- The concrete world's operations; `sum256` is the identity, and the two JSON files
parse to the given checksum map and manifest. -/
def simEnv (checksums : List (String × String)) (manifest : Manifest) : Env Sim where
  sum256 := fun b => b
  now := fun w => (w.clock, { w with clock := w.clock + 1000000 })
  readFile := fun w p =>
    match w.files.lookup p with
    | some b => (.ok b, w)
    | none => (.error ("open " ++ p ++ ": no such file or directory"), w)
  mkdirAll := fun w p => (none, { w with dirs := p :: w.dirs })
  removeAll := fun w p =>
    (none, { w with files := w.files.filter (fun f => ¬ startsWith f.1 p),
                    dirs := w.dirs.filter (fun d => ¬ startsWith d p) })
  stat := fun w p =>
    (if (w.files.lookup p).isSome ∨ p ∈ w.dirs then none
     else some ("stat " ++ p ++ ": no such file or directory"), w)
  readDir := fun w p => (.ok (Sim.subdirs w.dirs p), w)
  download := fun w _ _ => (none, w)
  openZip := fun w src =>
    match w.archives.lookup src with
    | some es => (.ok es, w)
    | none => (.error ("open " ++ src ++ ": no such file or directory"), w)
  closeZip := fun w => (none, w)
  openEntry := fun w _ => (none, w)
  create := fun w p => (none, { w with files := (p, []) :: w.files.filter (fun f => f.1 ≠ p) })
  copy := fun w p data =>
    (none, { w with files := (p, data) :: w.files.filter (fun f => f.1 ≠ p) })
  parseChecksums := fun _ => .ok checksums
  parseManifest := fun _ => .ok manifest
  conn := fun w => (none, w)
  connClose := fun w => (none, w)
  ping := fun w => (none, w)
  lock := fun w _ => (none, w)
  unlock := fun w _ => (none, w)
  tableExists := fun w => (.ok w.ledger.isSome, w)
  ensureTable := fun w => (none, { w with ledger := some (w.ledger.getD []) })
  selectRecord := fun w v =>
    match w.ledger with
    | none => (.error "relation hris_meta.schema_migrations does not exist", w)
    | some rows => (.ok (rows.find? fun r => r.version = v), w)
  upsertRecord := fun w r =>
    match w.ledger with
    | none => (some "relation hris_meta.schema_migrations does not exist", w)
    | some rows => (none, { w with ledger := some (Sim.upsert rows r) })
  execContext := Sim.run
  beginTx := fun w => (none, w)
  txExec := Sim.run
  txRollback := fun w => (none, w)
  txCommit := fun w => (none, w)

/-- State after the ledger lookup and the file read of one loop iteration. -/
def afterRead {σ : Type} (baseDir : String) (mig : Migration) (s : St σ) (w : σ) : St σ :=
  { world := w,
    trace := s.trace ++ [Event.getMigrationRecord mig.Version,
      Event.readFile (Join baseDir mig.File)],
    status := s.status }

/-- The checksum-mismatch result of line 238 of service.go. -/
def mismatchResult (version recorded file : String) : InstallationResult :=
  { Step := StepApplyMigrations,
    Error := "checksum mismatch for migration " ++ version ++ ": recorded=" ++ recorded ++
      ", file=" ++ file }

/-- State in which the SQL of a migration is executed: after the lookup, the file read
and `migStart := time.Now()`. -/
def beforeExec {σ : Type} (env : Env σ) (baseDir : String) (mig : Migration) (s : St σ)
    (w : σ) : St σ :=
  (call Event.now env.now (afterRead baseDir mig s w)).2

/-- The events a run appended to the trace of the state it started from. -/
def newEvents {σ : Type} (s s1 : St σ) : List Event :=
  s1.trace.drop s.trace.length

/-- Events that only read: the table-existence query, a ledger lookup, a file read. -/
def Event.isQuery : Event → Bool
  | Event.tableExists => true
  | Event.getMigrationRecord _ => true
  | Event.readFile _ => true
  | _ => false

/-! ## Fixtures: the bundle of the end-to-end scenarios -/

/-- Migration `001`, run in a transaction. -/
def demoM1 : Migration :=
  { Version := "001", Name := "init", File := "m1.sql", Transaction := true }

/-- Migration `002`, run directly on the connection. -/
def demoM2 : Migration :=
  { Version := "002", Name := "extend", File := "m2.sql", Transaction := false }

/-- Manifest with baseline `base.sql`, migrations `001` and `002`, no smoke check. -/
def demoManifest : Manifest :=
  { Baseline := "base.sql", Migrations := [demoM1, demoM2], Smoke := "" }

/-- A ledger row with the given version, checksum and outcome. -/
def demoRow (version checksum : String) (success : Bool) : MigrationRow :=
  { version := version, name := "", checksum := checksum, applied_at := 0,
    execution_time_ms := 1, success := success,
    error := if success then some "" else some "syntax error" }

/-- The extracted bundle under `/b`, with the given ledger table and rejected batches. -/
def demoWorld (ledger : Option (List MigrationRow)) (rejected : List Bytes) : Sim :=
  { files := [("/b/base.sql", [1]), ("/b/m1.sql", [2]), ("/b/m2.sql", [3])]
    dirs := ["/b"]
    archives := []
    ledger := ledger
    rejected := rejected
    clock := 0 }

/-- A run in progress in the given world, with an empty trace. -/
def demoState (w : Sim) : St Sim :=
  { world := w, trace := [], status := some { Status := StatusRunning, Step := "INITIALIZING" } }

/-- The environment of the fixtures. -/
def demoEnv : Env Sim := simEnv [] demoManifest

/-- Ledger after scenario 1 in which `m2.sql` was modified afterwards: the recorded
checksum of `002` is not that of the file. -/
def driftWorld : Sim :=
  demoWorld (some [demoRow "001" "02" true, demoRow "002" "ff" true]) []

/-- State reached by the loop in `driftWorld` with `force = true` after `001` was re-applied. -/
def driftAfterM1 : St Sim :=
  (applyMigrations demoEnv true "/b" [demoM1] ""
    (updateStep StepApplyMigrations (demoState driftWorld))).2

/-- Ledger after scenario 1, bundle unchanged. -/
def appliedWorld : Sim :=
  demoWorld (some [demoRow "001" "02" true, demoRow "002" "03" true]) []

/-- Ledger in which `002` failed earlier and `m2.sql` was modified afterwards. -/
def failedDriftWorld : Sim :=
  demoWorld (some [demoRow "001" "02" true, demoRow "002" "ff" false]) []

/-- State reached by the loop in `failedDriftWorld` with `force = false` after `001` was
skipped. -/
def failedDriftAfterM1 : St Sim :=
  (applyMigrations demoEnv false "/b" [demoM1] ""
    (updateStep StepApplyMigrations (demoState failedDriftWorld))).2

/-- Ledger after `001` was applied, with a database that rejects the SQL of `002`. -/
def brokenM2World : Sim :=
  demoWorld (some [demoRow "001" "02" true]) [[3]]

/-- A downloaded archive whose second entry points outside the extraction directory. -/
def slipWorld : Sim :=
  { files := []
    dirs := [".work"]
    archives := [(".work/db-bundle.zip",
      [{ Name := "a.sql", IsDir := false, Data := [1] },
       { Name := "../evil.sql", IsDir := false, Data := [9] }])]
    ledger := none
    rejected := []
    clock := 0 }

/-- A downloaded archive whose only entry points outside the extraction directory. -/
def evilOnlyWorld : Sim :=
  { files := []
    dirs := [".work"]
    archives := [(".work/db-bundle.zip",
      [{ Name := "../evil.sql", IsDir := false, Data := [9] }])]
    ledger := none
    rejected := []
    clock := 0 }

/-- The bundle of the scenarios as a zip archive. -/
def bundleArchive : List ZipEntry :=
  [{ Name := "manifest.json", IsDir := false, Data := [0] },
   { Name := "checksums.json", IsDir := false, Data := [0] },
   { Name := "base.sql", IsDir := false, Data := [1] },
   { Name := "m1.sql", IsDir := false, Data := [2] },
   { Name := "m2.sql", IsDir := false, Data := [3] }]

/-- A fresh database and the downloaded bundle, before extraction. -/
def freshWorld : Sim :=
  { files := []
    dirs := []
    archives := [(".work/db-bundle.zip", bundleArchive)]
    ledger := none
    rejected := []
    clock := 0 }

/-- The default configuration of config.go with a database and a bundle URL. -/
def demoConfig : Config :=
  { dbURL := "postgres://agent:secret@db:5432/hris?search_path=&sslmode=disable"
    BundleURL := "https://bundles.example.org/db-bundle.zip"
    WorkDir := "./.work"
    AdvisoryLockKey := "987654321"
    Force := "false"
    SkipSmoke := "false" }

/-- The environment whose checksums.json lists the three SQL files of the bundle. -/
def bundleEnv : Env Sim :=
  simEnv [("base.sql", "sha256:01"), ("m1.sql", "02"), ("m2.sql", "SHA256:03")] demoManifest

/-! ## Run state (service.go, status.go, controller.go) -/

/-- Whether the status is present with `Status == StatusRunning`: the test of
`TryStart`, line 69 of service.go. -/
def isRunning (status : Option RunStatus) : Bool :=
  match status with
  | some st => st.Status = StatusRunning
  | none => false

/-- Method `Service.TryStart`. -/
def TryStart {σ : Type} (env : Env σ) (s : St σ) : Bool × St σ :=
  if isRunning s.status then (false, s)
  else
    let t := call Event.now env.now s
    (true, { t.2 with
      status := some { Status := StatusRunning, Step := "INITIALIZING", StartedAt := t.1 } })

/-- Method `Service.GetStatus`: a copy of the status, `none` for `nil`. -/
def GetStatus {σ : Type} (s : St σ) : Option RunStatus :=
  s.status

/-- Lines 96-112 of service.go: `RunInstallation` stores the outcome of the run. -/
def finalize {σ : Type} (result : InstallationResult) (start now : Time) (s : St σ) : St σ :=
  { s with
    status :=
      if result.Success then
        some { Status := StatusSuccess, StartedAt := start, FinishedAt := now }
      else
        some { Status := StatusFailed, Step := result.Step, Error := result.Error,
               StartedAt := start, FinishedAt := now } }

/-- Method `Service.RunInstallation`. -/
def RunInstallation {σ : Type} (env : Env σ) (cfg : Config) (s : St σ) :
    InstallationResult × St σ :=
  let t0 := call Event.now env.now s
  let r := doInstallation env cfg t0.2
  let t1 := call Event.now env.now r.2
  ({ r.1 with Duration := timeSub t1.1 t0.1 },
    finalize { r.1 with Duration := timeSub t1.1 t0.1 } t0.1 t1.1 t1.2)

/-- Type `setup.StatusPayload` of status.go; a `nil` time pointer is `none`. -/
structure StatusPayload where
  Status : String
  Step : String
  Error : String
  StartedAt : Option Time
  FinishedAt : Option Time
  deriving DecidableEq, Repr

/-- Function `setup.NewStatusPayload` of status.go. -/
def NewStatusPayload (status step err : String) (startedAt finishedAt : Time) :
    StatusPayload :=
  { Status := status, Step := step, Error := err,
    StartedAt := if startedAt ≠ 0 then some startedAt else none,
    FinishedAt := if finishedAt ≠ 0 then some finishedAt else none }

/-- An extracted archive with two top-level folders, each holding a manifest.json. -/
def twoFoldersWorld : Sim :=
  { files := [(".work/bundle/a/manifest.json", [0]), (".work/bundle/b/manifest.json", [0])]
    dirs := [".work/bundle", ".work/bundle/a", ".work/bundle/b"]
    archives := []
    ledger := none
    rejected := []
    clock := 0 }

/-- Operations of the migration loop and of the smoke check. -/
def Event.isMigrationOp : Event → Bool
  | Event.getMigrationRecord _ => true
  | Event.readFile _ => true
  | Event.now => true
  | Event.execContext _ => true
  | Event.beginTx => true
  | Event.txExec _ => true
  | Event.txRollback => true
  | Event.txCommit => true
  | Event.recordMigration _ => true
  | _ => false

/-- Operations performed while the advisory lock is held: the table query, the baseline
with `EnsureMigrationsTable`, the migrations and the smoke check. -/
def Event.isLockedOp : Event → Bool
  | Event.tableExists => true
  | Event.ensureMigrationsTable => true
  | e => e.isMigrationOp

/-- Operations on files, archives and the network; none of them touches the database. -/
def Event.isFileOp : Event → Bool
  | Event.readFile _ => true
  | Event.mkdirAll _ => true
  | Event.removeAll _ => true
  | Event.stat _ => true
  | Event.readDir _ => true
  | Event.download _ _ => true
  | Event.openZip _ => true
  | Event.closeZip => true
  | Event.openEntry _ => true
  | Event.create _ => true
  | Event.copy _ _ => true
  | _ => false

/-- The run from `s` to `s1` appended only events of the class `P` to the trace. -/
def Emits {σ : Type} (P : Event → Bool) (s s1 : St σ) : Prop :=
  ∃ evs : List Event, s1.trace = s.trace ++ evs ∧ ∀ e ∈ evs, P e = true

/-- The database part of a run's trace, for advisory key `key`: nothing; a failed
connection; a failed ping; a failed lock; or connection, ping, lock, the operations done
under the lock, then the unlock with the same key and the connection's `Close`. -/
def LockDiscipline (key : Int) (post : List Event) : Prop :=
  post = [] ∨ post = [Event.conn] ∨ post = [Event.conn, Event.ping, Event.connClose] ∨
    post = [Event.conn, Event.ping, Event.lock key, Event.connClose] ∨
    ∃ evs : List Event, (∀ e ∈ evs, e.isLockedOp = true) ∧
      post = [Event.conn, Event.ping, Event.lock key] ++ evs ++
        [Event.unlock key, Event.connClose]

/-! ## Manifest decoding (manifest.go) -/

/-- A JSON value as `encoding/json` parses it; `BaselinePath.UnmarshalJSON` receives the
text of one value, and `data[0] == '"'` holds exactly for a string. -/
inductive JSON where
  | null
  | bool (b : Bool)
  | number (text : String)
  | string (s : String)
  | array (items : List JSON)
  | object (members : List (String × JSON))

/-- The JSON kind named in the error of `encoding/json`. -/
def JSON.kind : JSON → String
  | JSON.null => "null"
  | JSON.bool _ => "bool"
  | JSON.number _ => "number"
  | JSON.string _ => "string"
  | JSON.array _ => "array"
  | JSON.object _ => "object"

/-- Whether a value can be stored in a Go `string` field: a string sets it, `null`
leaves it as it is. -/
def JSON.isStringOrNull : JSON → Bool
  | JSON.null => true
  | JSON.string _ => true
  | _ => false

/-- Match of an object key with the struct field tagged `field` (a lower-case name):
`encoding/json` compares the names ignoring letter case. -/
def keyMatches (key field : String) : Bool :=
  key.data.map Char.toLower = field.data

/-- Decoding of one member value into a Go `string` field holding `current`. -/
def decodeStringField (field current : String) (v : JSON) : Except String String :=
  match v with
  | JSON.string s => .ok s
  | JSON.null => .ok current
  | other =>
    .error ("json: cannot unmarshal " ++ other.kind ++ " into Go struct field ." ++ field ++
      " of type string")

/-- Decoding of the members of an object into the struct `{File, Path string}` of line 24
of manifest.go, in member order; members with other names are skipped, and the first
type error is the result. -/
def decodeMembers : List (String × JSON) → String × String → Except String (String × String)
  | [], acc => .ok acc
  | m :: rest, acc =>
    if keyMatches m.1 "file" then
      match decodeStringField "file" acc.1 m.2 with
      | .error e => .error e
      | .ok f => decodeMembers rest (f, acc.2)
    else if keyMatches m.1 "path" then
      match decodeStringField "path" acc.2 m.2 with
      | .error e => .error e
      | .ok p => decodeMembers rest (acc.1, p)
    else decodeMembers rest acc

/-- The call `json.Unmarshal(data, &obj)` of line 28 of manifest.go: an object fills the
fields, `null` leaves them empty, any other value is a type error. -/
def unmarshalFilePath (v : JSON) : Except String (String × String) :=
  match v with
  | JSON.object members => decodeMembers members ("", "")
  | JSON.null => .ok ("", "")
  | other =>
    .error ("json: cannot unmarshal " ++ other.kind ++
      " into Go value of type struct { File string; Path string }")

/-- Method `BaselinePath.UnmarshalJSON` of manifest.go: the decoded baseline, or the
error. -/
def UnmarshalJSON (data : JSON) : Except String String :=
  match data with
  | JSON.string s => .ok s
  | other =>
    match unmarshalFilePath other with
    | .error e => .error e
    | .ok obj => if obj.1 ≠ "" then .ok obj.1 else .ok obj.2

/-- The value of the last member named `field` that carries a string, `init` when
there is none. -/
def lastString (field : String) : String → List (String × JSON) → String
  | init, [] => init
  | init, m :: rest =>
    lastString field
      (if keyMatches m.1 field then
        match m.2 with
        | JSON.string s => s
        | _ => init
       else init) rest

/-- An HTTP answer carrying a status payload. -/
structure StatusResponse where
  code : Nat
  body : StatusPayload
  deriving DecidableEq, Repr

/-- Lines 25-26 of controller.go, the branch of `Installation` taken when `TryStart`
returned false: the status is read with `GetStatus` and sent with HTTP 409.  `none` is the
dereference of a `nil` status. -/
def conflictResponse (status : Option RunStatus) : Option StatusResponse :=
  match status with
  | none => none
  | some st =>
    some { code := 409,
           body := NewStatusPayload st.Status st.Step st.Error st.StartedAt st.FinishedAt }

/-- The steps that requests and the run in flight take on a `Service`; the mutex makes
each of them atomic.  `tryStart` is a request calling `TryStart`; the other three belong
to a run started by a `TryStart` that returned true: `updateStep`, any other operation
of `doInstallation` (it changes the world and the trace, never the status), and the
final block of `RunInstallation`. -/
inductive Action (σ : Type) where
  | tryStart
  | updateStep (label : String)
  | work (world : σ) (events : List Event)
  | finalize (result : InstallationResult) (start now : Time)

/-- A `Service` together with the number of runs in flight: runs started by a `TryStart`
that returned true and not yet finalized. -/
structure Sys (σ : Type) where
  st : St σ
  inFlight : Nat

/-- One atomic step; `none` when the step is not possible, that is when a step of a run
is taken although no run is in flight. -/
def Sys.step {σ : Type} (env : Env σ) (a : Action σ) (y : Sys σ) : Option (Sys σ) :=
  match a with
  | Action.tryStart =>
    some { st := (TryStart env y.st).2,
           inFlight := if (TryStart env y.st).1 then y.inFlight + 1 else y.inFlight }
  | Action.updateStep label =>
    if y.inFlight = 0 then none else some { y with st := updateStep label y.st }
  | Action.work w evs =>
    if y.inFlight = 0 then none
    else some { y with st := { world := w, trace := y.st.trace ++ evs, status := y.st.status } }
  | Action.finalize result start now =>
    if y.inFlight = 0 then none
    else some { st := finalize result start now y.st, inFlight := y.inFlight - 1 }

/-- A schedule of atomic steps. -/
def Sys.run {σ : Type} (env : Env σ) : List (Action σ) → Sys σ → Option (Sys σ)
  | [], y => some y
  | a :: rest, y =>
    match Sys.step env a y with
    | none => none
    | some y1 => Sys.run env rest y1

/-- A new `Service` in the world of the fixtures: no status, no run in flight. -/
def newService : Sys Sim :=
  { st := { world := { appliedWorld with clock := 5 }, trace := [], status := none },
    inFlight := 0 }

/-- The service of `newService` after a successful `TryStart` and the step update to
`LOCK_DB` of the run it started. -/
def busyService : Sys Sim :=
  { st :=
      { world := { appliedWorld with clock := 1000005 },
        trace := [Event.now],
        status := some { Status := StatusRunning, Step := StepLockDB, StartedAt := 5 } },
    inFlight := 1 }

/-! ## Cleaned paths -/

/-- Path elements joined with the separator: `List.intercalate` in recursive form. -/
def joinSep : List (List Char) → List Char
  | [] => []
  | [c] => c
  | c :: d :: rest => c ++ '/' :: joinSep (d :: rest)

/-- Function `Clean` on the characters of the path. -/
def cleanChars (p : List Char) : List Char :=
  if p = [] then ['.']
  else if p.head? = some '/' then
    '/' :: joinSep ((splitSep p).foldl (cleanElem true) []).reverse
  else if joinSep ((splitSep p).foldl (cleanElem false) []).reverse = [] then ['.']
  else joinSep ((splitSep p).foldl (cleanElem false) []).reverse

/-- A path element that `Clean` keeps: not empty, not `.`, without separator. -/
def properElem (c : List Char) : Prop := c ≠ [] ∧ c ≠ ['.'] ∧ '/' ∉ c

/-- The kept elements of a cleaned path, last one first: all proper, and `..` only in
an unrooted path with nothing but `..` before it. -/
def validOut (rooted : Bool) : List (List Char) → Prop
  | [] => True
  | c :: rest =>
    properElem c ∧ validOut rooted rest ∧
      (c = ['.', '.'] → rooted = false ∧ ∀ x ∈ rest, x = ['.', '.'])

/-- The text of a cleaned path with the given elements. -/
def render (rooted : Bool) (cs : List (List Char)) : List Char :=
  if rooted then '/' :: joinSep cs else if cs = [] then ['.'] else joinSep cs

/-- The test of line 64 of bundle.go applied to a path: its cleaned form is the cleaned
destination, or starts with the cleaned destination followed by the separator. -/
def underDest (dest path : String) : Bool :=
  Clean path = Clean dest ∨ startsWith (Clean path) (Clean dest ++ "/")

/-- The events of an extraction that stays inside the destination: files are created and
written under the destination; directories are created under the destination, or the
parent of the destination is (for a regular entry whose target is the destination). -/
def Event.staysInside (dest : String) : Event → Bool
  | Event.openZip _ => true
  | Event.closeZip => true
  | Event.openEntry _ => true
  | Event.create path => underDest dest path
  | Event.copy path _ => underDest dest path
  | Event.mkdirAll path => underDest dest path || path = Dir (Clean dest)
  | _ => false

/-- A downloaded archive whose only entry is a regular file named `.`; no directory
exists yet. -/
def dotWorld : Sim :=
  { files := []
    dirs := []
    archives := [("out/db-bundle.zip", [{ Name := ".", IsDir := false, Data := [7] }])]
    ledger := none
    rejected := []
    clock := 0 }

/-! ## Status handler and sequences of calls -/

/-- Method `Controller.Status` of controller.go: HTTP 200 with the payload of the status
read with `GetStatus`, and the payload "idle" when that is `nil`. -/
def Controller.Status {σ : Type} (s : St σ) : StatusResponse :=
  match GetStatus s with
  | none => { code := 200, body := NewStatusPayload "idle" "" "" 0 0 }
  | some st =>
    { code := 200,
      body := NewStatusPayload st.Status st.Step st.Error st.StartedAt st.FinishedAt }

/-- A call of one of the methods of `Service` that write the status. -/
inductive ServiceCall where
  | tryStart
  | updateStep (step : String)
  | runInstallation (cfg : Config)

/-- The state of the service after one call. -/
def ServiceCall.apply {σ : Type} (env : Env σ) (c : ServiceCall) (s : St σ) : St σ :=
  match c with
  | ServiceCall.tryStart => (TryStart env s).2
  | ServiceCall.updateStep step => AgentService.updateStep step s
  | ServiceCall.runInstallation cfg => (RunInstallation env cfg s).2

/-- The state of the service after a sequence of calls. -/
def runCalls {σ : Type} (env : Env σ) : List ServiceCall → St σ → St σ
  | [], s => s
  | c :: rest, s => runCalls env rest (ServiceCall.apply env c s)

/-- The state after one atomic step of `Action`, taken in any state. -/
def Action.apply {σ : Type} (env : Env σ) (a : Action σ) (s : St σ) : St σ :=
  match a with
  | Action.tryStart => (TryStart env s).2
  | Action.updateStep label => AgentService.updateStep label s
  | Action.work w evs => { world := w, trace := s.trace ++ evs, status := s.status }
  | Action.finalize result start now => AgentService.finalize result start now s

/-- The state after a schedule of atomic steps, taken in any state. -/
def runActions {σ : Type} (env : Env σ) : List (Action σ) → St σ → St σ
  | [], s => s
  | a :: rest, s => runActions env rest (Action.apply env a s)

/-- The environment in which the upsert of `RecordMigration` returns `err w rec` in place
of its own error, and changes the world as before; every other operation is unchanged. -/
def withLedgerErrors {σ : Type} (env : Env σ) (err : σ → MigrationRecord → Option String) :
    Env σ :=
  { env with upsertRecord := fun w r => (err w r, (env.upsertRecord w r).2) }

/-- The environment in which checksums.json parses as `parse` says; every other
operation is unchanged. -/
def withChecksums {σ : Type} (env : Env σ)
    (parse : Bytes → Except String (List (String × String))) : Env σ :=
  { env with parseChecksums := parse }

/-- The environment whose checksums.json lists the baseline and `m1.sql`, not `m2.sql`. -/
def partialEnv : Env Sim :=
  simEnv [("base.sql", "sha256:01"), ("m1.sql", "02")] demoManifest

/-- The file paths a manifest refers to: the baseline, the smoke check and the file of
each migration. -/
def manifestPaths (manifest : Manifest) : List String :=
  manifest.Baseline :: manifest.Smoke :: manifest.Migrations.map fun m => m.File

/-- Events that read no file but those at the given paths. -/
def Event.readsOnly (paths : List String) : Event → Bool
  | Event.readFile path => path ∈ paths
  | _ => true

/-- A manifest whose only migration refers to a file next to the bundle directory. -/
def escapeManifest : Manifest :=
  { Baseline := "base.sql",
    Migrations := [{ Version := "001", Name := "escape", File := "../outside.sql",
                     Transaction := false }],
    Smoke := "" }

/-- The environment of the bundle with `escapeManifest`; checksums.json lists the
baseline. -/
def escapeEnv : Env Sim := simEnv [("base.sql", "01")] escapeManifest

/-- A fresh database, the downloaded bundle of `escapeManifest`, and a file
`.work/outside.sql` that is not part of the bundle. -/
def escapeWorld : Sim :=
  { files := [(".work/outside.sql", [9])]
    dirs := []
    archives := [(".work/db-bundle.zip",
      [{ Name := "manifest.json", IsDir := false, Data := [0] },
       { Name := "checksums.json", IsDir := false, Data := [0] },
       { Name := "base.sql", IsDir := false, Data := [1] }])]
    ledger := none
    rejected := []
    clock := 0 }

/-- Events that submit an SQL batch of the bundle to the database: `ExecContext` on the
connection or on a transaction. -/
def Event.sendsSQL : Event → Bool
  | Event.execContext _ => true
  | Event.txExec _ => true
  | _ => false

/-- The environment of the fixtures with a connection on which `BeginTx` fails. -/
def noTxEnv : Env Sim :=
  { demoEnv with beginTx := fun w => (some "connection reset", w) }

/-- The extracted bundle and an empty ledger table. -/
def emptyLedgerWorld : Sim := demoWorld (some []) []

/-! ## Specification of the migration phase (section 4.7) -/

/-- The versions whose SQL was submitted to the database, in trace order.  Every iteration
of the loop starts with the ledger lookup of its version (line 220 of service.go), so a
batch submitted with `ExecContext`, on the connection or inside a transaction, belongs to
the version of the last lookup before it; `cur` is that version. -/
def sentVersions : Option String → List Event → List String
  | _, [] => []
  | cur, e :: rest =>
    match e with
    | Event.getMigrationRecord v => sentVersions (some v) rest
    | Event.execContext _ => cur.toList ++ sentVersions cur rest
    | Event.txExec _ => cur.toList ++ sentVersions cur rest
    | _ => sentVersions cur rest

/-- The sequence of executed versions of a run of the migration loop, read off the SQL
batches submitted in its trace. -/
def executedVersions (t : List Event) : List String :=
  sentVersions none t

/-- Specification, section 4.7 step 4 ("Transaction mode"): with the `transaction` flag the
statement batch is wrapped in BEGIN/COMMIT, with a rollback on error; otherwise it is
executed directly.  The result is the error (none on success), the world afterwards and
whether the batch was submitted: it is not when BEGIN fails. -/
def specRunBatch {σ : Type} (env : Env σ) (transaction : Bool) (sql : Bytes) (w : σ) :
    Option String × σ × Bool :=
  if transaction then
    match env.beginTx w with
    | (some e, w1) => (some ("begin tx: " ++ e), w1, false)
    | (none, w1) =>
      match env.txExec w1 sql with
      | (some e, w2) => (some e, (env.txRollback w2).2, true)
      | (none, w2) => ((env.txCommit w2).1, (env.txCommit w2).2, true)
  else ((env.execContext w sql).1, (env.execContext w sql).2, true)

/-- Specification, section 4.7 steps 4 to 6: apply one migration.  The batch is run and
timed, and a ledger record with the checksum, `applied_at = now`, the elapsed
milliseconds, the outcome and the error message is upserted, whatever the outcome.  The
result is the executed versions (the version, if the batch was submitted) and the world in
which the next migration is handled, or none when the migration failed and the run ends. -/
def specApply {σ : Type} (env : Env σ) (mig : Migration) (sql : Bytes) (w : σ) :
    List String × Option σ :=
  let start := env.now w
  let run := specRunBatch env mig.Transaction sql start.2
  let finish := env.now run.2.1
  let applied := env.now finish.2
  let recorded := env.upsertRecord applied.2
    { Version := mig.Version, Name := mig.Name, Checksum := SHA256Hex env sql,
      AppliedAt := applied.1, ExecTimeMs := Milliseconds (timeSub finish.1 start.1),
      Success := run.1.isNone, ErrorMsg := run.1.getD "" }
  (if run.2.2 then [mig.Version] else [], if run.1.isNone then some recorded.2 else none)

/-- Specification, section 4.7 steps 1 to 3 for one manifest entry in the world `w`: read
the file and compute its checksum, look up the ledger record, and decide.  A file or a
ledger that cannot be read ends the run.  A prior record with `success = true` and no
`force` means skip.  Any other prior record must carry the checksum of the file, or the
run ends with a checksum mismatch (the specification says so for `force = true`; for a
failed record without `force` the same test applies).  Otherwise the migration is
applied. -/
def specEntry {σ : Type} (env : Env σ) (force : Bool) (baseDir : String) (mig : Migration)
    (w : σ) : List String × Option σ :=
  match (env.readFile w (Join baseDir mig.File)).1 with
  | .error _ => ([], none)
  | .ok sql =>
    match (env.selectRecord w mig.Version).1 with
    | .error _ => ([], none)
    | .ok none => specApply env mig sql w
    | .ok (some row) =>
      if row.success = true ∧ force = false then ([], some w)
      else if row.checksum ≠ SHA256Hex env sql then ([], none)
      else specApply env mig sql w

/-- Specification of the executed versions: the manifest's migration list in declaration
order, with the skipped entries removed, truncated after the first migration that fails
or is rejected. -/
def specExecuted {σ : Type} (env : Env σ) (force : Bool) (baseDir : String) :
    List Migration → σ → List String
  | [], _ => []
  | mig :: rest, w =>
    (specEntry env force baseDir mig w).1 ++
      match (specEntry env force baseDir mig w).2 with
      | some w1 => specExecuted env force baseDir rest w1
      | none => []

/-! # Properties -/

theorem startsWith_append (a b : String) : startsWith (a ++ b) a = true := by
  simp [startsWith, String.data_append]

theorem migrationStep_some {σ : Type} (env : Env σ) (force : Bool) (baseDir : String)
    (mig : Migration) (s : St σ) (row : MigrationRow) (w1 w2 : σ) (sql : Bytes)
    (hq : env.selectRecord s.world mig.Version = (.ok (some row), w1))
    (hf : env.readFile w1 (Join baseDir mig.File) = (.ok sql, w2)) :
    migrationStep env force baseDir mig s =
      if row.success && !force then (Flow.next mig.Version, afterRead baseDir mig s w2)
      else if row.checksum ≠ SHA256Hex env sql then
        (Flow.ret (mismatchResult mig.Version row.checksum (SHA256Hex env sql)),
          afterRead baseDir mig s w2)
      else applyMigration env mig sql (SHA256Hex env sql) (afterRead baseDir mig s w2) := by
  simp [migrationStep, GetMigrationRecord, call, hq, hf, afterRead, mismatchResult]

theorem migrationStep_none {σ : Type} (env : Env σ) (force : Bool) (baseDir : String)
    (mig : Migration) (s : St σ) (w1 w2 : σ) (sql : Bytes)
    (hq : env.selectRecord s.world mig.Version = (.ok none, w1))
    (hf : env.readFile w1 (Join baseDir mig.File) = (.ok sql, w2)) :
    migrationStep env force baseDir mig s =
      applyMigration env mig sql (SHA256Hex env sql) (afterRead baseDir mig s w2) := by
  simp [migrationStep, GetMigrationRecord, call, hq, hf, afterRead]

/-- C1: with `force = false`, a migration whose ledger record has `success = true` is
skipped whatever its file contains: the iteration performs the lookup and the file read
and nothing else (no SQL execution, no `RecordMigration`), sets `lastVersion` to the
version, and the loop goes on with the next migration. -/
theorem C1_successful_record_is_skipped {σ : Type} (env : Env σ) (baseDir : String)
    (mig : Migration) (rest : List Migration) (lastVersion : String) (s : St σ)
    (row : MigrationRow) (w1 w2 : σ) (content : Bytes)
    (hq : env.selectRecord s.world mig.Version = (.ok (some row), w1))
    (hsucc : row.success = true)
    (hf : env.readFile w1 (Join baseDir mig.File) = (.ok content, w2)) :
    migrationStep env false baseDir mig s =
        (Flow.next mig.Version,
          { world := w2,
            trace := s.trace ++ [Event.getMigrationRecord mig.Version,
              Event.readFile (Join baseDir mig.File)],
            status := s.status }) ∧
      applyMigrations env false baseDir (mig :: rest) lastVersion s =
        applyMigrations env false baseDir rest mig.Version
          { world := w2,
            trace := s.trace ++ [Event.getMigrationRecord mig.Version,
              Event.readFile (Join baseDir mig.File)],
            status := s.status } := by
  have h := migrationStep_some env false baseDir mig s row w1 w2 content hq hf
  simp [hsucc, afterRead] at h
  exact ⟨h, by simp [applyMigrations, h]⟩

theorem applyMigrations_append {σ : Type} (env : Env σ) (force : Bool) (baseDir : String)
    (pre post : List Migration) (lastVersion : String) (s : St σ) :
    applyMigrations env force baseDir (pre ++ post) lastVersion s =
      match applyMigrations env force baseDir pre lastVersion s with
      | (Flow.ret r, s1) => (Flow.ret r, s1)
      | (Flow.next v, s1) => applyMigrations env force baseDir post v s1 := by
  induction pre generalizing lastVersion s with
  | nil => simp [applyMigrations]
  | cons mig pre ih =>
    simp only [List.cons_append, applyMigrations]
    rcases hstep : migrationStep env force baseDir mig s with ⟨fl, s1⟩
    cases fl with
    | ret r => simp
    | next v => simpa using ih v s1

/-- When the loop has gone through `pre` and the next iteration returns `r`, so does the
whole of lines 217-291: later migrations and the smoke check are not reached. -/
theorem migrateAndCheck_ret {σ : Type} (env : Env σ) (force skipSmoke : Bool)
    (baseDir : String) (manifest : Manifest) (pre rest : List Migration) (mig : Migration)
    (s0 s s1 : St σ) (v : String) (r : InstallationResult)
    (hman : manifest.Migrations = pre ++ mig :: rest)
    (hpre : applyMigrations env force baseDir pre "" (updateStep StepApplyMigrations s0) =
      (Flow.next v, s))
    (hstep : migrationStep env force baseDir mig s = (Flow.ret r, s1)) :
    migrateAndCheck env force skipSmoke baseDir manifest s0 = (r, s1) := by
  simp [migrateAndCheck, hman, applyMigrations_append, hpre, applyMigrations, hstep]

theorem mismatch_step {σ : Type} (env : Env σ) (force : Bool) (baseDir : String)
    (mig : Migration) (s : St σ) (row : MigrationRow) (w1 w2 : σ) (content : Bytes)
    (hq : env.selectRecord s.world mig.Version = (.ok (some row), w1))
    (hf : env.readFile w1 (Join baseDir mig.File) = (.ok content, w2))
    (hgate : force = true ∨ row.success = false)
    (hne : row.checksum ≠ SHA256Hex env content) :
    migrationStep env force baseDir mig s =
      (Flow.ret (mismatchResult mig.Version row.checksum (SHA256Hex env content)),
        afterRead baseDir mig s w2) := by
  rw [migrationStep_some env force baseDir mig s row w1 w2 content hq hf]
  rcases hgate with h | h <;> simp [h, hne]

theorem mismatchResult_fields (version recorded file : String) :
    (mismatchResult version recorded file).Success = false ∧
      (mismatchResult version recorded file).Step = "APPLY_MIGRATIONS" ∧
      startsWith (mismatchResult version recorded file).Error
        ("checksum mismatch for migration " ++ version) = true := by
  refine ⟨rfl, rfl, ?_⟩
  simp only [mismatchResult, String.append_assoc]
  exact startsWith_append _ _

/-- C2, as stated, fails for the ledger: in scenario 3 with `force = true` the run ends
with the checksum-mismatch failure for `002`, yet `001`, whose checksum matches, was
re-executed and recorded again before, so the ledger is not left unchanged. -/
theorem C2_counterexample_earlier_migration_is_recorded_again :
    (migrateAndCheck demoEnv true false "/b" demoManifest (demoState driftWorld)).1 =
        mismatchResult "002" "ff" "03" ∧
      (migrateAndCheck demoEnv true false "/b" demoManifest
        (demoState driftWorld)).2.trace =
        [Event.getMigrationRecord "001", Event.readFile "/b/m1.sql", Event.now,
          Event.beginTx, Event.txExec [2], Event.txCommit, Event.now, Event.now,
          Event.recordMigration
            { Version := "001", Name := "init", Checksum := "02", AppliedAt := 2000000,
              ExecTimeMs := 1, Success := true, ErrorMsg := "" },
          Event.getMigrationRecord "002", Event.readFile "/b/m2.sql"] ∧
      (migrateAndCheck demoEnv true false "/b" demoManifest
        (demoState driftWorld)).2.world.ledger ≠ driftWorld.ledger ∧
      (migrateAndCheck demoEnv true false "/b" demoManifest
        (demoState driftWorld)).2.world.ledger =
        some [{ version := "001", name := "init", checksum := "02", applied_at := 2000000,
                execution_time_ms := 1, success := true, error := some "" },
              demoRow "002" "ff" true] := by
  refine ⟨by decide, by decide, by decide, by decide⟩

/-- C2 (amended): with `force = true`, a migration reached by the loop whose ledger record
(successful or failed) carries a checksum different from `SHA256Hex` of the current file
makes lines 217-291 of `doInstallation` return `Success = false`, `Step = APPLY_MIGRATIONS`
and an error starting with "checksum mismatch for migration <version>".  The iteration
performed only the lookup and the file read: the SQL was not executed and
`RecordMigration` was not called for it, so the world, and with it the ledger, is the one
the earlier iterations left (the one the lookup and the read returned, which is the world
they started from when queries change nothing); when the migration is the first of the
manifest the whole of lines 217-291 is the lookup and the read. -/
theorem C2_force_checksum_mismatch_fails {σ : Type} (env : Env σ) (skipSmoke : Bool)
    (baseDir : String) (manifest : Manifest) (pre rest : List Migration) (mig : Migration)
    (s0 s : St σ) (v : String) (row : MigrationRow) (w1 w2 : σ) (content : Bytes)
    (hman : manifest.Migrations = pre ++ mig :: rest)
    (hpre : applyMigrations env true baseDir pre "" (updateStep StepApplyMigrations s0) =
      (Flow.next v, s))
    (hq : env.selectRecord s.world mig.Version = (.ok (some row), w1))
    (hf : env.readFile w1 (Join baseDir mig.File) = (.ok content, w2))
    (hne : row.checksum ≠ SHA256Hex env content) :
    (∃ r : InstallationResult,
      migrateAndCheck env true skipSmoke baseDir manifest s0 =
        (r, { world := w2,
              trace := s.trace ++ [Event.getMigrationRecord mig.Version,
                Event.readFile (Join baseDir mig.File)],
              status := s.status }) ∧
      r.Success = false ∧ r.Step = "APPLY_MIGRATIONS" ∧
      startsWith r.Error ("checksum mismatch for migration " ++ mig.Version) = true) ∧
      (w1 = s.world → w2 = w1 →
        (migrateAndCheck env true skipSmoke baseDir manifest s0).2.world = s.world) ∧
      (pre = [] →
        (migrateAndCheck env true skipSmoke baseDir manifest s0).2.trace =
          s0.trace ++ [Event.getMigrationRecord mig.Version,
            Event.readFile (Join baseDir mig.File)]) := by
  have hmain := migrateAndCheck_ret env true skipSmoke baseDir manifest pre rest mig s0 s _ v _
    hman hpre
    (mismatch_step env true baseDir mig s row w1 w2 content hq hf (Or.inl rfl) hne)
  refine ⟨⟨mismatchResult mig.Version row.checksum (SHA256Hex env content), hmain,
    mismatchResult_fields _ _ _⟩, ?_, ?_⟩
  · intro h1 h2
    rw [hmain, h2, h1]
    rfl
  · intro hnil
    subst hnil
    simp only [applyMigrations, Prod.mk.injEq, Flow.next.injEq] at hpre
    have ht : s.trace = s0.trace := by
      rw [← hpre.2]
      simp only [updateStep]
      split <;> rfl
    rw [hmain, ← ht]
    rfl

/-- Witness of C1: the re-run of scenario 2 skips `001` and goes on with `002`. -/
theorem C1_successful_record_is_skipped_witness :
    migrationStep demoEnv false "/b" demoM1 (demoState appliedWorld) =
        (Flow.next "001",
          { world := appliedWorld,
            trace := [Event.getMigrationRecord "001", Event.readFile "/b/m1.sql"],
            status := (demoState appliedWorld).status }) ∧
      applyMigrations demoEnv false "/b" [demoM1, demoM2] "" (demoState appliedWorld) =
        applyMigrations demoEnv false "/b" [demoM2] "001"
          { world := appliedWorld,
            trace := [Event.getMigrationRecord "001", Event.readFile "/b/m1.sql"],
            status := (demoState appliedWorld).status } :=
  C1_successful_record_is_skipped demoEnv "/b" demoM1 [demoM2] "" (demoState appliedWorld)
    (demoRow "001" "02" true) appliedWorld appliedWorld [2] rfl rfl rfl

/-- Witness of C2 (amended): scenario 3, `m2.sql` modified and `force = true`; the lookup
and the read of `002` leave the world as the re-application of `001` left it. -/
theorem C2_force_checksum_mismatch_fails_witness :
    (∃ r : InstallationResult,
      migrateAndCheck demoEnv true false "/b" demoManifest (demoState driftWorld) =
        (r, { world := driftAfterM1.world,
              trace := driftAfterM1.trace ++
                [Event.getMigrationRecord "002", Event.readFile "/b/m2.sql"],
              status := driftAfterM1.status }) ∧
      r.Success = false ∧ r.Step = "APPLY_MIGRATIONS" ∧
      startsWith r.Error ("checksum mismatch for migration " ++ "002") = true) ∧
      (migrateAndCheck demoEnv true false "/b" demoManifest
        (demoState driftWorld)).2.world = driftAfterM1.world :=
  ⟨(C2_force_checksum_mismatch_fails demoEnv false "/b" demoManifest [demoM1] [] demoM2
      (demoState driftWorld) driftAfterM1 "001" (demoRow "002" "ff" true) driftAfterM1.world
      driftAfterM1.world [3] rfl rfl rfl rfl (by decide)).1,
    (C2_force_checksum_mismatch_fails demoEnv false "/b" demoManifest [demoM1] [] demoM2
      (demoState driftWorld) driftAfterM1 "001" (demoRow "002" "ff" true) driftAfterM1.world
      driftAfterM1.world [3] rfl rfl rfl rfl (by decide)).2.1 rfl rfl⟩

theorem execMigration_trace {σ : Type} (env : Env σ) (mig : Migration) (sql : Bytes)
    (s : St σ) :
    ∃ evs : List Event,
      (execMigration env mig sql s).2.trace = s.trace ++ evs ∧
      (mig.Transaction = false → evs = [Event.execContext sql]) ∧
      (mig.Transaction = true → (env.beginTx s.world).1 = none →
        ∃ e, evs = [Event.beginTx, Event.txExec sql, e]) ∧
      (mig.Transaction = true → (env.beginTx s.world).1 ≠ none → evs = [Event.beginTx]) ∧
      ∀ rec, Event.recordMigration rec ∉ evs := by
  unfold execMigration
  by_cases htx : mig.Transaction = true
  · simp only [htx, if_true]
    unfold ExecInTransaction
    rcases hb : (env.beginTx s.world).1 with _ | e
    · rcases hx : (env.txExec (env.beginTx s.world).2 sql).1 with _ | e
      · exact ⟨[Event.beginTx, Event.txExec sql, Event.txCommit],
          by simp [call, hb, hx], by simp, by simp, by simp, by simp⟩
      · exact ⟨[Event.beginTx, Event.txExec sql, Event.txRollback],
          by simp [call, hb, hx], by simp, by simp, by simp, by simp⟩
    · exact ⟨[Event.beginTx], by simp [call, hb], by simp, by simp, by simp, by simp⟩
  · simp only [htx]
    exact ⟨[Event.execContext sql], by simp [call], by simp, by simp, by simp, by simp⟩

theorem applyMigration_trace {σ : Type} (env : Env σ) (mig : Migration) (sql : Bytes)
    (fileChecksum : String) (s : St σ) :
    (applyMigration env mig sql fileChecksum s).2.trace =
      (execMigration env mig sql (call Event.now env.now s).2).2.trace ++
        [Event.now, Event.now,
          Event.recordMigration (migrationRecord mig fileChecksum
            (env.now (env.now (execMigration env mig sql
              (call Event.now env.now s).2).2.world).2).1
            (timeSub (env.now (execMigration env mig sql
              (call Event.now env.now s).2).2.world).1 (env.now s.world).1)
            (execMigration env mig sql (call Event.now env.now s).2).1)] := by
  simp [applyMigration, call, RecordMigration]

theorem applyMigration_events {σ : Type} (env : Env σ) (baseDir : String) (mig : Migration)
    (s : St σ) (w2 : σ) (sql : Bytes) (fileChecksum : String) :
    ∃ (evs : List Event) (rec : MigrationRecord),
      (applyMigration env mig sql fileChecksum (afterRead baseDir mig s w2)).2.trace =
        s.trace ++ [Event.getMigrationRecord mig.Version,
          Event.readFile (Join baseDir mig.File), Event.now] ++ evs ++
          [Event.now, Event.now, Event.recordMigration rec] ∧
      (applyMigration env mig sql fileChecksum (afterRead baseDir mig s w2)).2.trace =
        (execMigration env mig sql (beforeExec env baseDir mig s w2)).2.trace ++
          [Event.now, Event.now, Event.recordMigration rec] ∧
      rec.Version = mig.Version ∧ rec.Name = mig.Name ∧ rec.Checksum = fileChecksum ∧
      (rec.Success = true ↔
        (execMigration env mig sql (beforeExec env baseDir mig s w2)).1 = none) ∧
      (∀ e, (execMigration env mig sql (beforeExec env baseDir mig s w2)).1 = some e →
        rec.ErrorMsg = e) ∧
      ((execMigration env mig sql (beforeExec env baseDir mig s w2)).1 = none →
        rec.ErrorMsg = "") ∧
      (mig.Transaction = false → evs = [Event.execContext sql]) ∧
      (mig.Transaction = true → (env.beginTx (env.now w2).2).1 = none →
        ∃ e, evs = [Event.beginTx, Event.txExec sql, e]) ∧
      (mig.Transaction = true → (env.beginTx (env.now w2).2).1 ≠ none →
        evs = [Event.beginTx]) ∧
      ∀ r, Event.recordMigration r ∉ evs := by
  obtain ⟨evs, htr, h1, h2, h3, h4⟩ :=
    execMigration_trace env mig sql (beforeExec env baseDir mig s w2)
  have hb : (beforeExec env baseDir mig s w2).trace =
      s.trace ++ [Event.getMigrationRecord mig.Version,
        Event.readFile (Join baseDir mig.File), Event.now] := by
    simp [beforeExec, call, afterRead]
  have hw : (beforeExec env baseDir mig s w2).world = (env.now w2).2 := by
    simp [beforeExec, call, afterRead]
  refine ⟨evs, migrationRecord mig fileChecksum
      (env.now (env.now (execMigration env mig sql
        (call Event.now env.now (afterRead baseDir mig s w2)).2).2.world).2).1
      (timeSub (env.now (execMigration env mig sql
        (call Event.now env.now (afterRead baseDir mig s w2)).2).2.world).1
        (env.now (afterRead baseDir mig s w2).world).1)
      (execMigration env mig sql (call Event.now env.now (afterRead baseDir mig s w2)).2).1,
    ?_, ?_, rfl, rfl, rfl, ?_, ?_, ?_, h1, ?_, ?_, h4⟩
  · rw [applyMigration_trace]
    have : (call Event.now env.now (afterRead baseDir mig s w2)).2 =
        beforeExec env baseDir mig s w2 := rfl
    rw [this, htr, hb]
  · rw [applyMigration_trace]
    rfl
  · show (migrationRecord _ _ _ _ _).Success = true ↔ _
    simp only [migrationRecord, Option.isNone_iff_eq_none]
    rfl
  · intro e he
    show (migrationRecord _ _ _ _ _).ErrorMsg = e
    have : (execMigration env mig sql (call Event.now env.now (afterRead baseDir mig s w2)).2).1
        = some e := he
    simp only [migrationRecord, this]
  · intro he
    show (migrationRecord _ _ _ _ _).ErrorMsg = ""
    have : (execMigration env mig sql (call Event.now env.now (afterRead baseDir mig s w2)).2).1
        = none := he
    simp only [migrationRecord, this]
  · rw [← hw]; exact h2
  · rw [← hw]; exact h3

/-- C3, as stated, fails: `001` has no ledger record and is run in a transaction, and
`BeginTx` fails.  `ExecInTransaction` returns the "begin tx" error without sending the
SQL, so the migration is not executed; the failure is recorded and the run fails. -/
theorem C3_counterexample_failing_begin_sends_no_sql :
    noTxEnv.selectRecord emptyLedgerWorld "001" = (.ok none, emptyLedgerWorld) ∧
      noTxEnv.readFile emptyLedgerWorld "/b/m1.sql" = (.ok [2], emptyLedgerWorld) ∧
      demoM1.Transaction = true ∧
      (migrationStep noTxEnv true "/b" demoM1 (demoState emptyLedgerWorld)).1 =
        Flow.ret { Step := "APPLY_MIGRATIONS",
                   Error := "migration 001 failed: begin tx: connection reset" } ∧
      (migrationStep noTxEnv true "/b" demoM1 (demoState emptyLedgerWorld)).2.trace =
        [Event.getMigrationRecord "001", Event.readFile "/b/m1.sql", Event.now,
          Event.beginTx, Event.now, Event.now,
          Event.recordMigration
            { Version := "001", Name := "init", Checksum := "02", AppliedAt := 2000000,
              ExecTimeMs := 1, Success := false,
              ErrorMsg := "begin tx: connection reset" }] ∧
      (migrationStep noTxEnv true "/b" demoM1
        (demoState emptyLedgerWorld)).2.trace.any Event.sendsSQL = false := by
  refine ⟨rfl, rfl, rfl, by decide, by decide, by decide⟩

/-- C3 (amended): a migration reached by the loop whose file is readable and that has no
ledger record, or, with `force = true`, a record (successful or failed) whose checksum
equals `SHA256Hex` of the current file, is applied.  The clock is read, then the bytes of
the file are sent with `ExecContext` on the connection, or, for a transactional
migration, `BeginTx` is called and on its success the bytes are sent inside the
transaction, which is committed, or rolled back when the SQL fails; when `BeginTx` fails
no SQL is sent.  In every case the clock is read twice more and the ledger record of the
version, with the checksum of the file and the outcome, is upserted: the final world is
the one `upsertRecord` returns.  The loop goes on when the outcome is no error and the
run fails with "migration <version> failed: <error>" otherwise. -/
theorem C3_matching_or_new_migration_is_executed {σ : Type} (env : Env σ) (force : Bool)
    (baseDir : String) (mig : Migration) (s : St σ) (prior : Option MigrationRow)
    (w1 w2 : σ) (content : Bytes)
    (hq : env.selectRecord s.world mig.Version = (.ok prior, w1))
    (hf : env.readFile w1 (Join baseDir mig.File) = (.ok content, w2))
    (hgate : ∀ row, prior = some row → force = true ∧ row.checksum = SHA256Hex env content) :
    ∃ (outcome : Option String) (w4 : σ) (evs : List Event),
      (mig.Transaction = false →
        outcome = (env.execContext (env.now w2).2 content).1 ∧
        w4 = (env.execContext (env.now w2).2 content).2 ∧
        evs = [Event.execContext content]) ∧
      (mig.Transaction = true → ∀ wb, env.beginTx (env.now w2).2 = (none, wb) →
        ((env.txExec wb content).1 = none →
          outcome = (env.txCommit (env.txExec wb content).2).1 ∧
          w4 = (env.txCommit (env.txExec wb content).2).2 ∧
          evs = [Event.beginTx, Event.txExec content, Event.txCommit]) ∧
        (∀ e, (env.txExec wb content).1 = some e →
          outcome = some e ∧
          w4 = (env.txRollback (env.txExec wb content).2).2 ∧
          evs = [Event.beginTx, Event.txExec content, Event.txRollback])) ∧
      (mig.Transaction = true → ∀ e wb, env.beginTx (env.now w2).2 = (some e, wb) →
        outcome = some ("begin tx: " ++ e) ∧ w4 = wb ∧ evs = [Event.beginTx]) ∧
      migrationStep env force baseDir mig s =
        ((match outcome with
          | some e =>
            Flow.ret { Step := "APPLY_MIGRATIONS",
                       Error := "migration " ++ mig.Version ++ " failed: " ++ e }
          | none => Flow.next mig.Version),
         { world := (env.upsertRecord (env.now (env.now w4).2).2
              { Version := mig.Version, Name := mig.Name, Checksum := SHA256Hex env content,
                AppliedAt := (env.now (env.now w4).2).1,
                ExecTimeMs := Milliseconds (timeSub (env.now w4).1 (env.now w2).1),
                Success := outcome.isNone,
                ErrorMsg := outcome.getD "" }).2,
           trace := s.trace ++ [Event.getMigrationRecord mig.Version,
             Event.readFile (Join baseDir mig.File), Event.now] ++ evs ++
             [Event.now, Event.now,
               Event.recordMigration
                 { Version := mig.Version, Name := mig.Name,
                   Checksum := SHA256Hex env content,
                   AppliedAt := (env.now (env.now w4).2).1,
                   ExecTimeMs := Milliseconds (timeSub (env.now w4).1 (env.now w2).1),
                   Success := outcome.isNone,
                   ErrorMsg := outcome.getD "" }],
           status := s.status }) := by
  have hstep : migrationStep env force baseDir mig s =
      applyMigration env mig content (SHA256Hex env content) (afterRead baseDir mig s w2) := by
    cases prior with
    | none => exact migrationStep_none env force baseDir mig s w1 w2 content hq hf
    | some row =>
      obtain ⟨hforce, hsum⟩ := hgate row rfl
      rw [migrationStep_some env force baseDir mig s row w1 w2 content hq hf]
      simp [hforce, hsum]
  rw [hstep]
  by_cases htx : mig.Transaction = true
  · rcases hb : env.beginTx (env.now w2).2 with ⟨b, wb⟩
    cases b with
    | some e =>
      refine ⟨some ("begin tx: " ++ e), wb, [Event.beginTx], by simp [htx], ?_, ?_, ?_⟩
      · intro _ wb2 h2
        cases h2
      · intro _ e2 wb2 h2
        cases h2
        exact ⟨rfl, rfl, rfl⟩
      · simp [applyMigration, execMigration, ExecInTransaction, RecordMigration, call,
          migrationRecord, afterRead, htx, hb, StepApplyMigrations]
    | none =>
      rcases hx : env.txExec wb content with ⟨x, wx⟩
      cases x with
      | some e =>
        refine ⟨some e, (env.txRollback wx).2,
          [Event.beginTx, Event.txExec content, Event.txRollback], by simp [htx], ?_, ?_, ?_⟩
        · intro _ wb2 h2
          cases h2
          rw [hx]
          exact ⟨fun h => (by cases h), fun e2 h => (by cases h; exact ⟨rfl, rfl, rfl⟩)⟩
        · intro _ e2 wb2 h2
          cases h2
        · simp [applyMigration, execMigration, ExecInTransaction, RecordMigration, call,
            migrationRecord, afterRead, htx, hb, hx, StepApplyMigrations]
      | none =>
        refine ⟨(env.txCommit wx).1, (env.txCommit wx).2,
          [Event.beginTx, Event.txExec content, Event.txCommit], by simp [htx], ?_, ?_, ?_⟩
        · intro _ wb2 h2
          cases h2
          rw [hx]
          exact ⟨fun _ => ⟨rfl, rfl, rfl⟩, fun e2 h => (by cases h)⟩
        · intro _ e2 wb2 h2
          cases h2
        · simp only [applyMigration, execMigration, ExecInTransaction, RecordMigration, call,
            migrationRecord, afterRead, htx, hb, hx, if_true]
          cases hc : (env.txCommit wx).1 <;> simp [StepApplyMigrations]
  · have htx2 : mig.Transaction = false := by simpa using htx
    refine ⟨(env.execContext (env.now w2).2 content).1,
      (env.execContext (env.now w2).2 content).2, [Event.execContext content],
      fun _ => ⟨rfl, rfl, rfl⟩, by simp [htx2], by simp [htx2], ?_⟩
    simp only [applyMigration, execMigration, RecordMigration, call,
      migrationRecord, afterRead, htx2]
    cases hc : (env.execContext (env.now w2).2 content).1 <;> simp [StepApplyMigrations]

/-- Witness of C3 (amended): with `force = true`, `001` of scenario 1 is applied again in
its transaction and its ledger row is written again. -/
theorem C3_matching_or_new_migration_is_executed_witness :
    (migrationStep demoEnv true "/b" demoM1 (demoState appliedWorld)).1 = Flow.next "001" ∧
      (migrationStep demoEnv true "/b" demoM1 (demoState appliedWorld)).2.trace =
        [Event.getMigrationRecord "001", Event.readFile "/b/m1.sql", Event.now,
          Event.beginTx, Event.txExec [2], Event.txCommit, Event.now, Event.now,
          Event.recordMigration
            { Version := "001", Name := "init", Checksum := "02", AppliedAt := 2000000,
              ExecTimeMs := 1, Success := true, ErrorMsg := "" }] ∧
      (migrationStep demoEnv true "/b" demoM1 (demoState appliedWorld)).2.world.ledger =
        some [{ version := "001", name := "init", checksum := "02", applied_at := 2000000,
                execution_time_ms := 1, success := true, error := some "" },
              demoRow "002" "03" true] := by
  obtain ⟨outcome, w4, evs, -, htx, -, hstep⟩ :=
    C3_matching_or_new_migration_is_executed demoEnv true "/b" demoM1
      (demoState appliedWorld) (some (demoRow "001" "02" true)) appliedWorld appliedWorld [2]
      rfl rfl (fun row h => by cases h; exact ⟨rfl, rfl⟩)
  obtain ⟨h1, h2, h3⟩ := (htx rfl _ rfl).1 rfl
  subst h1 h2 h3
  rw [hstep]
  exact ⟨rfl, rfl, rfl⟩

/-- C4, as stated, fails: with `force = false`, a ledger record of `002` with
`success = true` and a checksum different from that of the current `m2.sql`, the migration
is skipped and the run succeeds with schema version `002`. -/
theorem C4_counterexample_skip_ignores_drift :
    demoEnv.selectRecord driftWorld "002" =
        (.ok (some (demoRow "002" "ff" true)), driftWorld) ∧
      demoEnv.readFile driftWorld (Join "/b" demoM2.File) = (.ok [3], driftWorld) ∧
      (demoRow "002" "ff" true).checksum ≠ SHA256Hex demoEnv [3] ∧
      migrateAndCheck demoEnv false false "/b" demoManifest (demoState driftWorld) =
        ({ Success := true, SchemaVersion := "002" },
          { world := driftWorld,
            trace := [Event.getMigrationRecord "001", Event.readFile "/b/m1.sql",
              Event.getMigrationRecord "002", Event.readFile "/b/m2.sql"],
            status := some { Status := "running", Step := "APPLY_MIGRATIONS" } }) := by
  refine ⟨rfl, rfl, by decide, rfl⟩

/-- C4 (amended): a migration reached by the loop whose ledger record carries a checksum
different from `SHA256Hex` of the current file makes lines 217-291 of `doInstallation`
return a failure with `Step = APPLY_MIGRATIONS` and a checksum-mismatch error, provided
`force = true` or the record has `success = false`. -/
theorem C4_checksum_drift_fails_unless_skipped {σ : Type} (env : Env σ)
    (force skipSmoke : Bool) (baseDir : String) (manifest : Manifest)
    (pre rest : List Migration) (mig : Migration) (s0 s : St σ) (v : String)
    (row : MigrationRow) (w1 w2 : σ) (content : Bytes)
    (hman : manifest.Migrations = pre ++ mig :: rest)
    (hpre : applyMigrations env force baseDir pre "" (updateStep StepApplyMigrations s0) =
      (Flow.next v, s))
    (hq : env.selectRecord s.world mig.Version = (.ok (some row), w1))
    (hf : env.readFile w1 (Join baseDir mig.File) = (.ok content, w2))
    (hgate : force = true ∨ row.success = false)
    (hne : row.checksum ≠ SHA256Hex env content) :
    (migrateAndCheck env force skipSmoke baseDir manifest s0).1 =
        mismatchResult mig.Version row.checksum (SHA256Hex env content) ∧
      (migrateAndCheck env force skipSmoke baseDir manifest s0).1.Success = false ∧
      (migrateAndCheck env force skipSmoke baseDir manifest s0).1.Step = "APPLY_MIGRATIONS" ∧
      startsWith (migrateAndCheck env force skipSmoke baseDir manifest s0).1.Error
        ("checksum mismatch for migration " ++ mig.Version) = true := by
  have h := migrateAndCheck_ret env force skipSmoke baseDir manifest pre rest mig s0 s _ v _
    hman hpre (mismatch_step env force baseDir mig s row w1 w2 content hq hf hgate hne)
  rw [h]
  exact ⟨rfl, mismatchResult_fields _ _ _⟩

/-- Witness of C4 (amended): `force = false`, the record of `002` is a failed one and
`m2.sql` has changed since. -/
theorem C4_checksum_drift_fails_unless_skipped_witness :
    (migrateAndCheck demoEnv false false "/b" demoManifest (demoState failedDriftWorld)).1 =
        mismatchResult "002" "ff" "03" ∧
      (migrateAndCheck demoEnv false false "/b" demoManifest
        (demoState failedDriftWorld)).1.Success = false ∧
      (migrateAndCheck demoEnv false false "/b" demoManifest
        (demoState failedDriftWorld)).1.Step = "APPLY_MIGRATIONS" ∧
      startsWith (migrateAndCheck demoEnv false false "/b" demoManifest
        (demoState failedDriftWorld)).1.Error
        ("checksum mismatch for migration " ++ "002") = true :=
  C4_checksum_drift_fails_unless_skipped demoEnv false false "/b" demoManifest [demoM1] []
    demoM2 (demoState failedDriftWorld) failedDriftAfterM1 "001" (demoRow "002" "ff" false)
    failedDriftAfterM1.world failedDriftAfterM1.world [3] rfl rfl rfl rfl (Or.inr rfl)
    (by decide)

theorem newEvents_append {σ : Type} (s s1 : St σ) (evs : List Event)
    (h : s1.trace = s.trace ++ evs) : newEvents s s1 = evs := by
  simp [newEvents, h]

/-- C5: whenever an iteration of the loop passes a record to `RecordMigration`, the iteration
read some bytes `sql` from the migration file, executed exactly those bytes, and then passed
the record; its `Version` and `Name` are the manifest entry's, its `Checksum` is
`SHA256Hex sql`, `Success` is true iff the execution returned no error, and `ErrorMsg` is
the execution error's message, empty on success. -/
theorem C5_record_describes_what_was_executed {σ : Type} (env : Env σ) (force : Bool)
    (baseDir : String) (mig : Migration) (s : St σ) (rec : MigrationRecord)
    (h : Event.recordMigration rec ∈
      newEvents s (migrationStep env force baseDir mig s).2) :
    ∃ (prior : Option MigrationRow) (w1 w2 : σ) (sql : Bytes),
      env.selectRecord s.world mig.Version = (.ok prior, w1) ∧
      env.readFile w1 (Join baseDir mig.File) = (.ok sql, w2) ∧
      (migrationStep env force baseDir mig s).2.trace =
        (execMigration env mig sql (beforeExec env baseDir mig s w2)).2.trace ++
          [Event.now, Event.now, Event.recordMigration rec] ∧
      rec.Version = mig.Version ∧ rec.Name = mig.Name ∧ rec.Checksum = SHA256Hex env sql ∧
      (rec.Success = true ↔
        (execMigration env mig sql (beforeExec env baseDir mig s w2)).1 = none) ∧
      (∀ e, (execMigration env mig sql (beforeExec env baseDir mig s w2)).1 = some e →
        rec.ErrorMsg = e) ∧
      ((execMigration env mig sql (beforeExec env baseDir mig s w2)).1 = none →
        rec.ErrorMsg = "") := by
  obtain ⟨q, w1, hq⟩ : ∃ q w1, env.selectRecord s.world mig.Version = (q, w1) :=
    ⟨_, _, rfl⟩
  cases q with
  | error e =>
    exfalso
    have ht : (migrationStep env force baseDir mig s).2.trace =
        s.trace ++ [Event.getMigrationRecord mig.Version] := by
      simp [migrationStep, GetMigrationRecord, call, hq]
    rw [newEvents_append _ _ _ ht] at h
    simp at h
  | ok prior =>
    obtain ⟨f, w2, hf⟩ : ∃ f w2, env.readFile w1 (Join baseDir mig.File) = (f, w2) :=
      ⟨_, _, rfl⟩
    cases f with
    | error e =>
      exfalso
      have ht : (migrationStep env force baseDir mig s).2.trace =
          s.trace ++ [Event.getMigrationRecord mig.Version,
            Event.readFile (Join baseDir mig.File)] := by
        cases prior <;> simp [migrationStep, GetMigrationRecord, call, hq, hf]
      rw [newEvents_append _ _ _ ht] at h
      simp at h
    | ok sql =>
      have hskipped : newEvents s (afterRead baseDir mig s w2) =
          [Event.getMigrationRecord mig.Version, Event.readFile (Join baseDir mig.File)] :=
        newEvents_append _ _ _ rfl
      have happly : migrationStep env force baseDir mig s =
          applyMigration env mig sql (SHA256Hex env sql) (afterRead baseDir mig s w2) →
          ∃ (prior : Option MigrationRow) (w1 w2 : σ) (sql : Bytes),
            env.selectRecord s.world mig.Version = (.ok prior, w1) ∧
            env.readFile w1 (Join baseDir mig.File) = (.ok sql, w2) ∧
            (migrationStep env force baseDir mig s).2.trace =
              (execMigration env mig sql (beforeExec env baseDir mig s w2)).2.trace ++
                [Event.now, Event.now, Event.recordMigration rec] ∧
            rec.Version = mig.Version ∧ rec.Name = mig.Name ∧
            rec.Checksum = SHA256Hex env sql ∧
            (rec.Success = true ↔
              (execMigration env mig sql (beforeExec env baseDir mig s w2)).1 = none) ∧
            (∀ e, (execMigration env mig sql (beforeExec env baseDir mig s w2)).1 = some e →
              rec.ErrorMsg = e) ∧
            ((execMigration env mig sql (beforeExec env baseDir mig s w2)).1 = none →
              rec.ErrorMsg = "") := by
        intro hstep
        obtain ⟨evs, rec0, h1, h2, h3, h4, h5, h6, h7, h8, -, -, -, h12⟩ :=
          applyMigration_events env baseDir mig s w2 sql (SHA256Hex env sql)
        rw [hstep] at h
        rw [newEvents_append _ _ _ (by rw [h1, List.append_assoc, List.append_assoc])] at h
        have hnot := h12 rec
        have hrec : rec = rec0 := by
          simpa [hnot] using h
        subst hrec
        exact ⟨prior, w1, w2, sql, hq, hf, by rw [hstep, h2], h3, h4, h5, h6, h7, h8⟩
      cases prior with
      | none => exact happly (migrationStep_none env force baseDir mig s w1 w2 sql hq hf)
      | some row =>
        have hs := migrationStep_some env force baseDir mig s row w1 w2 sql hq hf
        by_cases hskip : (row.success && !force) = true
        · exfalso
          rw [if_pos hskip] at hs
          rw [hs] at h
          simp [hskipped] at h
        · rw [if_neg hskip] at hs
          by_cases hne : row.checksum ≠ SHA256Hex env sql
          · exfalso
            rw [if_pos hne] at hs
            rw [hs] at h
            simp [hskipped] at h
          · rw [if_neg hne] at hs
            exact happly hs

/-- Witness of C5: `002` has no ledger record and its SQL is rejected by the database. -/
theorem C5_record_describes_what_was_executed_witness :
    ∃ (prior : Option MigrationRow) (w1 w2 : Sim) (sql : Bytes),
      demoEnv.selectRecord (demoState brokenM2World).world demoM2.Version = (.ok prior, w1) ∧
      demoEnv.readFile w1 (Join "/b" demoM2.File) = (.ok sql, w2) ∧
      (migrationStep demoEnv false "/b" demoM2 (demoState brokenM2World)).2.trace =
        (execMigration demoEnv demoM2 sql
          (beforeExec demoEnv "/b" demoM2 (demoState brokenM2World) w2)).2.trace ++
          [Event.now, Event.now, Event.recordMigration
            { Version := "002", Name := "extend", Checksum := "03", AppliedAt := 2000000,
              ExecTimeMs := 1, Success := false, ErrorMsg := "syntax error" }] ∧
      "002" = demoM2.Version ∧ "extend" = demoM2.Name ∧ "03" = SHA256Hex demoEnv sql ∧
      (false = true ↔
        (execMigration demoEnv demoM2 sql
          (beforeExec demoEnv "/b" demoM2 (demoState brokenM2World) w2)).1 = none) ∧
      (∀ e, (execMigration demoEnv demoM2 sql
          (beforeExec demoEnv "/b" demoM2 (demoState brokenM2World) w2)).1 = some e →
        "syntax error" = e) ∧
      ((execMigration demoEnv demoM2 sql
          (beforeExec demoEnv "/b" demoM2 (demoState brokenM2World) w2)).1 = none →
        "syntax error" = "") :=
  C5_record_describes_what_was_executed demoEnv false "/b" demoM2 (demoState brokenM2World)
    { Version := "002", Name := "extend", Checksum := "03", AppliedAt := 2000000,
      ExecTimeMs := 1, Success := false, ErrorMsg := "syntax error" } (by decide)

theorem applyMigration_flow {σ : Type} (env : Env σ) (mig : Migration) (sql : Bytes)
    (fileChecksum : String) (s : St σ) :
    (applyMigration env mig sql fileChecksum s).1 =
      match (execMigration env mig sql (call Event.now env.now s).2).1 with
      | some e =>
        Flow.ret { Step := StepApplyMigrations,
                   Error := "migration " ++ mig.Version ++ " failed: " ++ e }
      | none => Flow.next mig.Version := rfl

theorem migrationStep_ret_not_success {σ : Type} (env : Env σ) (force : Bool)
    (baseDir : String) (mig : Migration) (s : St σ) (r : InstallationResult)
    (h : (migrationStep env force baseDir mig s).1 = Flow.ret r) :
    r.Success = false ∧ r.Step = StepApplyMigrations := by
  obtain ⟨q, w1, hq⟩ : ∃ q w1, env.selectRecord s.world mig.Version = (q, w1) :=
    ⟨_, _, rfl⟩
  cases q with
  | error e =>
    simp [migrationStep, GetMigrationRecord, call, hq] at h
    subst h; exact ⟨rfl, rfl⟩
  | ok prior =>
    obtain ⟨f, w2, hf⟩ : ∃ f w2, env.readFile w1 (Join baseDir mig.File) = (f, w2) :=
      ⟨_, _, rfl⟩
    cases f with
    | error e =>
      cases prior <;>
      · simp [migrationStep, GetMigrationRecord, call, hq, hf] at h
        subst h; exact ⟨rfl, rfl⟩
    | ok sql =>
      have happly : (applyMigration env mig sql (SHA256Hex env sql)
          (afterRead baseDir mig s w2)).1 = Flow.ret r →
          r.Success = false ∧ r.Step = StepApplyMigrations := by
        intro h2
        rw [applyMigration_flow] at h2
        split at h2
        · cases h2; exact ⟨rfl, rfl⟩
        · cases h2
      cases prior with
      | none =>
        rw [migrationStep_none env force baseDir mig s w1 w2 sql hq hf] at h
        exact happly h
      | some row =>
        rw [migrationStep_some env force baseDir mig s row w1 w2 sql hq hf] at h
        split at h
        · cases h
        · split at h
          · cases h; exact ⟨rfl, rfl⟩
          · exact happly h

theorem applyMigrations_ret_not_success {σ : Type} (env : Env σ) (force : Bool)
    (baseDir : String) (migs : List Migration) (lastVersion : String) (s : St σ)
    (r : InstallationResult)
    (h : (applyMigrations env force baseDir migs lastVersion s).1 = Flow.ret r) :
    r.Success = false ∧ r.Step = StepApplyMigrations := by
  induction migs generalizing lastVersion s with
  | nil => simp [applyMigrations] at h
  | cons mig rest ih =>
    simp only [applyMigrations] at h
    rcases hst : migrationStep env force baseDir mig s with ⟨fl, s1⟩
    rw [hst] at h
    cases fl with
    | ret r1 =>
      simp only at h
      cases h
      exact migrationStep_ret_not_success env force baseDir mig s _ (by rw [hst])
    | next v => exact ih v s1 h

theorem migrationStep_next {σ : Type} (env : Env σ) (force : Bool)
    (baseDir : String) (mig : Migration) (s : St σ) (v : String)
    (h : (migrationStep env force baseDir mig s).1 = Flow.next v) : v = mig.Version := by
  obtain ⟨q, w1, hq⟩ : ∃ q w1, env.selectRecord s.world mig.Version = (q, w1) :=
    ⟨_, _, rfl⟩
  cases q with
  | error e => simp [migrationStep, GetMigrationRecord, call, hq] at h
  | ok prior =>
    obtain ⟨f, w2, hf⟩ : ∃ f w2, env.readFile w1 (Join baseDir mig.File) = (f, w2) :=
      ⟨_, _, rfl⟩
    cases f with
    | error e =>
      cases prior <;> simp [migrationStep, GetMigrationRecord, call, hq, hf] at h
    | ok sql =>
      have happly : (applyMigration env mig sql (SHA256Hex env sql)
          (afterRead baseDir mig s w2)).1 = Flow.next v → v = mig.Version := by
        intro h2
        rw [applyMigration_flow] at h2
        split at h2
        · cases h2
        · cases h2; rfl
      cases prior with
      | none =>
        rw [migrationStep_none env force baseDir mig s w1 w2 sql hq hf] at h
        exact happly h
      | some row =>
        rw [migrationStep_some env force baseDir mig s row w1 w2 sql hq hf] at h
        split at h
        · cases h; rfl
        · split at h
          · cases h
          · exact happly h

theorem applyMigrations_next_last {σ : Type} (env : Env σ) (force : Bool)
    (baseDir : String) (migs : List Migration) (lastVersion : String) (s : St σ)
    (v : String) (hne : migs ≠ [])
    (h : (applyMigrations env force baseDir migs lastVersion s).1 = Flow.next v) :
    v = (migs.getLast hne).Version := by
  induction migs generalizing lastVersion s with
  | nil => exact absurd rfl hne
  | cons mig rest ih =>
    simp only [applyMigrations] at h
    rcases hst : migrationStep env force baseDir mig s with ⟨fl, s1⟩
    rw [hst] at h
    cases fl with
    | ret r1 => simp at h
    | next v1 =>
      have hv1 : v1 = mig.Version := migrationStep_next env force baseDir mig s v1 (by rw [hst])
      cases rest with
      | nil =>
        simp [applyMigrations] at h
        simp [← h, hv1]
      | cons m2 rest2 =>
        have := ih v1 s1 (List.cons_ne_nil _ _) h
        rw [this]
        simp

theorem postCheck_success {σ : Type} (env : Env σ) (skipSmoke : Bool) (baseDir : String)
    (manifest : Manifest) (lastVersion : String) (s : St σ)
    (h : (postCheck env skipSmoke baseDir manifest lastVersion s).1.Success = true) :
    (postCheck env skipSmoke baseDir manifest lastVersion s).1.SchemaVersion = lastVersion := by
  unfold postCheck at h ⊢
  split
  · rename_i hc
    simp only [hc, if_true] at h
    split at h
    · simp at h
    · rename_i sql hsql
      simp only [hsql]
      split at h
      · simp at h
      · rename_i hx
        simp only [hx]
  · rfl

theorem migrateAndCheck_success {σ : Type} (env : Env σ) (force skipSmoke : Bool)
    (baseDir : String) (manifest : Manifest) (s : St σ) (hne : manifest.Migrations ≠ [])
    (h : (migrateAndCheck env force skipSmoke baseDir manifest s).1.Success = true) :
    (migrateAndCheck env force skipSmoke baseDir manifest s).1.SchemaVersion =
      (manifest.Migrations.getLast hne).Version := by
  unfold migrateAndCheck at h ⊢
  rcases hl : applyMigrations env force baseDir manifest.Migrations ""
    (updateStep StepApplyMigrations s) with ⟨fl, s1⟩
  rw [hl] at h
  cases fl with
  | ret r =>
    have := (applyMigrations_ret_not_success env force baseDir manifest.Migrations ""
      (updateStep StepApplyMigrations s) r (by rw [hl])).1
    simp only at h
    rw [this] at h
    cases h
  | next v =>
    simp only at h ⊢
    rw [postCheck_success env skipSmoke baseDir manifest v s1 h]
    exact applyMigrations_next_last env force baseDir manifest.Migrations ""
      (updateStep StepApplyMigrations s) v hne (by rw [hl])

theorem applyBaseline_some_not_success {σ : Type} (env : Env σ) (baseDir : String)
    (manifest : Manifest) (s : St σ) (r : InstallationResult)
    (h : (applyBaseline env baseDir manifest s).1 = some r) :
    r.Success = false ∧ r.Step = StepApplyBaseline := by
  simp only [applyBaseline] at h
  split at h
  · cases h; exact ⟨rfl, rfl⟩
  · split at h
    · cases h; exact ⟨rfl, rfl⟩
    · split at h
      · cases h; exact ⟨rfl, rfl⟩
      · cases h

theorem lockedSection_success {σ : Type} (env : Env σ) (force skipSmoke : Bool)
    (baseDir : String) (manifest : Manifest) (s : St σ) (hne : manifest.Migrations ≠ [])
    (h : (lockedSection env force skipSmoke baseDir manifest s).1.Success = true) :
    (lockedSection env force skipSmoke baseDir manifest s).1.SchemaVersion =
      (manifest.Migrations.getLast hne).Version := by
  simp only [lockedSection] at h ⊢
  split
  · rename_i e he
    simp [he] at h
  · rename_i he
    simp only [he] at h
    rcases hb : applyBaseline env baseDir manifest
      (IsFreshDB env (updateStep StepApplyBaseline s)).2 with ⟨o, s1⟩
    rw [hb] at h
    cases o with
    | some r =>
      have := (applyBaseline_some_not_success env baseDir manifest _ r (by rw [hb])).1
      simp only at h
      rw [this] at h
      cases h
    | none => exact migrateAndCheck_success env force skipSmoke baseDir manifest s1 hne h
  · rename_i he
    simp only [he] at h
    exact migrateAndCheck_success env force skipSmoke baseDir manifest _ hne h

theorem connSection_success {σ : Type} (env : Env σ)
    (force skipSmoke : Bool) (advisoryKey : Int) (baseDir : String) (manifest : Manifest)
    (s : St σ) (hne : manifest.Migrations ≠ [])
    (h : (connSection env force skipSmoke advisoryKey baseDir manifest s).1.Success = true) :
    (connSection env force skipSmoke advisoryKey baseDir manifest s).1.SchemaVersion =
      (manifest.Migrations.getLast hne).Version := by
  simp only [connSection] at h ⊢
  split
  · rename_i e he
    simp [he] at h
  · rename_i he
    simp only [he] at h
    split
    · rename_i e hl
      simp [hl] at h
    · rename_i hl
      simp only [hl] at h
      exact lockedSection_success env force skipSmoke baseDir manifest _ hne h

/-- C7: a run of `doInstallation` that returns `Success = true`, and in which the manifest
loaded at line 167 has at least one migration, reports as `SchemaVersion` the `Version` of
the last migration of that manifest (whether that migration was applied or skipped). -/
theorem C7_schema_version_is_last_manifest_version {σ : Type} (env : Env σ) (cfg : Config)
    (s s1 s2 : St σ) (baseDir : String) (manifest : Manifest)
    (hfetch : fetchBundle env cfg s = (.ok baseDir, s1))
    (hload : verifyAndLoad env baseDir s1 = (.ok manifest, s2))
    (hne : manifest.Migrations ≠ [])
    (h : (doInstallation env cfg s).1.Success = true) :
    (doInstallation env cfg s).1.SchemaVersion =
      (manifest.Migrations.getLast hne).Version := by
  unfold doInstallation at h ⊢
  split
  · rename_i hc
    simp [hc] at h
  · rename_i hc
    simp only [hc, if_false, hfetch, hload, connectAndRun] at h ⊢
    split
    · rename_i e he
      simp [he] at h
    · rename_i he
      simp only [he] at h
      exact connSection_success env _ _ _ baseDir manifest _ hne h

/-- Witness of C7: scenario 1, a fresh database and the bundle with migrations `001` and
`002`, reports schema version `002`. -/
theorem C7_schema_version_is_last_manifest_version_witness :
    (doInstallation bundleEnv demoConfig (demoState freshWorld)).1.SchemaVersion =
      (demoManifest.Migrations.getLast (by decide)).Version :=
  C7_schema_version_is_last_manifest_version bundleEnv demoConfig (demoState freshWorld)
    (fetchBundle bundleEnv demoConfig (demoState freshWorld)).2
    (verifyAndLoad bundleEnv ".work/bundle"
      (fetchBundle bundleEnv demoConfig (demoState freshWorld)).2).2
    ".work/bundle" demoManifest rfl rfl (by decide) rfl

theorem rerun_step {σ : Type} (env : Env σ) (baseDir : String) (mig : Migration) (s : St σ)
    (row : MigrationRow)
    (hrow : (env.selectRecord s.world mig.Version).1 = .ok (some row))
    (hsucc : row.success = true) :
    (migrationStep env false baseDir mig s).2.trace =
        s.trace ++ [Event.getMigrationRecord mig.Version,
          Event.readFile (Join baseDir mig.File)] ∧
      (migrationStep env false baseDir mig s).2.world =
        (env.readFile (env.selectRecord s.world mig.Version).2 (Join baseDir mig.File)).2 ∧
      ((∃ b, (env.readFile (env.selectRecord s.world mig.Version).2
          (Join baseDir mig.File)).1 = .ok b) →
        (migrationStep env false baseDir mig s).1 = Flow.next mig.Version) := by
  have hq : env.selectRecord s.world mig.Version =
      (.ok (some row), (env.selectRecord s.world mig.Version).2) := Prod.ext hrow rfl
  obtain ⟨f, w2, hf⟩ : ∃ f w2, env.readFile (env.selectRecord s.world mig.Version).2
      (Join baseDir mig.File) = (f, w2) := ⟨_, _, rfl⟩
  cases f with
  | error e =>
    rw [hf]
    refine ⟨?_, ?_, ?_⟩
    · rw [migrationStep]; simp [GetMigrationRecord, call, hrow, hf]
    · rw [migrationStep]; simp [GetMigrationRecord, call, hrow, hf]
    · rintro ⟨b, hb⟩; cases hb
  | ok sql =>
    have hs := migrationStep_some env false baseDir mig s row _ w2 sql hq hf
    simp only [hsucc, Bool.not_false, Bool.and_self, if_true] at hs
    rw [hs, hf]
    exact ⟨rfl, rfl, fun _ => rfl⟩

theorem rerun_loop {σ : Type} (env : Env σ) (baseDir : String) (Inv : σ → Prop)
    (migs : List Migration)
    (hrec : ∀ w, Inv w → ∀ m ∈ migs, ∃ row,
      (env.selectRecord w m.Version).1 = .ok (some row) ∧
      row.success = true ∧ Inv (env.selectRecord w m.Version).2)
    (hread : ∀ w p, Inv w → Inv (env.readFile w p).2)
    (lastVersion : String) (s : St σ) (h0 : Inv s.world) :
    ∃ evs : List Event,
      (applyMigrations env false baseDir migs lastVersion s).2.trace = s.trace ++ evs ∧
      (∀ e ∈ evs, e.isQuery = true) ∧
      Inv (applyMigrations env false baseDir migs lastVersion s).2.world ∧
      ((∀ w, Inv w → ∀ m ∈ migs, ∃ b, (env.readFile w (Join baseDir m.File)).1 = .ok b) →
        ∃ v, (applyMigrations env false baseDir migs lastVersion s).1 = Flow.next v) := by
  induction migs generalizing lastVersion s with
  | nil => exact ⟨[], by simp [applyMigrations], by simp, h0, fun _ => ⟨lastVersion, rfl⟩⟩
  | cons mig rest ih =>
    obtain ⟨row, hrow, hsucc, hinv1⟩ := hrec s.world h0 mig (List.mem_cons_self _ _)
    obtain ⟨htr, hw, hnext⟩ := rerun_step env baseDir mig s row hrow hsucc
    have hinv2 : Inv (migrationStep env false baseDir mig s).2.world := by
      rw [hw]; exact hread _ _ hinv1
    have hrec' : ∀ w, Inv w → ∀ m ∈ rest, ∃ row,
        (env.selectRecord w m.Version).1 = .ok (some row) ∧
        row.success = true ∧ Inv (env.selectRecord w m.Version).2 :=
      fun w hw m hm => hrec w hw m (List.mem_cons_of_mem _ hm)
    simp only [applyMigrations]
    rcases hst : migrationStep env false baseDir mig s with ⟨fl, s1⟩
    rw [hst] at htr hinv2 hnext
    simp only at htr hinv2 hnext
    cases fl with
    | ret r =>
      refine ⟨_, htr, by simp [Event.isQuery], hinv2, ?_⟩
      intro hok
      have := hnext (hok _ hinv1 mig (List.mem_cons_self _ _))
      cases this
    | next v =>
      obtain ⟨evs, h1, h2, h3, h4⟩ := ih hrec' v s1 hinv2
      refine ⟨[Event.getMigrationRecord mig.Version, Event.readFile (Join baseDir mig.File)]
        ++ evs, ?_, ?_, h3, ?_⟩
      · simp only [h1, htr, List.append_assoc]
      · intro e he
        rcases List.mem_append.1 he with he | he
        · simp at he
          rcases he with rfl | rfl <;> rfl
        · exact h2 e he
      · intro hok
        exact h4 (fun w hw m hm => hok w hw m (List.mem_cons_of_mem _ hm))

theorem updateStep_trace {σ : Type} (step : String) (s : St σ) :
    (updateStep step s).trace = s.trace := by
  unfold updateStep; split <;> rfl

theorem updateStep_world {σ : Type} (step : String) (s : St σ) :
    (updateStep step s).world = s.world := by
  unfold updateStep; split <;> rfl

theorem postCheck_trace {σ : Type} (env : Env σ) (skipSmoke : Bool) (baseDir : String)
    (manifest : Manifest) (lastVersion : String) (s : St σ) :
    ∃ evs : List Event,
      (postCheck env skipSmoke baseDir manifest lastVersion s).2.trace = s.trace ++ evs ∧
      (evs = [] ∨ evs = [Event.readFile (Join baseDir manifest.Smoke)] ∨
        ∃ sql, evs = [Event.readFile (Join baseDir manifest.Smoke), Event.execContext sql]) := by
  unfold postCheck
  split
  · rcases hr : (env.readFile (updateStep StepPostCheck s).world
        (Join baseDir manifest.Smoke)).1 with e | sql
    · exact ⟨[Event.readFile (Join baseDir manifest.Smoke)],
        by simp [call, hr, updateStep_trace], Or.inr (Or.inl rfl)⟩
    · refine ⟨[Event.readFile (Join baseDir manifest.Smoke), Event.execContext sql], ?_,
        Or.inr (Or.inr ⟨sql, rfl⟩)⟩
      simp only [call, hr, updateStep_trace]
      split <;> simp
  · exact ⟨[], by simp, Or.inl rfl⟩

/-- C8: re-running is a no-op.  Assume the ledger table exists and every manifest migration
has a ledger record with `success = true`, and that this stays so under the queries and
file reads of the run (`Inv`).  Then with `force = false` the locked section of
`doInstallation` performs only queries and file reads (no baseline, no migration SQL, no
`EnsureMigrationsTable`, no `RecordMigration`), followed by at most the smoke check's file
read and execution; when the migration files are readable and the smoke check succeeds it
returns `Success = true`. -/
theorem C8_rerun_is_noop {σ : Type} (env : Env σ) (skipSmoke : Bool) (baseDir : String)
    (manifest : Manifest) (s : St σ) (Inv : σ → Prop) (h0 : Inv s.world)
    (htable : ∀ w, Inv w → (env.tableExists w).1 = .ok true ∧ Inv (env.tableExists w).2)
    (hrec : ∀ w, Inv w → ∀ m ∈ manifest.Migrations, ∃ row,
      (env.selectRecord w m.Version).1 = .ok (some row) ∧ row.success = true ∧
      Inv (env.selectRecord w m.Version).2)
    (hread : ∀ w p, Inv w → Inv (env.readFile w p).2) :
    (∃ (evs smoke : List Event),
      (lockedSection env false skipSmoke baseDir manifest s).2.trace =
        s.trace ++ evs ++ smoke ∧
      (∀ e ∈ evs, e.isQuery = true) ∧
      (smoke = [] ∨ smoke = [Event.readFile (Join baseDir manifest.Smoke)] ∨
        ∃ sql, smoke = [Event.readFile (Join baseDir manifest.Smoke),
          Event.execContext sql])) ∧
      ((∀ w, Inv w → ∀ m ∈ manifest.Migrations,
          ∃ b, (env.readFile w (Join baseDir m.File)).1 = .ok b) →
        (∀ v (s2 : St σ), Inv s2.world →
          (postCheck env skipSmoke baseDir manifest v s2).1.Success = true) →
        (lockedSection env false skipSmoke baseDir manifest s).1.Success = true) := by
  obtain ⟨ht, hinv⟩ := htable s.world h0
  have hfresh : IsFreshDB env (updateStep StepApplyBaseline s) =
      (.ok false, { world := (env.tableExists s.world).2,
                    trace := s.trace ++ [Event.tableExists],
                    status := (updateStep StepApplyBaseline s).status }) := by
    simp [IsFreshDB, call, updateStep_world, updateStep_trace, ht]
  have hlocked : lockedSection env false skipSmoke baseDir manifest s =
      migrateAndCheck env false skipSmoke baseDir manifest
        { world := (env.tableExists s.world).2,
          trace := s.trace ++ [Event.tableExists],
          status := (updateStep StepApplyBaseline s).status } := by
    simp [lockedSection, hfresh]
  obtain ⟨evs, h1, h2, h3, h4⟩ := rerun_loop env baseDir Inv manifest.Migrations hrec hread ""
    (updateStep StepApplyMigrations
      { world := (env.tableExists s.world).2,
        trace := s.trace ++ [Event.tableExists],
        status := (updateStep StepApplyBaseline s).status })
    (by rw [updateStep_world]; exact hinv)
  rw [updateStep_trace] at h1
  rcases hl : applyMigrations env false baseDir manifest.Migrations ""
    (updateStep StepApplyMigrations
      { world := (env.tableExists s.world).2,
        trace := s.trace ++ [Event.tableExists],
        status := (updateStep StepApplyBaseline s).status }) with ⟨fl, s1⟩
  rw [hl] at h1 h3 h4
  simp only at h1 h3 h4
  have hmc : migrateAndCheck env false skipSmoke baseDir manifest
      { world := (env.tableExists s.world).2,
        trace := s.trace ++ [Event.tableExists],
        status := (updateStep StepApplyBaseline s).status } =
      match fl with
      | Flow.ret r => (r, s1)
      | Flow.next v => postCheck env skipSmoke baseDir manifest v s1 := by
    simp only [migrateAndCheck, hl]
    cases fl <;> rfl
  have hq : ∀ e ∈ Event.tableExists :: evs, e.isQuery = true := by
    intro e he
    rcases List.mem_cons.1 he with rfl | he
    · rfl
    · exact h2 e he
  refine ⟨?_, ?_⟩
  · cases fl with
    | ret r =>
      exact ⟨Event.tableExists :: evs, [], by rw [hlocked, hmc]; simp [h1], hq, Or.inl rfl⟩
    | next v =>
      obtain ⟨smoke, hs1, hs2⟩ := postCheck_trace env skipSmoke baseDir manifest v s1
      exact ⟨Event.tableExists :: evs, smoke, by rw [hlocked, hmc]; simp [hs1, h1], hq, hs2⟩
  · intro hok hsmoke
    obtain ⟨v, hv⟩ := h4 hok
    cases hv
    rw [hlocked, hmc]
    exact hsmoke v s1 h3

/-- Witness of C8: the re-run of scenario 2 performs only queries and file reads and
succeeds. -/
theorem C8_rerun_is_noop_witness :
    (∃ (evs smoke : List Event),
      (lockedSection demoEnv false false "/b" demoManifest (demoState appliedWorld)).2.trace =
        (demoState appliedWorld).trace ++ evs ++ smoke ∧
      (∀ e ∈ evs, e.isQuery = true) ∧
      (smoke = [] ∨ smoke = [Event.readFile (Join "/b" demoManifest.Smoke)] ∨
        ∃ sql, smoke = [Event.readFile (Join "/b" demoManifest.Smoke),
          Event.execContext sql])) ∧
      (lockedSection demoEnv false false "/b" demoManifest
        (demoState appliedWorld)).1.Success = true := by
  obtain ⟨h1, h2⟩ :=
    C8_rerun_is_noop demoEnv false "/b" demoManifest (demoState appliedWorld)
      (fun w => w = appliedWorld) rfl
      (fun w hw => by subst hw; exact ⟨rfl, rfl⟩)
      (fun w hw m hm => by
        subst hw
        simp only [demoManifest, List.mem_cons, List.mem_singleton, List.not_mem_nil,
          or_false] at hm
        rcases hm with rfl | rfl
        · exact ⟨demoRow "001" "02" true, rfl, rfl, rfl⟩
        · exact ⟨demoRow "002" "03" true, rfl, rfl, rfl⟩)
      (fun w p hw => by
        subst hw
        show (demoEnv.readFile appliedWorld p).2 = appliedWorld
        simp only [demoEnv, simEnv]
        split <;> rfl)
  refine ⟨h1, h2 ?_ ?_⟩
  · intro w hw m hm
    subst hw
    simp only [demoManifest, List.mem_cons, List.mem_singleton, List.not_mem_nil,
      or_false] at hm
    rcases hm with rfl | rfl
    · exact ⟨[2], rfl⟩
    · exact ⟨[3], rfl⟩
  · intro v s2 _
    rfl

theorem extractEntries_illegal {σ : Type} (env : Env σ) (dest : String)
    (pre : List ZipEntry) (f : ZipEntry) (rest : List ZipEntry) (s : St σ)
    (hf : illegalPath dest f.Name = true) :
    extractEntries env dest (pre ++ f :: rest) s =
      ((match (extractEntries env dest pre s).1 with
        | some e => some e
        | none => some ("illegal path in zip: " ++ f.Name)),
       (extractEntries env dest pre s).2) := by
  induction pre generalizing s with
  | nil => simp [extractEntries, hf]
  | cons g pre ih =>
    simp only [List.cons_append, extractEntries]
    by_cases hg : illegalPath dest g.Name = true
    · simp [hg]
    · simp only [hg]
      by_cases hd : g.IsDir = true
      · simp only [hd, if_true]
        exact ih _
      · simp only [hd]
        rcases hx : extractFile env dest g s with ⟨o, s1⟩
        cases o with
        | some e => simp
        | none => simpa using ih s1

/-- C10, as stated, fails: in an archive whose second entry `../evil.sql` escapes the
destination, `ExtractZip` returns the "illegal path in zip" error only after it has created
the destination directory and written the first entry `a.sql`. -/
theorem C10_counterexample_earlier_entries_are_written :
    illegalPath ".work/bundle" "../evil.sql" = true ∧
      (ExtractZip demoEnv ".work/db-bundle.zip" ".work/bundle" (demoState slipWorld)).1 =
        some "illegal path in zip: ../evil.sql" ∧
      (ExtractZip demoEnv ".work/db-bundle.zip" ".work/bundle" (demoState slipWorld)).2.trace =
        [Event.openZip ".work/db-bundle.zip", Event.mkdirAll ".work/bundle",
          Event.openEntry "a.sql", Event.create ".work/bundle/a.sql",
          Event.copy ".work/bundle/a.sql" [1], Event.closeZip] ∧
      (ExtractZip demoEnv ".work/db-bundle.zip" ".work/bundle"
        (demoState slipWorld)).2.world.files = [(".work/bundle/a.sql", [1])] ∧
      (ExtractZip demoEnv ".work/db-bundle.zip" ".work/bundle"
        (demoState slipWorld)).2.world.dirs = [".work/bundle", ".work"] := by
  refine ⟨by decide, by decide, by decide, by decide, by decide⟩

/-- C10 (amended): when the archive contains an entry `f` whose cleaned target path escapes
the destination directory, `ExtractZip` does exactly what extracting the entries before `f`
does and then closes the archive: it writes neither `f` nor any entry after it, and it
returns an error, which is "illegal path in zip: <name of f>" unless extracting an earlier
entry already failed.  When `f` is the first entry, nothing is written at all. -/
theorem C10_offending_entry_stops_extraction {σ : Type} (env : Env σ) (src dest : String)
    (s : St σ) (pre : List ZipEntry) (f : ZipEntry) (rest : List ZipEntry) (w1 : σ)
    (hopen : env.openZip s.world src = (.ok (pre ++ f :: rest), w1))
    (hf : illegalPath dest f.Name = true) :
    ExtractZip env src dest s =
        ((match (extractEntries env dest pre
              { world := w1, trace := s.trace ++ [Event.openZip src], status := s.status }).1 with
          | some e => some e
          | none => some ("illegal path in zip: " ++ f.Name)),
         (call Event.closeZip env.closeZip (extractEntries env dest pre
            { world := w1, trace := s.trace ++ [Event.openZip src],
              status := s.status }).2).2) ∧
      (ExtractZip env src dest s).1 ≠ none ∧
      (pre = [] →
        ExtractZip env src dest s =
          (some ("illegal path in zip: " ++ f.Name),
            { world := (env.closeZip w1).2,
              trace := s.trace ++ [Event.openZip src, Event.closeZip],
              status := s.status })) := by
  have hmain : ExtractZip env src dest s =
      ((match (extractEntries env dest pre
            { world := w1, trace := s.trace ++ [Event.openZip src], status := s.status }).1 with
        | some e => some e
        | none => some ("illegal path in zip: " ++ f.Name)),
       (call Event.closeZip env.closeZip (extractEntries env dest pre
          { world := w1, trace := s.trace ++ [Event.openZip src],
            status := s.status }).2).2) := by
    simp only [ExtractZip, call, hopen]
    rw [extractEntries_illegal env dest pre f rest _ hf]
  refine ⟨hmain, ?_, ?_⟩
  · rw [hmain]
    simp only
    split <;> simp
  · intro hnil
    subst hnil
    rw [hmain]
    simp [extractEntries, call]

/-- Witness of C10 (amended): an archive whose only entry is `../evil.sql`. -/
theorem C10_offending_entry_stops_extraction_witness :
    ExtractZip demoEnv ".work/db-bundle.zip" ".work/bundle" (demoState evilOnlyWorld) =
      (some "illegal path in zip: ../evil.sql",
        { world := evilOnlyWorld,
          trace := [Event.openZip ".work/db-bundle.zip", Event.closeZip],
          status := (demoState evilOnlyWorld).status }) :=
  (C10_offending_entry_stops_extraction demoEnv ".work/db-bundle.zip" ".work/bundle"
    (demoState evilOnlyWorld) [] { Name := "../evil.sql", IsDir := false, Data := [9] } []
    evilOnlyWorld rfl (by decide)).2.2 rfl

/-- C13, as stated, fails: the seven-character string "sha256:" has the prefix, yet
`NormalizeChecksum` returns it unchanged and not the empty remainder. -/
theorem C13_counterexample_bare_prefix_is_kept :
    ("sha256:".data.take 7).map Char.toLower = "sha256:".data ∧
      NormalizeChecksum "sha256:" = "sha256:" ∧
      NormalizeChecksum "sha256:" ≠ String.mk ("sha256:".data.drop 7) := by
  decide

/-- C13 (amended): a string made of a seven-character prefix equal to "sha256:" ignoring
letter case followed by a non-empty remainder is mapped to the remainder; the bare prefix
is returned unchanged, and so is every string whose first seven characters are not
"sha256:" ignoring letter case. -/
theorem C13_prefix_stripped_when_followed (p r s : String) :
    (p.data.map Char.toLower = "sha256:".data → r ≠ "" → NormalizeChecksum (p ++ r) = r) ∧
      (p.data.map Char.toLower = "sha256:".data → NormalizeChecksum p = p) ∧
      ((s.data.take 7).map Char.toLower ≠ "sha256:".data → NormalizeChecksum s = s) := by
  refine ⟨?_, ?_, ?_⟩
  · intro hp hr
    have hlen : p.data.length = 7 := by
      have := congrArg List.length hp
      simpa using this
    have hr0 : r.data ≠ [] := fun h => hr (String.ext h)
    have hrl : 0 < r.data.length := List.length_pos.2 hr0
    have htake : (p.data ++ r.data).take 7 = p.data := by
      rw [← hlen]; exact List.take_left _ _
    have hdrop : (p.data ++ r.data).drop 7 = r.data := by
      rw [← hlen]; exact List.drop_left _ _
    unfold NormalizeChecksum
    rw [String.data_append, htake, hdrop, if_pos]
    exact ⟨by rw [List.length_append, hlen]; omega, hp⟩
  · intro hp
    have hlen : p.data.length = 7 := by
      have := congrArg List.length hp
      simpa using this
    unfold NormalizeChecksum
    rw [if_neg]
    intro h
    omega
  · intro hs
    unfold NormalizeChecksum
    rw [if_neg]
    exact fun h => hs h.2

/-- Witness of C13 (amended): "SHA256:ab" is mapped to "ab". -/
theorem C13_prefix_stripped_when_followed_witness :
    NormalizeChecksum ("SHA256:" ++ "ab") = "ab" :=
  (C13_prefix_stripped_when_followed "SHA256:" "ab" "").1 (by decide) (by decide)

theorem VerifyChecksums_world {σ : Type} (env : Env σ) (baseDir : String)
    (hpure : ∀ w p, (env.readFile w p).2 = w) (cs : List (String × String)) (s : St σ) :
    (VerifyChecksums env baseDir cs s).2.world = s.world := by
  induction cs generalizing s with
  | nil => rfl
  | cons c rest ih =>
    simp only [VerifyChecksums]
    split
    · simp [call, hpure]
    · split
      · simp [call, hpure]
      · rw [ih]; simp [call, hpure]

/-- C12: when reading a file leaves the file system as it is, `VerifyChecksums` returns no
error if and only if every path listed in the map is readable under the base directory
and `SHA256Hex` of its bytes equals `NormalizeChecksum` of the expected value; two file
systems that agree on the listed paths give the same result, whatever else they contain;
an empty map verifies. -/
theorem C12_verify_checksums_iff_all_listed_match {σ : Type} (env : Env σ)
    (baseDir : String) (cs : List (String × String)) (s : St σ)
    (hpure : ∀ w p, (env.readFile w p).2 = w) :
    ((VerifyChecksums env baseDir cs s).1 = none ↔
        ∀ c ∈ cs, ∃ data, (env.readFile s.world (Join baseDir c.1)).1 = .ok data ∧
          SHA256Hex env data = NormalizeChecksum c.2) ∧
      (∀ s1 : St σ,
        (∀ c ∈ cs, (env.readFile s1.world (Join baseDir c.1)).1 =
          (env.readFile s.world (Join baseDir c.1)).1) →
        (VerifyChecksums env baseDir cs s1).1 = (VerifyChecksums env baseDir cs s).1) ∧
      VerifyChecksums env baseDir [] s = (none, s) := by
  refine ⟨?_, ?_, rfl⟩
  · induction cs generalizing s with
    | nil => simp [VerifyChecksums]
    | cons c rest ih =>
      have hw : (call (Event.readFile (Join baseDir c.1))
          (fun w => env.readFile w (Join baseDir c.1)) s).2.world = s.world := by
        simp [call, hpure]
      simp only [VerifyChecksums, List.forall_mem_cons]
      cases hr : (env.readFile s.world (Join baseDir c.1)).1 with
      | error e => simp [call, hr]
      | ok data =>
        by_cases hsum : SHA256Hex env data = NormalizeChecksum c.2
        · simp only [call, hr, hsum, ne_eq, not_true_eq_false, if_false]
          rw [ih]
          simp [hpure, hsum]
        · simp [call, hr, hsum]
  · intro s1 hagree
    induction cs generalizing s s1 with
    | nil => rfl
    | cons c rest ih =>
      have h1 := hagree c (List.mem_cons_self _ _)
      simp only [VerifyChecksums, call]
      rw [h1]
      cases hr : (env.readFile s.world (Join baseDir c.1)).1 with
      | error e => rfl
      | ok data =>
        simp only
        split
        · rfl
        · apply ih
          intro c2 hc2
          simpa [hpure] using hagree c2 (List.mem_cons_of_mem _ hc2)

/-- Witness of C12: the three SQL files of the extracted bundle against their checksums,
two of them written with the `sha256:` prefix. -/
theorem C12_verify_checksums_iff_all_listed_match_witness :
    (VerifyChecksums bundleEnv "/b"
      [("base.sql", "sha256:01"), ("m1.sql", "02"), ("m2.sql", "SHA256:03")]
      (demoState appliedWorld)).1 = none :=
  (C12_verify_checksums_iff_all_listed_match bundleEnv "/b"
    [("base.sql", "sha256:01"), ("m1.sql", "02"), ("m2.sql", "SHA256:03")]
    (demoState appliedWorld)
    (fun w p => by simp only [bundleEnv, simEnv]; split <;> rfl)).1.2
    (by
      intro c hc
      simp only [List.mem_cons, List.mem_singleton, List.not_mem_nil, or_false] at hc
      rcases hc with rfl | rfl | rfl
      · exact ⟨[1], rfl, by decide⟩
      · exact ⟨[2], rfl, by decide⟩
      · exact ⟨[3], rfl, by decide⟩)

/-- C14: when there is no status, or the status is not "running", `TryStart` reads the
clock, replaces the status by `Status = running`, `Step = INITIALIZING`, `StartedAt = now`
with an empty `Error` and a zero `FinishedAt`, and returns true; when the status is
"running" it returns false and changes nothing. -/
theorem C14_try_start {σ : Type} (env : Env σ) (s : St σ) :
    ((s.status = none ∨ ∃ st, s.status = some st ∧ st.Status ≠ "running") →
        TryStart env s =
          (true, { world := (env.now s.world).2,
                   trace := s.trace ++ [Event.now],
                   status := some { Status := "running", Step := "INITIALIZING", Error := "",
                                    StartedAt := (env.now s.world).1, FinishedAt := 0 } })) ∧
      ((∃ st, s.status = some st ∧ st.Status = "running") → TryStart env s = (false, s)) := by
  constructor
  · intro h
    have hr : isRunning s.status = false := by
      rcases h with h | ⟨st, h, hne⟩
      · simp [isRunning, h]
      · simp [isRunning, h, StatusRunning, hne]
    simp [TryStart, hr, call, StatusRunning]
  · rintro ⟨st, h, hrun⟩
    have hr : isRunning s.status = true := by
      simp [isRunning, h, StatusRunning, hrun]
    simp [TryStart, hr]

/-- Witness of C14: after a successful run has been stored, `TryStart` starts a new run. -/
theorem C14_try_start_witness :
    TryStart demoEnv (finalize { Success := true, SchemaVersion := "002" } 5 9
        (demoState appliedWorld)) =
      (true, { world := { appliedWorld with clock := 1000000 },
               trace := [Event.now],
               status := some { Status := "running", Step := "INITIALIZING", Error := "",
                                StartedAt := 0, FinishedAt := 0 } }) :=
  (C14_try_start demoEnv (finalize { Success := true, SchemaVersion := "002" } 5 9
    (demoState appliedWorld))).1
    (Or.inr ⟨{ Status := "success", StartedAt := 5, FinishedAt := 9 }, rfl, by decide⟩)

/-- C16, as stated, fails: on a status whose `Status` is "success", `updateStep` is not a
no-op, it overwrites `Step`. -/
theorem C16_counterexample_step_set_on_finished_status :
    (updateStep "DOWNLOAD_BUNDLE"
      ({ world := appliedWorld, trace := [],
         status := some { Status := "success", StartedAt := 5, FinishedAt := 9 } } :
        St Sim)).status =
      some { Status := "success", Step := "DOWNLOAD_BUNDLE", StartedAt := 5, FinishedAt := 9 } ∧
    updateStep "DOWNLOAD_BUNDLE"
      ({ world := appliedWorld, trace := [],
         status := some { Status := "success", StartedAt := 5, FinishedAt := 9 } } :
        St Sim) ≠
      { world := appliedWorld, trace := [],
        status := some { Status := "success", StartedAt := 5, FinishedAt := 9 } } := by
  constructor
  · rfl
  · intro h
    have := congrArg St.status h
    revert this
    decide

/-- C16 (amended): whenever a status is present, whatever its `Status`, `updateStep` sets
its `Step` field to the label and changes nothing else; it is a no-op exactly when the
status is absent. -/
theorem C16_update_step_sets_step_of_any_present_status {σ : Type} (label : String)
    (s : St σ) :
    (∀ st, s.status = some st →
        updateStep label s = { s with status := some { st with Step := label } }) ∧
      (s.status = none → updateStep label s = s) := by
  constructor
  · intro st h
    simp [updateStep, h]
  · intro h
    simp [updateStep, h]

/-- Witness of C16 (amended): during a run the step label is replaced. -/
theorem C16_update_step_sets_step_of_any_present_status_witness :
    updateStep "LOCK_DB" (demoState appliedWorld) =
      { demoState appliedWorld with
        status := some { Status := "running", Step := "LOCK_DB" } } :=
  (C16_update_step_sets_step_of_any_present_status "LOCK_DB" (demoState appliedWorld)).1
    { Status := "running", Step := "INITIALIZING" } rfl

theorem findCandidate_find {σ : Type} (env : Env σ) (extractDir : String)
    (hpure : ∀ w p, (env.stat w p).2 = w) (entries : List (String × Bool)) (s : St σ) :
    (findCandidate env extractDir entries s).1 =
      (entries.find? fun e =>
        e.2 && (env.stat s.world (Join (Join extractDir e.1) "manifest.json")).1.isNone).map
        (fun e => Join extractDir e.1) := by
  induction entries generalizing s with
  | nil => rfl
  | cons e rest ih =>
    simp only [findCandidate, List.find?_cons]
    by_cases hd : e.2 = true
    · simp only [hd, if_true, Bool.true_and]
      cases hs : (env.stat s.world (Join (Join extractDir e.1) "manifest.json")).1 with
      | none => simp [call, hs]
      | some err =>
        simp only [call, hs, Option.isNone_some]
        rw [ih]
        simp [hpure]
    · simp only [hd, Bool.false_and]
      exact ih s

/-- C17, as stated, fails: when two child directories contain manifest.json,
`ResolveBaseDir` does not fail, it returns the first of them. -/
theorem C17_counterexample_two_folders_first_wins :
    (demoEnv.stat twoFoldersWorld ".work/bundle/manifest.json").1 ≠ none ∧
      (demoEnv.readDir twoFoldersWorld ".work/bundle").1 = .ok [("a", true), ("b", true)] ∧
      (demoEnv.stat twoFoldersWorld ".work/bundle/a/manifest.json").1 = none ∧
      (demoEnv.stat twoFoldersWorld ".work/bundle/b/manifest.json").1 = none ∧
      (ResolveBaseDir demoEnv ".work/bundle" (demoState twoFoldersWorld)).1 =
        .ok ".work/bundle/a" := by
  refine ⟨by decide, rfl, rfl, rfl, rfl⟩

/-- C17 (amended): `ResolveBaseDir` returns `extractDir` when manifest.json exists at the
extract root; otherwise it returns the first child directory, in the order of the
directory listing, that contains manifest.json, whether or not other child directories
contain one too; it fails when the directory cannot be listed or no child directory
contains manifest.json.  (`os.Stat` is taken not to change the file system.) -/
theorem C17_resolve_base_dir_first_candidate {σ : Type} (env : Env σ) (extractDir : String)
    (s : St σ) (hpure : ∀ w p, (env.stat w p).2 = w) :
    ((env.stat s.world (Join extractDir "manifest.json")).1 = none →
        (ResolveBaseDir env extractDir s).1 = .ok extractDir) ∧
      (∀ entries w1, (env.stat s.world (Join extractDir "manifest.json")).1 ≠ none →
        env.readDir s.world extractDir = (.ok entries, w1) →
        (ResolveBaseDir env extractDir s).1 =
          match entries.find? (fun e =>
            e.2 && (env.stat w1 (Join (Join extractDir e.1) "manifest.json")).1.isNone) with
          | some e => .ok (Join extractDir e.1)
          | none => .error "manifest.json not found in extracted bundle") ∧
      (∀ err w1, (env.stat s.world (Join extractDir "manifest.json")).1 ≠ none →
        env.readDir s.world extractDir = (.error err, w1) →
        (ResolveBaseDir env extractDir s).1 = .error ("failed to read extract dir: " ++ err)) := by
  refine ⟨?_, ?_, ?_⟩
  · intro h
    simp [ResolveBaseDir, call, h]
  · intro entries w1 h hrd
    cases hs : (env.stat s.world (Join extractDir "manifest.json")).1 with
    | none => exact absurd hs h
    | some e0 =>
      have hfc := findCandidate_find env extractDir hpure entries
        { world := w1,
          trace := s.trace ++ [Event.stat (Join extractDir "manifest.json")] ++
            [Event.readDir extractDir],
          status := s.status }
      simp only [ResolveBaseDir, call, hs, hpure, hrd]
      rcases hc : findCandidate env extractDir entries
        { world := w1,
          trace := s.trace ++ [Event.stat (Join extractDir "manifest.json")] ++
            [Event.readDir extractDir],
          status := s.status } with ⟨o, s1⟩
      rw [hc] at hfc
      simp only at hfc
      cases o with
      | none =>
        cases hf : entries.find? (fun e =>
            e.2 && (env.stat w1 (Join (Join extractDir e.1) "manifest.json")).1.isNone) with
        | none => rfl
        | some e => rw [hf] at hfc; cases hfc
      | some c =>
        cases hf : entries.find? (fun e =>
            e.2 && (env.stat w1 (Join (Join extractDir e.1) "manifest.json")).1.isNone) with
        | none => rw [hf] at hfc; cases hfc
        | some e =>
          rw [hf] at hfc
          simp only [Option.map_some', Option.some.injEq] at hfc
          simp [hfc]
  · intro err w1 h hrd
    cases hs : (env.stat s.world (Join extractDir "manifest.json")).1 with
    | none => exact absurd hs h
    | some e0 => simp [ResolveBaseDir, call, hs, hpure, hrd]

/-- Witness of C17 (amended): with two candidate folders the first one is returned. -/
theorem C17_resolve_base_dir_first_candidate_witness :
    (ResolveBaseDir demoEnv ".work/bundle" (demoState twoFoldersWorld)).1 =
      match [("a", true), ("b", true)].find? (fun e =>
        e.2 && (demoEnv.stat twoFoldersWorld
          (Join (Join ".work/bundle" e.1) "manifest.json")).1.isNone) with
      | some e => .ok (Join ".work/bundle" e.1)
      | none => .error "manifest.json not found in extracted bundle" :=
  (C17_resolve_base_dir_first_candidate demoEnv ".work/bundle" (demoState twoFoldersWorld)
    (fun _ _ => rfl)).2.1 [("a", true), ("b", true)] twoFoldersWorld (by decide) rfl

theorem Emits.refl {σ : Type} (P : Event → Bool) (s : St σ) : Emits P s s :=
  ⟨[], by simp, by simp⟩

theorem Emits.trans {σ : Type} {P : Event → Bool} {s s1 s2 : St σ}
    (h1 : Emits P s s1) (h2 : Emits P s1 s2) : Emits P s s2 := by
  obtain ⟨e1, ht1, hp1⟩ := h1
  obtain ⟨e2, ht2, hp2⟩ := h2
  refine ⟨e1 ++ e2, by rw [ht2, ht1, List.append_assoc], ?_⟩
  intro e he
  rcases List.mem_append.1 he with h | h
  · exact hp1 e h
  · exact hp2 e h

theorem Emits.mono {σ : Type} {P Q : Event → Bool} {s s1 : St σ}
    (hpq : ∀ e, P e = true → Q e = true) (h : Emits P s s1) : Emits Q s s1 := by
  obtain ⟨evs, ht, hp⟩ := h
  exact ⟨evs, ht, fun e he => hpq e (hp e he)⟩

theorem Emits.append {σ : Type} {P : Event → Bool} {s s1 s2 : St σ} (evs : List Event)
    (h : Emits P s s1) (ht : s2.trace = s1.trace ++ evs) (hp : ∀ e ∈ evs, P e = true) :
    Emits P s s2 :=
  h.trans ⟨evs, ht, hp⟩

theorem Emits.step_refl {σ : Type} (P : Event → Bool) (step : String) (s : St σ) :
    Emits P s (AgentService.updateStep step s) :=
  ⟨[], by simp [updateStep_trace], by simp⟩

theorem execMigration_emits {σ : Type} (env : Env σ) (mig : Migration) (sql : Bytes)
    (s : St σ) : Emits Event.isMigrationOp s (execMigration env mig sql s).2 := by
  obtain ⟨evs, ht, h1, h2, h3, -⟩ := execMigration_trace env mig sql s
  refine ⟨evs, ht, ?_⟩
  by_cases htx : mig.Transaction = true
  · by_cases hb : (env.beginTx s.world).1 = none
    · have hx : (execMigration env mig sql s).2.trace =
          s.trace ++ [Event.beginTx, Event.txExec sql, Event.txCommit] ∨
          (execMigration env mig sql s).2.trace =
          s.trace ++ [Event.beginTx, Event.txExec sql, Event.txRollback] := by
        simp only [execMigration, htx, if_true, ExecInTransaction, call, hb]
        split
        · right; simp
        · left; simp
      rcases hx with hx | hx <;>
      · rw [ht] at hx
        have := List.append_cancel_left hx
        subst this
        intro e he
        simp at he
        rcases he with rfl | rfl | rfl <;> rfl
    · rw [h3 htx hb]
      intro e he
      simp at he
      subst he; rfl
  · have htx2 : mig.Transaction = false := by simpa using htx
    rw [h1 htx2]
    intro e he
    simp at he
    subst he; rfl

theorem applyMigration_emits {σ : Type} (env : Env σ) (mig : Migration) (sql : Bytes)
    (fileChecksum : String) (s : St σ) :
    Emits Event.isMigrationOp s (applyMigration env mig sql fileChecksum s).2 := by
  have h0 : Emits Event.isMigrationOp s (call Event.now env.now s).2 :=
    ⟨[Event.now], rfl, by simp [Event.isMigrationOp]⟩
  refine (h0.trans (execMigration_emits env mig sql _)).append _
    (applyMigration_trace env mig sql fileChecksum s) ?_
  intro e he
  simp at he
  rcases he with rfl | rfl <;> rfl

theorem migrationStep_emits {σ : Type} (env : Env σ) (force : Bool) (baseDir : String)
    (mig : Migration) (s : St σ) :
    Emits Event.isMigrationOp s (migrationStep env force baseDir mig s).2 := by
  obtain ⟨q, w1, hq⟩ : ∃ q w1, env.selectRecord s.world mig.Version = (q, w1) :=
    ⟨_, _, rfl⟩
  cases q with
  | error e =>
    exact ⟨[Event.getMigrationRecord mig.Version],
      by simp [migrationStep, GetMigrationRecord, call, hq], by simp [Event.isMigrationOp]⟩
  | ok prior =>
    obtain ⟨f, w2, hf⟩ : ∃ f w2, env.readFile w1 (Join baseDir mig.File) = (f, w2) :=
      ⟨_, _, rfl⟩
    have hread : Emits Event.isMigrationOp s (afterRead baseDir mig s w2) :=
      ⟨[Event.getMigrationRecord mig.Version, Event.readFile (Join baseDir mig.File)], rfl,
        by intro e he; simp at he; rcases he with rfl | rfl <;> rfl⟩
    cases f with
    | error e =>
      refine hread.append [] ?_ (by simp)
      cases prior <;> simp [migrationStep, GetMigrationRecord, call, hq, hf, afterRead]
    | ok sql =>
      cases prior with
      | none =>
        rw [migrationStep_none env force baseDir mig s w1 w2 sql hq hf]
        exact hread.trans (applyMigration_emits env mig _ _ _)
      | some row =>
        rw [migrationStep_some env force baseDir mig s row w1 w2 sql hq hf]
        split
        · exact hread
        · split
          · exact hread
          · exact hread.trans (applyMigration_emits env mig _ _ _)

theorem applyMigrations_emits {σ : Type} (env : Env σ) (force : Bool) (baseDir : String)
    (migs : List Migration) (lastVersion : String) (s : St σ) :
    Emits Event.isMigrationOp s (applyMigrations env force baseDir migs lastVersion s).2 := by
  induction migs generalizing lastVersion s with
  | nil => exact Emits.refl _ _
  | cons mig rest ih =>
    have hstep := migrationStep_emits env force baseDir mig s
    simp only [applyMigrations]
    rcases hst : migrationStep env force baseDir mig s with ⟨fl, s1⟩
    rw [hst] at hstep
    cases fl with
    | ret r => exact hstep
    | next v => exact hstep.trans (ih v s1)

theorem postCheck_emits {σ : Type} (env : Env σ) (skipSmoke : Bool) (baseDir : String)
    (manifest : Manifest) (lastVersion : String) (s : St σ) :
    Emits Event.isMigrationOp s (postCheck env skipSmoke baseDir manifest lastVersion s).2 := by
  obtain ⟨evs, ht, hshape⟩ := postCheck_trace env skipSmoke baseDir manifest lastVersion s
  refine ⟨evs, ht, ?_⟩
  rcases hshape with h | h | ⟨sql, h⟩ <;> subst h <;> intro e he <;> simp at he
  · subst he; rfl
  · rcases he with rfl | rfl <;> rfl

theorem migrateAndCheck_emits {σ : Type} (env : Env σ) (force skipSmoke : Bool)
    (baseDir : String) (manifest : Manifest) (s : St σ) :
    Emits Event.isMigrationOp s (migrateAndCheck env force skipSmoke baseDir manifest s).2 := by
  have hloop := (Emits.step_refl Event.isMigrationOp StepApplyMigrations s).trans
    (applyMigrations_emits env force baseDir manifest.Migrations ""
      (updateStep StepApplyMigrations s))
  simp only [migrateAndCheck]
  rcases hl : applyMigrations env force baseDir manifest.Migrations ""
    (updateStep StepApplyMigrations s) with ⟨fl, s1⟩
  rw [hl] at hloop
  cases fl with
  | ret r => exact hloop
  | next v => exact hloop.trans (postCheck_emits env skipSmoke baseDir manifest v s1)

theorem Emits.after_call {σ α : Type} {P : Event → Bool} {e : Event} {op : σ → α × σ}
    {s s0 : St σ} (hp : P e = true) (h : Emits P s s0) :
    Emits P s (AgentService.call e op s0).2 :=
  h.append [e] rfl (by simpa using hp)

theorem Emits.after_step {σ : Type} {P : Event → Bool} {step : String} {s s0 : St σ}
    (h : Emits P s s0) : Emits P s (AgentService.updateStep step s0) :=
  h.trans (Emits.step_refl P step s0)

theorem extractFile_emits {σ : Type} (env : Env σ) (dest : String) (f : ZipEntry)
    {s s0 : St σ} (h : Emits Event.isFileOp s s0) :
    Emits Event.isFileOp s (extractFile env dest f s0).2 := by
  simp only [extractFile]
  repeat' split
  all_goals dsimp only
  all_goals
    first
    | exact Emits.after_call rfl h
    | exact Emits.after_call rfl (Emits.after_call rfl h)
    | exact Emits.after_call rfl (Emits.after_call rfl (Emits.after_call rfl h))
    | exact Emits.after_call rfl
        (Emits.after_call rfl (Emits.after_call rfl (Emits.after_call rfl h)))

theorem extractEntries_emits {σ : Type} (env : Env σ) (dest : String) (files : List ZipEntry)
    {s s0 : St σ} (h : Emits Event.isFileOp s s0) :
    Emits Event.isFileOp s (extractEntries env dest files s0).2 := by
  induction files generalizing s0 with
  | nil => exact h
  | cons f rest ih =>
    simp only [extractEntries]
    split
    · exact h
    · split
      · exact ih (Emits.after_call rfl h)
      · have hf := extractFile_emits env dest f h
        rcases hx : extractFile env dest f s0 with ⟨o, s1⟩
        rw [hx] at hf
        cases o with
        | some e => exact hf
        | none => exact ih hf

theorem ExtractZip_emits {σ : Type} (env : Env σ) (src dest : String)
    {s s0 : St σ} (h : Emits Event.isFileOp s s0) :
    Emits Event.isFileOp s (ExtractZip env src dest s0).2 := by
  simp only [ExtractZip]
  split
  · dsimp only
    exact Emits.after_call rfl h
  · dsimp only
    exact Emits.after_call rfl (extractEntries_emits env dest _ (Emits.after_call rfl h))

theorem findCandidate_emits {σ : Type} (env : Env σ) (extractDir : String)
    (entries : List (String × Bool)) {s s0 : St σ} (h : Emits Event.isFileOp s s0) :
    Emits Event.isFileOp s (findCandidate env extractDir entries s0).2 := by
  induction entries generalizing s0 with
  | nil => exact h
  | cons e rest ih =>
    simp only [findCandidate]
    split
    · split
      · dsimp only
        exact Emits.after_call rfl h
      · exact ih (Emits.after_call rfl h)
    · exact ih h

theorem ResolveBaseDir_emits {σ : Type} (env : Env σ) (extractDir : String)
    {s s0 : St σ} (h : Emits Event.isFileOp s s0) :
    Emits Event.isFileOp s (ResolveBaseDir env extractDir s0).2 := by
  simp only [ResolveBaseDir]
  split
  · dsimp only
    exact Emits.after_call rfl h
  · split
    · dsimp only
      exact Emits.after_call rfl (Emits.after_call rfl h)
    · rename_i entries hrd
      have h1 : Emits Event.isFileOp s
          (call (Event.stat (Join extractDir "manifest.json"))
            (fun w => env.stat w (Join extractDir "manifest.json")) s0).2 :=
        Emits.after_call rfl h
      have h2 : Emits Event.isFileOp s
          (call (Event.readDir extractDir) (fun w => env.readDir w extractDir)
            (call (Event.stat (Join extractDir "manifest.json"))
              (fun w => env.stat w (Join extractDir "manifest.json")) s0).2).2 :=
        Emits.after_call rfl h1
      have hc := findCandidate_emits env extractDir entries h2
      split <;> rename_i heq <;> rw [heq] at hc <;> dsimp only at hc ⊢ <;> exact hc

theorem fetchBundle_emits {σ : Type} (env : Env σ) (cfg : Config) (s : St σ) :
    Emits Event.isFileOp s (fetchBundle env cfg s).2 := by
  simp only [fetchBundle]
  have h0 := Emits.refl Event.isFileOp s
  have h1 : Emits Event.isFileOp s (call (Event.mkdirAll cfg.WorkDir)
      (fun w => env.mkdirAll w cfg.WorkDir) s).2 := Emits.after_call rfl h0
  have h2 : Emits Event.isFileOp s
      (call (Event.download cfg.BundleURL (Join cfg.WorkDir "db-bundle.zip"))
        (fun w => env.download w cfg.BundleURL (Join cfg.WorkDir "db-bundle.zip"))
        (updateStep StepDownloadBundle (call (Event.mkdirAll cfg.WorkDir)
          (fun w => env.mkdirAll w cfg.WorkDir) s).2)).2 :=
    Emits.after_call rfl (Emits.after_step h1)
  have h3 : Emits Event.isFileOp s
      (call (Event.removeAll (Join cfg.WorkDir "bundle"))
        (fun w => env.removeAll w (Join cfg.WorkDir "bundle"))
        (updateStep StepExtractBundle
          (call (Event.download cfg.BundleURL (Join cfg.WorkDir "db-bundle.zip"))
            (fun w => env.download w cfg.BundleURL (Join cfg.WorkDir "db-bundle.zip"))
            (updateStep StepDownloadBundle (call (Event.mkdirAll cfg.WorkDir)
              (fun w => env.mkdirAll w cfg.WorkDir) s).2)).2)).2 :=
    Emits.after_call rfl (Emits.after_step h2)
  have h4 := ExtractZip_emits env (Join cfg.WorkDir "db-bundle.zip")
    (Join cfg.WorkDir "bundle") h3
  have h5 := ResolveBaseDir_emits env (Join cfg.WorkDir "bundle") h4
  repeat' split
  all_goals dsimp only
  all_goals first | exact h1 | exact h2 | exact h3 | exact h4 | exact h5

theorem VerifyChecksums_emits {σ : Type} (env : Env σ) (baseDir : String)
    (cs : List (String × String)) {s s0 : St σ} (h : Emits Event.isFileOp s s0) :
    Emits Event.isFileOp s (VerifyChecksums env baseDir cs s0).2 := by
  induction cs generalizing s0 with
  | nil => exact h
  | cons c rest ih =>
    simp only [VerifyChecksums]
    split
    · dsimp only
      exact Emits.after_call rfl h
    · split
      · dsimp only
        exact Emits.after_call rfl h
      · exact ih (Emits.after_call rfl h)

theorem verifyAndLoad_emits {σ : Type} (env : Env σ) (baseDir : String) (s : St σ) :
    Emits Event.isFileOp s (verifyAndLoad env baseDir s).2 := by
  have h1 : Emits Event.isFileOp s
      (LoadChecksums env baseDir (updateStep StepVerifyChecksum s)).2 := by
    simp only [LoadChecksums]
    repeat' split
    all_goals dsimp only
    all_goals exact Emits.after_call rfl (Emits.after_step (Emits.refl _ _))
  have h3 : ∀ s0, Emits Event.isFileOp s s0 →
      Emits Event.isFileOp s (LoadManifest env baseDir (updateStep StepParseManifest s0)).2 := by
    intro s0 h0
    simp only [LoadManifest]
    repeat' split
    all_goals dsimp only
    all_goals exact Emits.after_call rfl (Emits.after_step h0)
  simp only [verifyAndLoad]
  split
  · exact h1
  · rename_i checksums hcs
    have h2 := VerifyChecksums_emits env baseDir checksums h1
    split
    · exact h2
    · split <;> exact h3 _ h2

theorem isMigrationOp_isLockedOp (e : Event) (h : e.isMigrationOp = true) :
    e.isLockedOp = true := by
  cases e <;> first | rfl | cases h

theorem lockedSection_emits {σ : Type} (env : Env σ) (force skipSmoke : Bool)
    (baseDir : String) (manifest : Manifest) (s : St σ) :
    Emits Event.isLockedOp s (lockedSection env force skipSmoke baseDir manifest s).2 := by
  have hmc : ∀ s0, Emits Event.isLockedOp s s0 →
      Emits Event.isLockedOp s (migrateAndCheck env force skipSmoke baseDir manifest s0).2 :=
    fun s0 h0 => h0.trans
      ((migrateAndCheck_emits env force skipSmoke baseDir manifest s0).mono
        isMigrationOp_isLockedOp)
  have hfr : Emits Event.isLockedOp s (IsFreshDB env (updateStep StepApplyBaseline s)).2 := by
    simp only [IsFreshDB]
    split <;> dsimp only <;> exact Emits.after_call rfl (Emits.after_step (Emits.refl _ _))
  have hbase : ∀ s0, Emits Event.isLockedOp s s0 →
      Emits Event.isLockedOp s (applyBaseline env baseDir manifest s0).2 := by
    intro s0 h0
    simp only [applyBaseline, EnsureMigrationsTable]
    repeat' split
    all_goals dsimp only
    all_goals
      first
      | exact Emits.after_call rfl h0
      | exact Emits.after_call rfl (Emits.after_call rfl h0)
      | exact Emits.after_call rfl (Emits.after_call rfl (Emits.after_call rfl h0))
  simp only [lockedSection]
  split
  · exact hfr
  · have hb := hbase _ hfr
    rcases hx : applyBaseline env baseDir manifest
      (IsFreshDB env (updateStep StepApplyBaseline s)).2 with ⟨o, s1⟩
    rw [hx] at hb
    cases o with
    | some r => exact hb
    | none => exact hmc s1 hb
  · exact hmc _ hfr

theorem updateStep_eq {σ : Type} (step : String) (s : St σ) :
    updateStep step s =
      { world := s.world, trace := s.trace,
        status := s.status.map fun st => { st with Step := step } } := by
  cases s with
  | mk w t st => cases st <;> rfl

theorem connectAndRun_acquired {σ : Type} (env : Env σ) (force skipSmoke : Bool) (key : Int)
    (baseDir : String) (manifest : Manifest) (s : St σ) (w1 w2 w3 : σ)
    (hc : env.conn s.world = (none, w1)) (hp : env.ping w1 = (none, w2))
    (hl : env.lock w2 key = (none, w3)) :
    ∃ evs : List Event, (∀ e ∈ evs, e.isLockedOp = true) ∧
      (connectAndRun env force skipSmoke key baseDir manifest s).2.trace =
        s.trace ++ [Event.conn, Event.ping, Event.lock key] ++ evs ++
          [Event.unlock key, Event.connClose] ∧
      (connectAndRun env force skipSmoke key baseDir manifest s).1 =
        (lockedSection env force skipSmoke baseDir manifest
          { world := w3, trace := s.trace ++ [Event.conn, Event.ping, Event.lock key],
            status := (updateStep StepLockDB (updateStep StepConnectDB s)).status }).1 := by
  have hrun : connectAndRun env force skipSmoke key baseDir manifest s =
      ((lockedSection env force skipSmoke baseDir manifest
          { world := w3, trace := s.trace ++ [Event.conn, Event.ping, Event.lock key],
            status := (updateStep StepLockDB (updateStep StepConnectDB s)).status }).1,
        (call Event.connClose env.connClose
          (call (Event.unlock key) (fun w => env.unlock w key)
            (lockedSection env force skipSmoke baseDir manifest
              { world := w3, trace := s.trace ++ [Event.conn, Event.ping, Event.lock key],
                status := (updateStep StepLockDB
                  (updateStep StepConnectDB s)).status }).2).2).2) := by
    simp [connectAndRun, connSection, call, updateStep_eq, hc, hp, hl]
  obtain ⟨evs, ht, hev⟩ := lockedSection_emits env force skipSmoke baseDir manifest
    { world := w3, trace := s.trace ++ [Event.conn, Event.ping, Event.lock key],
      status := (updateStep StepLockDB (updateStep StepConnectDB s)).status }
  refine ⟨evs, hev, ?_, by rw [hrun]⟩
  rw [hrun]
  simp only [call]
  rw [ht]
  simp

theorem connectAndRun_discipline {σ : Type} (env : Env σ) (force skipSmoke : Bool)
    (key : Int) (baseDir : String) (manifest : Manifest) (s : St σ) :
    ∃ post : List Event,
      (connectAndRun env force skipSmoke key baseDir manifest s).2.trace = s.trace ++ post ∧
      LockDiscipline key post := by
  obtain ⟨c, w1, hc⟩ : ∃ c w1, env.conn s.world = (c, w1) := ⟨_, _, rfl⟩
  cases c with
  | some e =>
    exact ⟨[Event.conn],
      by simp [connectAndRun, call, updateStep_world, updateStep_trace, hc],
      Or.inr (Or.inl rfl)⟩
  | none =>
    obtain ⟨p, w2, hp⟩ : ∃ p w2, env.ping w1 = (p, w2) := ⟨_, _, rfl⟩
    cases p with
    | some e =>
      exact ⟨[Event.conn, Event.ping, Event.connClose],
        by simp [connectAndRun, connSection, call, updateStep_world, updateStep_trace, hc, hp],
        Or.inr (Or.inr (Or.inl rfl))⟩
    | none =>
      obtain ⟨l, w3, hl⟩ : ∃ l w3, env.lock w2 key = (l, w3) := ⟨_, _, rfl⟩
      cases l with
      | some e =>
        exact ⟨[Event.conn, Event.ping, Event.lock key, Event.connClose],
          by simp [connectAndRun, connSection, call, updateStep_world, updateStep_trace, hc,
            hp, hl],
          Or.inr (Or.inr (Or.inr (Or.inl rfl)))⟩
      | none =>
        obtain ⟨evs, hev, ht, -⟩ := connectAndRun_acquired env force skipSmoke key baseDir
          manifest s w1 w2 w3 hc hp hl
        exact ⟨[Event.conn, Event.ping, Event.lock key] ++ evs ++
            [Event.unlock key, Event.connClose],
          by rw [ht]; simp,
          Or.inr (Or.inr (Or.inr (Or.inr ⟨evs, hev, rfl⟩)))⟩

/-- C20: the advisory unlock of `doInstallation`.  In every run the trace consists of file
operations followed by a database part of one of five shapes (`LockDiscipline`): an
unlock is issued only in the last shape, once, with the key of the lock, after every
operation done under the lock and just before the connection is closed.  When the lock
was acquired the run has that shape whatever the locked section returns (success or a
failure at any step); when the lock call fails the connection is closed without any
unlock. -/
theorem C20_unlock_issued_once_iff_lock_acquired {σ : Type} (env : Env σ) (cfg : Config)
    (s : St σ) :
    (∃ pre post : List Event,
        (doInstallation env cfg s).2.trace = s.trace ++ pre ++ post ∧
        (∀ e ∈ pre, e.isFileOp = true) ∧
        LockDiscipline
          (if ParseInt cfg.AdvisoryLockKey = 0 then 987654321
            else ParseInt cfg.AdvisoryLockKey) post) ∧
      (∀ force skipSmoke key baseDir manifest (s0 : St σ) w1 w2 w3,
        env.conn s0.world = (none, w1) → env.ping w1 = (none, w2) →
        env.lock w2 key = (none, w3) →
        ∃ evs : List Event,
          (∀ e ∈ evs, e.isLockedOp = true) ∧
          (∀ k, Event.unlock k ∉ evs ∧ Event.lock k ∉ evs) ∧
          (connectAndRun env force skipSmoke key baseDir manifest s0).2.trace =
            s0.trace ++ [Event.conn, Event.ping, Event.lock key] ++ evs ++
              [Event.unlock key, Event.connClose] ∧
          (connectAndRun env force skipSmoke key baseDir manifest s0).1 =
            (lockedSection env force skipSmoke baseDir manifest
              { world := w3, trace := s0.trace ++ [Event.conn, Event.ping, Event.lock key],
                status := (updateStep StepLockDB (updateStep StepConnectDB s0)).status }).1) ∧
      (∀ force skipSmoke key baseDir manifest (s0 : St σ) w1 w2 w3 err,
        env.conn s0.world = (none, w1) → env.ping w1 = (none, w2) →
        env.lock w2 key = (some err, w3) →
        (connectAndRun env force skipSmoke key baseDir manifest s0).2.trace =
          s0.trace ++ [Event.conn, Event.ping, Event.lock key, Event.connClose] ∧
        (connectAndRun env force skipSmoke key baseDir manifest s0).1 =
          { Step := "LOCK_DB", Error := "failed to acquire advisory lock: " ++ err }) := by
  refine ⟨?_, ?_, ?_⟩
  · unfold doInstallation
    split
    · exact ⟨[], [], by simp, by simp, Or.inl rfl⟩
    · obtain ⟨pre1, ht1, hp1⟩ := fetchBundle_emits env cfg s
      rcases hf : fetchBundle env cfg s with ⟨fr, s1⟩
      rw [hf] at ht1
      cases fr with
      | error r => exact ⟨pre1, [], by simpa using ht1, hp1, Or.inl rfl⟩
      | ok baseDir =>
        obtain ⟨pre2, ht2, hp2⟩ := verifyAndLoad_emits env baseDir s1
        simp only
        rcases hv : verifyAndLoad env baseDir s1 with ⟨vr, s2⟩
        rw [hv] at ht2
        have hpre : ∀ e ∈ pre1 ++ pre2, e.isFileOp = true := by
          intro e he
          rcases List.mem_append.1 he with h | h
          · exact hp1 e h
          · exact hp2 e h
        cases vr with
        | error r =>
          refine ⟨pre1 ++ pre2, [], ?_, hpre, Or.inl rfl⟩
          simp only at ht1 ht2 ⊢
          rw [ht2, ht1]; simp
        | ok manifest =>
          obtain ⟨post, ht3, hshape⟩ := connectAndRun_discipline env (ParseBool cfg.Force)
            (ParseBool cfg.SkipSmoke)
            (if ParseInt cfg.AdvisoryLockKey = 0 then 987654321
              else ParseInt cfg.AdvisoryLockKey) baseDir manifest s2
          refine ⟨pre1 ++ pre2, post, ?_, hpre, hshape⟩
          simp only at ht1 ht2 ⊢
          rw [ht3, ht2, ht1]; simp
  · intro force skipSmoke key baseDir manifest s0 w1 w2 w3 hc hp hl
    obtain ⟨evs, hev, ht, hr⟩ := connectAndRun_acquired env force skipSmoke key baseDir
      manifest s0 w1 w2 w3 hc hp hl
    refine ⟨evs, hev, ?_, ht, hr⟩
    intro k
    exact ⟨fun h => (by have := hev _ h; cases this), fun h => (by have := hev _ h; cases this)⟩
  · intro force skipSmoke key baseDir manifest s0 w1 w2 w3 err hc hp hl
    constructor
    · simp [connectAndRun, connSection, call, updateStep_eq, hc, hp, hl]
    · simp [connectAndRun, connSection, call, updateStep_eq, hc, hp, hl, StepLockDB]

/-- Witness of C20: scenario 4, the run fails at `APPLY_MIGRATIONS` and the unlock is
still the last statement before the connection is closed. -/
theorem C20_unlock_issued_once_iff_lock_acquired_witness :
    ∃ evs : List Event,
      (∀ e ∈ evs, e.isLockedOp = true) ∧
      (∀ k, Event.unlock k ∉ evs ∧ Event.lock k ∉ evs) ∧
      (connectAndRun demoEnv false false 987654321 "/b" demoManifest
          (demoState brokenM2World)).2.trace =
        (demoState brokenM2World).trace ++ [Event.conn, Event.ping, Event.lock 987654321] ++
          evs ++ [Event.unlock 987654321, Event.connClose] ∧
      (connectAndRun demoEnv false false 987654321 "/b" demoManifest
          (demoState brokenM2World)).1 =
        (lockedSection demoEnv false false "/b" demoManifest
          { world := brokenM2World,
            trace := (demoState brokenM2World).trace ++
              [Event.conn, Event.ping, Event.lock 987654321],
            status := (updateStep StepLockDB
              (updateStep StepConnectDB (demoState brokenM2World))).status }).1 :=
  (C20_unlock_issued_once_iff_lock_acquired demoEnv demoConfig (demoState brokenM2World)).2.1
    false false 987654321 "/b" demoManifest (demoState brokenM2World) brokenM2World
    brokenM2World brokenM2World rfl rfl rfl

theorem keyMatches_file_not_path (k : String) (h : keyMatches k "file" = true) :
    keyMatches k "path" = false := by
  simp only [keyMatches, decide_eq_true_eq] at h
  simp only [keyMatches, h]
  decide

theorem decodeMembers_wellTyped (ms : List (String × JSON)) (acc : String × String)
    (h : ∀ m ∈ ms, keyMatches m.1 "file" = true ∨ keyMatches m.1 "path" = true →
      m.2.isStringOrNull = true) :
    decodeMembers ms acc = .ok (lastString "file" acc.1 ms, lastString "path" acc.2 ms) := by
  induction ms generalizing acc with
  | nil => rfl
  | cons m rest ih =>
    have hrest : ∀ m ∈ rest, keyMatches m.1 "file" = true ∨ keyMatches m.1 "path" = true →
        m.2.isStringOrNull = true := fun x hx => h x (List.mem_cons_of_mem _ hx)
    have hm := h m (List.mem_cons_self _ _)
    simp only [decodeMembers, lastString]
    by_cases hf : keyMatches m.1 "file" = true
    · have hp := keyMatches_file_not_path m.1 hf
      have hv := hm (Or.inl hf)
      simp only [hf, hp, if_true]
      cases hmv : m.2 with
      | string s => simp [decodeStringField, ih _ hrest]
      | null => simp [decodeStringField, ih _ hrest]
      | bool b => rw [hmv] at hv; cases hv
      | number t => rw [hmv] at hv; cases hv
      | array l => rw [hmv] at hv; cases hv
      | object l => rw [hmv] at hv; cases hv
    · have hf2 : keyMatches m.1 "file" = false := by simpa using hf
      by_cases hp : keyMatches m.1 "path" = true
      · have hv := hm (Or.inr hp)
        simp only [hf2, hp, if_true]
        cases hmv : m.2 with
        | string s => simp [decodeStringField, ih _ hrest]
        | null => simp [decodeStringField, ih _ hrest]
        | bool b => rw [hmv] at hv; cases hv
        | number t => rw [hmv] at hv; cases hv
        | array l => rw [hmv] at hv; cases hv
        | object l => rw [hmv] at hv; cases hv
      · have hp2 : keyMatches m.1 "path" = false := by simpa using hp
        simp only [hf2, hp2]
        exact ih _ hrest

theorem decodeStringField_error (field current : String) (v : JSON)
    (h : v.isStringOrNull = false) : ∃ e, decodeStringField field current v = .error e := by
  cases v with
  | string s => cases h
  | null => cases h
  | bool b => exact ⟨_, rfl⟩
  | number t => exact ⟨_, rfl⟩
  | array l => exact ⟨_, rfl⟩
  | object l => exact ⟨_, rfl⟩

theorem decodeMembers_illTyped (ms : List (String × JSON)) (acc : String × String)
    (h : ∃ m ∈ ms, (keyMatches m.1 "file" = true ∨ keyMatches m.1 "path" = true) ∧
      m.2.isStringOrNull = false) :
    ∃ e, decodeMembers ms acc = .error e := by
  induction ms generalizing acc with
  | nil =>
    obtain ⟨m, hm, -⟩ := h
    cases hm
  | cons m rest ih =>
    obtain ⟨x, hx, hkey, hbad⟩ := h
    simp only [decodeMembers]
    by_cases hf : keyMatches m.1 "file" = true
    · simp only [hf, if_true]
      cases hd : decodeStringField "file" acc.1 m.2 with
      | error e => exact ⟨e, rfl⟩
      | ok f =>
        rcases List.mem_cons.1 hx with rfl | hx
        · obtain ⟨e, he⟩ := decodeStringField_error "file" acc.1 x.2 hbad
          rw [he] at hd; cases hd
        · exact ih _ ⟨x, hx, hkey, hbad⟩
    · have hf2 : keyMatches m.1 "file" = false := by simpa using hf
      by_cases hp : keyMatches m.1 "path" = true
      · simp only [hf2, hp, if_true]
        cases hd : decodeStringField "path" acc.2 m.2 with
        | error e => exact ⟨e, rfl⟩
        | ok f =>
          rcases List.mem_cons.1 hx with rfl | hx
          · obtain ⟨e, he⟩ := decodeStringField_error "path" acc.2 x.2 hbad
            rw [he] at hd; cases hd
          · exact ih _ ⟨x, hx, hkey, hbad⟩
      · have hp2 : keyMatches m.1 "path" = false := by simpa using hp
        simp only [hf2, hp2]
        rcases List.mem_cons.1 hx with rfl | hx
        · rcases hkey with hk | hk
          · rw [hf2] at hk; cases hk
          · rw [hp2] at hk; cases hk
        · exact ih _ ⟨x, hx, hkey, hbad⟩

/-- C18, as stated, fails: the object `{"file": "a.sql", "path": 5}` has a non-empty "file"
member, yet decoding it is rejected with an error, because the "path" member is not a
string. -/
theorem C18_counterexample_file_with_ill_typed_path :
    (∃ e, UnmarshalJSON
        (JSON.object [("file", JSON.string "a.sql"), ("path", JSON.number "5")]) =
      .error e) ∧
    UnmarshalJSON
        (JSON.object [("file", JSON.string "a.sql"), ("path", JSON.number "5")]) ≠
      .ok "a.sql" := by
  constructor
  · exact ⟨_, rfl⟩
  · intro h
    cases h

/-- C18 (amended): a JSON string decodes to itself.  An object whose members named "file"
or "path" (ignoring letter case) all carry a string or `null` decodes to the value of the
last string-valued "file" member if that is non-empty, and to the value of the last
string-valued "path" member otherwise; an object in which such a member carries a
number, boolean, array or object is rejected.  A number, a boolean and an array are
rejected with an error. -/
theorem C18_baseline_decoding (s text : String) (b : Bool) (items : List JSON)
    (members : List (String × JSON)) :
    UnmarshalJSON (JSON.string s) = .ok s ∧
      ((∀ m ∈ members, keyMatches m.1 "file" = true ∨ keyMatches m.1 "path" = true →
          m.2.isStringOrNull = true) →
        UnmarshalJSON (JSON.object members) =
          .ok (if lastString "file" "" members ≠ "" then lastString "file" "" members
            else lastString "path" "" members)) ∧
      ((∃ m ∈ members, (keyMatches m.1 "file" = true ∨ keyMatches m.1 "path" = true) ∧
          m.2.isStringOrNull = false) →
        ∃ e, UnmarshalJSON (JSON.object members) = .error e) ∧
      (∃ e, UnmarshalJSON (JSON.number text) = .error e) ∧
      (∃ e, UnmarshalJSON (JSON.bool b) = .error e) ∧
      (∃ e, UnmarshalJSON (JSON.array items) = .error e) := by
  refine ⟨rfl, ?_, ?_, ⟨_, rfl⟩, ⟨_, rfl⟩, ⟨_, rfl⟩⟩
  · intro h
    simp only [UnmarshalJSON, unmarshalFilePath, decodeMembers_wellTyped members ("", "") h]
    split <;> rfl
  · intro h
    obtain ⟨e, he⟩ := decodeMembers_illTyped members ("", "") h
    exact ⟨e, by simp only [UnmarshalJSON, unmarshalFilePath, he]⟩

/-- Witness of C18 (amended): `{"File": "", "path": "base.sql", "note": 1}` decodes to the
"path" value. -/
theorem C18_baseline_decoding_witness :
    UnmarshalJSON (JSON.object [("File", JSON.string ""), ("path", JSON.string "base.sql"),
        ("note", JSON.number "1")]) =
      .ok (if lastString "file" "" [("File", JSON.string ""),
            ("path", JSON.string "base.sql"), ("note", JSON.number "1")] ≠ ""
        then lastString "file" "" [("File", JSON.string ""),
          ("path", JSON.string "base.sql"), ("note", JSON.number "1")]
        else lastString "path" "" [("File", JSON.string ""),
          ("path", JSON.string "base.sql"), ("note", JSON.number "1")]) :=
  (C18_baseline_decoding "" "" false []
    [("File", JSON.string ""), ("path", JSON.string "base.sql"),
      ("note", JSON.number "1")]).2.1
    (by
      intro m hm hk
      simp only [List.mem_cons, List.mem_singleton, List.not_mem_nil, or_false] at hm
      rcases hm with rfl | rfl | rfl
      · rfl
      · rfl
      · rcases hk with hk | hk <;> revert hk <;> decide)

theorem Sys.step_invariant {σ : Type} (env : Env σ) (a : Action σ) (y y1 : Sys σ)
    (hinv : (y.inFlight = 0 ∧ isRunning y.st.status = false) ∨
      (y.inFlight = 1 ∧ isRunning y.st.status = true))
    (h : Sys.step env a y = some y1) :
    (y1.inFlight = 0 ∧ isRunning y1.st.status = false) ∨
      (y1.inFlight = 1 ∧ isRunning y1.st.status = true) := by
  cases a with
  | tryStart =>
    simp only [Sys.step, Option.some.injEq] at h
    subst h
    rcases hinv with ⟨h0, hr⟩ | ⟨h1, hr⟩
    · right
      simp only [TryStart, hr, h0]
      exact ⟨rfl, by simp [isRunning]⟩
    · right
      simp only [TryStart, hr, h1]
      exact ⟨rfl, hr⟩
  | updateStep label =>
    simp only [Sys.step] at h
    split at h
    · cases h
    · rename_i hne
      simp only [Option.some.injEq] at h
      subst h
      rcases hinv with ⟨h0, -⟩ | ⟨h1, hr⟩
      · exact absurd h0 hne
      · right
        refine ⟨h1, ?_⟩
        rw [updateStep_eq]
        cases hs : y.st.status with
        | none => rw [hs] at hr; cases hr
        | some st => rw [hs] at hr; simpa [isRunning] using hr
  | work w evs =>
    simp only [Sys.step] at h
    split at h
    · cases h
    · rename_i hne
      simp only [Option.some.injEq] at h
      subst h
      rcases hinv with ⟨h0, -⟩ | ⟨h1, hr⟩
      · exact absurd h0 hne
      · exact Or.inr ⟨h1, hr⟩
  | finalize result start now =>
    simp only [Sys.step] at h
    split at h
    · cases h
    · rename_i hne
      simp only [Option.some.injEq] at h
      subst h
      rcases hinv with ⟨h0, -⟩ | ⟨h1, -⟩
      · exact absurd h0 hne
      · left
        refine ⟨by simp [h1], ?_⟩
        simp only [finalize]
        split <;> simp [isRunning, StatusRunning, StatusSuccess, StatusFailed]

theorem Sys.run_invariant {σ : Type} (env : Env σ) (acts : List (Action σ)) (y y1 : Sys σ)
    (hinv : (y.inFlight = 0 ∧ isRunning y.st.status = false) ∨
      (y.inFlight = 1 ∧ isRunning y.st.status = true))
    (h : Sys.run env acts y = some y1) :
    (y1.inFlight = 0 ∧ isRunning y1.st.status = false) ∨
      (y1.inFlight = 1 ∧ isRunning y1.st.status = true) := by
  induction acts generalizing y with
  | nil =>
    simp only [Sys.run, Option.some.injEq] at h
    subst h
    exact hinv
  | cons a rest ih =>
    simp only [Sys.run] at h
    cases hs : Sys.step env a y with
    | none => rw [hs] at h; cases h
    | some y2 =>
      rw [hs] at h
      exact ih y2 (Sys.step_invariant env a y y2 hinv hs) h

theorem Sys.step_status_isSome {σ : Type} (env : Env σ) (a : Action σ) (y y1 : Sys σ)
    (hs : y.st.status.isSome = true) (h : Sys.step env a y = some y1) :
    y1.st.status.isSome = true := by
  cases a with
  | tryStart =>
    simp only [Sys.step, Option.some.injEq] at h
    subst h
    simp only [TryStart]
    split
    · exact hs
    · rfl
  | updateStep label =>
    simp only [Sys.step] at h
    split at h
    · cases h
    · simp only [Option.some.injEq] at h
      subst h
      rw [updateStep_eq]
      simpa using hs
  | work w evs =>
    simp only [Sys.step] at h
    split at h
    · cases h
    · simp only [Option.some.injEq] at h
      subst h
      exact hs
  | finalize result start now =>
    simp only [Sys.step] at h
    split at h
    · cases h
    · simp only [Option.some.injEq] at h
      subst h
      simp only [finalize]
      split <;> rfl

theorem Sys.run_status_isSome {σ : Type} (env : Env σ) (acts : List (Action σ))
    (y y1 : Sys σ) (hs : y.st.status.isSome = true) (h : Sys.run env acts y = some y1) :
    y1.st.status.isSome = true := by
  induction acts generalizing y with
  | nil =>
    simp only [Sys.run, Option.some.injEq] at h
    subst h
    exact hs
  | cons a rest ih =>
    simp only [Sys.run] at h
    cases hstep : Sys.step env a y with
    | none => rw [hstep] at h; cases h
    | some y2 =>
      rw [hstep] at h
      exact ih y2 (Sys.step_status_isSome env a y y2 hs hstep) h

theorem isRunning_some {status : Option RunStatus} (h : isRunning status = true) :
    ∃ st, status = some st ∧ st.Status = StatusRunning := by
  cases status with
  | none => cases h
  | some st => exact ⟨st, rfl, by simpa [isRunning] using h⟩

/-- C15, counterexample: a request is rejected by `TryStart` while a run is in flight, the
run is finalized before the rejected request reads the status with `GetStatus`, and the
409 answer then carries the status "success", not "running". -/
theorem C15_counterexample_rejected_request_reads_finished_status :
    ∃ y1 y2 : Sys Sim,
      Sys.run demoEnv [Action.tryStart] newService = some y1 ∧
      y1.inFlight = 1 ∧
      (TryStart demoEnv y1.st).1 = false ∧
      Sys.run demoEnv [Action.finalize { Success := true, SchemaVersion := "2" } 5 9] y1 =
        some y2 ∧
      (conflictResponse (GetStatus y2.st)).map (fun r => (r.code, r.body.Status)) =
        some (409, "success") :=
  ⟨_, _, rfl, rfl, rfl, rfl, rfl⟩

/-- C15, amended: in every schedule of atomic steps from an idle service in which the
steps of a run are only taken while a run started by a successful `TryStart` is in
flight, at most one run is in flight.  While one is in flight every `TryStart` returns
false and changes nothing, and a status read at that moment is answered with HTTP 409
and a payload with status "running" and the current step of the run.  A status read
at any later moment (the finalization may come between the rejecting `TryStart` and the
`GetStatus` of the handler) is still answered with HTTP 409, with the payload of the
status stored at that moment. -/
theorem C15_single_flight {σ : Type} (env : Env σ) (acts : List (Action σ)) (y0 y : Sys σ)
    (hidle : y0.inFlight = 0) (hnot : isRunning y0.st.status = false)
    (hrun : Sys.run env acts y0 = some y) :
    y.inFlight ≤ 1 ∧
    (y.inFlight = 1 →
      TryStart env y.st = (false, y.st) ∧
      Sys.step env Action.tryStart y = some y ∧
      (∃ st, GetStatus y.st = some st ∧ st.Status = "running" ∧
        conflictResponse (GetStatus y.st) =
          some { code := 409,
                 body := NewStatusPayload "running" st.Step st.Error st.StartedAt
                   st.FinishedAt }) ∧
      ∀ later y2, Sys.run env later y = some y2 →
        ∃ st, GetStatus y2.st = some st ∧
          conflictResponse (GetStatus y2.st) =
            some { code := 409,
                   body := NewStatusPayload st.Status st.Step st.Error st.StartedAt
                     st.FinishedAt }) := by
  have hinv := Sys.run_invariant env acts y0 y (Or.inl ⟨hidle, hnot⟩) hrun
  refine ⟨?_, ?_⟩
  · rcases hinv with ⟨h0, -⟩ | ⟨h1, -⟩ <;> omega
  · intro h1
    have hr : isRunning y.st.status = true := by
      rcases hinv with ⟨h0, -⟩ | ⟨-, hr⟩
      · omega
      · exact hr
    obtain ⟨st, hst, hstatus⟩ := isRunning_some hr
    have htry : TryStart env y.st = (false, y.st) := by simp [TryStart, hr]
    refine ⟨htry, ?_, ⟨st, hst, hstatus, ?_⟩, ?_⟩
    · simp [Sys.step, htry]
    · simp only [GetStatus, hst, conflictResponse, hstatus, StatusRunning]
    · intro later y2 hlater
      have hsome := Sys.run_status_isSome env later y y2 (by rw [hst]; rfl) hlater
      cases h2 : y2.st.status with
      | none => rw [h2] at hsome; cases hsome
      | some st2 => exact ⟨st2, h2, by simp only [GetStatus, h2, conflictResponse]⟩

theorem C15_single_flight_witness :
    newService.inFlight = 0 ∧ isRunning newService.st.status = false ∧
    Sys.run demoEnv [Action.tryStart, Action.updateStep StepLockDB] newService =
      some busyService ∧
    busyService.inFlight ≤ 1 ∧
    (busyService.inFlight = 1 →
      TryStart demoEnv busyService.st = (false, busyService.st) ∧
      Sys.step demoEnv Action.tryStart busyService = some busyService ∧
      (∃ st, GetStatus busyService.st = some st ∧ st.Status = "running" ∧
        conflictResponse (GetStatus busyService.st) =
          some { code := 409,
                 body := NewStatusPayload "running" st.Step st.Error st.StartedAt
                   st.FinishedAt }) ∧
      ∀ later y2, Sys.run demoEnv later busyService = some y2 →
        ∃ st, GetStatus y2.st = some st ∧
          conflictResponse (GetStatus y2.st) =
            some { code := 409,
                   body := NewStatusPayload st.Status st.Step st.Error st.StartedAt
                     st.FinishedAt }) :=
  ⟨rfl, rfl, rfl,
    C15_single_flight demoEnv [Action.tryStart, Action.updateStep StepLockDB] newService
      busyService rfl rfl rfl⟩

theorem intercalate_eq_joinSep (cs : List (List Char)) :
    List.intercalate ['/'] cs = joinSep cs := by
  induction cs with
  | nil => rfl
  | cons c rest ih =>
    cases rest with
    | nil => simp [List.intercalate, joinSep]
    | cons d rest =>
      simp only [List.intercalate, List.intersperse, joinSep] at ih ⊢
      simp [ih]

theorem Clean_data (p : String) : (Clean p).data = cleanChars p.data := by
  unfold Clean cleanChars
  by_cases hp : p = ""
  · subst hp
    rfl
  · have hd : p.data ≠ [] := by
      intro h
      apply hp
      exact String.ext h
    simp only [hp, hd, if_false, intercalate_eq_joinSep]
    by_cases hr : p.data.head? = some '/'
    · simp [hr]
    · simp only [hr, decide_False, Bool.false_eq_true, if_false]
      by_cases hb : joinSep ((splitSep p.data).foldl (cleanElem false) []).reverse = []
      · simp [hb]
      · have : String.mk
            (joinSep ((splitSep p.data).foldl (cleanElem false) []).reverse) ≠ "" := by
          intro h
          apply hb
          exact congrArg String.data h
        simp [hb, this]

theorem splitSep_ne_nil (p : List Char) : splitSep p ≠ [] := by
  cases p with
  | nil => simp [splitSep]
  | cons c cs =>
    simp only [splitSep]
    split
    · simp
    · split <;> simp

theorem splitSep_no_sep (p : List Char) : ∀ c ∈ splitSep p, '/' ∉ c := by
  induction p with
  | nil => simp [splitSep]
  | cons a cs ih =>
    simp only [splitSep]
    split
    · intro c hc
      rcases List.mem_cons.1 hc with h | h
      · subst h; simp
      · exact ih c h
    · rename_i ha
      split
      · intro c hc
        simp only [List.mem_singleton] at hc
        subst hc
        simpa using fun h => ha h.symm
      · rename_i x xs hx
        intro c hc
        rw [hx] at ih
        rcases List.mem_cons.1 hc with h | h
        · subst h
          have := ih x (List.mem_cons_self _ _)
          simp only [List.mem_cons, not_or]
          exact ⟨fun h => ha h.symm, this⟩
        · exact ih c (List.mem_cons_of_mem _ h)

theorem splitSep_of_no_sep (c : List Char) (h : '/' ∉ c) : splitSep c = [c] := by
  induction c with
  | nil => rfl
  | cons a cs ih =>
    simp only [List.mem_cons, not_or] at h
    have ha : a ≠ '/' := fun e => h.1 e.symm
    simp only [splitSep, ha, if_false, ih h.2]

theorem splitSep_append (a b : List Char) :
    splitSep (a ++ '/' :: b) = splitSep a ++ splitSep b := by
  induction a with
  | nil => simp [splitSep]
  | cons x xs ih =>
    simp only [List.cons_append, splitSep]
    split
    · simp [ih]
    · simp only [List.append_eq]
      rw [ih]
      cases hs : splitSep xs with
      | nil => exact absurd hs (splitSep_ne_nil xs)
      | cons y ys => simp

theorem splitSep_joinSep (cs : List (List Char)) (hne : cs ≠ [])
    (h : ∀ c ∈ cs, '/' ∉ c) : splitSep (joinSep cs) = cs := by
  induction cs with
  | nil => exact absurd rfl hne
  | cons c rest ih =>
    cases rest with
    | nil => simpa [joinSep] using splitSep_of_no_sep c (h c (List.mem_cons_self _ _))
    | cons d rest =>
      simp only [joinSep]
      rw [splitSep_append, splitSep_of_no_sep c (h c (List.mem_cons_self _ _)),
        ih (by simp) (fun x hx => h x (List.mem_cons_of_mem _ hx))]
      rfl

theorem validOut_suffix (r : Bool) (a b : List (List Char)) (h : validOut r (a ++ b)) :
    validOut r b := by
  induction a with
  | nil => exact h
  | cons x xs ih => exact ih h.2.1

theorem validOut_proper (r : Bool) (out : List (List Char)) (h : validOut r out) :
    ∀ c ∈ out, properElem c := by
  induction out with
  | nil => simp
  | cons x xs ih =>
    intro c hc
    rcases List.mem_cons.1 hc with e | e
    · subst e; exact h.1
    · exact ih h.2.1 c e

theorem cleanElem_valid (r : Bool) (out : List (List Char)) (c : List Char)
    (hc : '/' ∉ c) (h : validOut r out) : validOut r (cleanElem r out c) := by
  unfold cleanElem
  split
  · exact h
  · rename_i h1
    simp only [not_or] at h1
    split
    · rename_i h2
      subst h2
      cases out with
      | nil =>
        cases r with
        | true => simp [validOut]
        | false => simp [validOut, properElem]
      | cons top rest =>
        simp only
        split
        · rename_i ht
          subst ht
          refine ⟨⟨by simp, by simp, by simp⟩, h, fun _ => ⟨(h.2.2 rfl).1, ?_⟩⟩
          intro x hx
          rcases List.mem_cons.1 hx with e | e
          · exact e
          · exact (h.2.2 rfl).2 x e
        · exact h.2.1
    · rename_i h2
      exact ⟨⟨h1.1, h1.2, hc⟩, h, fun e => absurd e h2⟩

theorem foldl_cleanElem_valid (r : Bool) (cs out : List (List Char))
    (hc : ∀ c ∈ cs, '/' ∉ c) (h : validOut r out) :
    validOut r (cs.foldl (cleanElem r) out) := by
  induction cs generalizing out with
  | nil => exact h
  | cons c rest ih =>
    simp only [List.foldl]
    exact ih _ (fun x hx => hc x (List.mem_cons_of_mem _ hx))
      (cleanElem_valid r out c (hc c (List.mem_cons_self _ _)) h)

theorem cleanElem_keep (r : Bool) (out : List (List Char)) (c : List Char)
    (h : validOut r (c :: out)) : cleanElem r out c = c :: out := by
  obtain ⟨⟨h1, h2, -⟩, -, h4⟩ := h
  unfold cleanElem
  simp only [h1, h2, or_self, if_false]
  split
  · rename_i hc
    obtain ⟨hr, hall⟩ := h4 hc
    subst hr
    cases out with
    | nil => simp [hc]
    | cons top rest => simp [hall top (List.mem_cons_self _ _), hc]
  · rfl

theorem foldl_cleanElem_keep (r : Bool) (cs out : List (List Char))
    (h : validOut r (cs.reverse ++ out)) :
    cs.foldl (cleanElem r) out = cs.reverse ++ out := by
  induction cs generalizing out with
  | nil => rfl
  | cons c rest ih =>
    simp only [List.reverse_cons, List.append_assoc, List.singleton_append] at h
    simp only [List.foldl, List.reverse_cons, List.append_assoc, List.singleton_append]
    rw [cleanElem_keep r out c (validOut_suffix r _ _ h)]
    exact ih _ h

theorem cleanElem_skip_nil (r : Bool) (out : List (List Char)) : cleanElem r out [] = out := by
  simp [cleanElem]

theorem joinSep_append_singleton (init : List (List Char)) (last : List Char)
    (h : init ≠ []) : joinSep (init ++ [last]) = joinSep init ++ '/' :: last := by
  induction init with
  | nil => exact absurd rfl h
  | cons c rest ih =>
    cases rest with
    | nil => simp [joinSep]
    | cons d rest =>
      have := ih (by simp)
      simp only [List.cons_append, joinSep, List.append_eq] at this ⊢
      rw [this]
      simp

theorem joinSep_head (cs : List (List Char)) (c : List Char) (rest : List (List Char))
    (h : cs = c :: rest) : ∃ tl, joinSep cs = c ++ tl ∧ (rest = [] → tl = []) ∧
      (rest ≠ [] → tl = '/' :: joinSep rest) := by
  subst h
  cases rest with
  | nil => exact ⟨[], by simp [joinSep], fun _ => rfl, fun h => absurd rfl h⟩
  | cons d rest => exact ⟨'/' :: joinSep (d :: rest), by simp [joinSep], by simp, fun _ => rfl⟩

theorem joinSep_eq_nil (cs : List (List Char)) (h : ∀ c ∈ cs, c ≠ []) :
    joinSep cs = [] ↔ cs = [] := by
  cases cs with
  | nil => simp [joinSep]
  | cons c rest =>
    obtain ⟨tl, htl, -, -⟩ := joinSep_head (c :: rest) c rest rfl
    rw [htl]
    simp [h c (List.mem_cons_self _ _)]

theorem joinSep_head_ne_sep (cs : List (List Char)) (h : ∀ c ∈ cs, properElem c) :
    (joinSep cs).head? ≠ some '/' := by
  cases cs with
  | nil => simp [joinSep]
  | cons c rest =>
    obtain ⟨tl, htl, -, -⟩ := joinSep_head (c :: rest) c rest rfl
    rw [htl]
    obtain ⟨h1, -, h3⟩ := h c (List.mem_cons_self _ _)
    cases c with
    | nil => exact absurd rfl h1
    | cons x xs =>
      simp only [List.cons_append, List.head?_cons, ne_eq, Option.some.injEq]
      intro e
      apply h3
      simp [e]

theorem validOut_reverse_proper (r : Bool) (cs : List (List Char))
    (h : validOut r cs.reverse) : ∀ c ∈ cs, properElem c := fun c hc =>
  validOut_proper r _ h c (List.mem_reverse.2 hc)

theorem render_ne_nil (r : Bool) (cs : List (List Char))
    (h : ∀ c ∈ cs, properElem c) : render r cs ≠ [] := by
  unfold render
  cases r with
  | true => simp
  | false =>
    simp only [Bool.false_eq_true, if_false]
    split
    · simp
    · rename_i hne
      rw [ne_eq, joinSep_eq_nil cs (fun c hc => (h c hc).1)]
      exact hne

theorem render_head (r : Bool) (cs : List (List Char)) (h : ∀ c ∈ cs, properElem c) :
    (render r cs).head? = some '/' ↔ r = true := by
  unfold render
  cases r with
  | true => simp
  | false =>
    simp only [Bool.false_eq_true, if_false, iff_false]
    split
    · simp
    · exact joinSep_head_ne_sep cs h

theorem cleanChars_canonical (p : List Char) :
    ∃ r cs, validOut r (List.reverse cs) ∧ cleanChars p = render r cs := by
  unfold cleanChars
  split
  · exact ⟨false, [], trivial, rfl⟩
  · split
    · refine ⟨true, ((splitSep p).foldl (cleanElem true) []).reverse, ?_, rfl⟩
      rw [List.reverse_reverse]
      exact foldl_cleanElem_valid true _ [] (splitSep_no_sep p) trivial
    · have hv := foldl_cleanElem_valid false _ [] (splitSep_no_sep p) trivial
      refine ⟨false, ((splitSep p).foldl (cleanElem false) []).reverse, ?_, ?_⟩
      · rw [List.reverse_reverse]
        exact hv
      · have hp : ∀ c ∈ ((splitSep p).foldl (cleanElem false) []).reverse, c ≠ [] :=
          fun c hc => (validOut_proper false _ hv c (List.mem_reverse.1 hc)).1
        simp only [render, Bool.false_eq_true, if_false, joinSep_eq_nil _ hp]

theorem foldl_cleanElem_elems (r : Bool) (cs : List (List Char))
    (h : validOut r cs.reverse) : cs.foldl (cleanElem r) [] = cs.reverse := by
  simpa using foldl_cleanElem_keep r cs [] (by simpa using h)

theorem cleanChars_render (r : Bool) (cs : List (List Char))
    (h : validOut r cs.reverse) : cleanChars (render r cs) = render r cs := by
  have hp := validOut_reverse_proper r cs h
  have hsep : ∀ c ∈ cs, '/' ∉ c := fun c hc => (hp c hc).2.2
  unfold cleanChars
  rw [if_neg (render_ne_nil r cs hp)]
  cases r with
  | true =>
    rw [if_pos ((render_head true cs hp).2 rfl)]
    simp only [render, if_true]
    congr 1
    by_cases hcs : cs = []
    · subst hcs
      simp [joinSep, splitSep, cleanElem]
    · have : splitSep ('/' :: joinSep cs) = [] :: cs := by
        simp [splitSep, splitSep_joinSep cs hcs hsep]
      rw [this]
      simp only [List.foldl, cleanElem_skip_nil]
      rw [foldl_cleanElem_elems true cs h, List.reverse_reverse]
  | false =>
    rw [if_neg (by simpa using (render_head false cs hp).not.2 (by simp))]
    by_cases hcs : cs = []
    · subst hcs
      simp [render, joinSep, splitSep, cleanElem]
    · simp only [render, Bool.false_eq_true, if_false, hcs]
      rw [splitSep_joinSep cs hcs hsep, foldl_cleanElem_elems false cs h,
        List.reverse_reverse]
      simp [joinSep_eq_nil cs (fun c hc => (hp c hc).1), hcs]

theorem cleanChars_idem (p : List Char) : cleanChars (cleanChars p) = cleanChars p := by
  obtain ⟨r, cs, hv, he⟩ := cleanChars_canonical p
  rw [he, cleanChars_render r cs hv]

theorem dirPart_of_no_sep (c : List Char) (h : '/' ∉ c) : dirPart c = [] := by
  cases c with
  | nil => rfl
  | cons a cs =>
    simp only [List.mem_cons, not_or] at h
    have ha : a ≠ '/' := fun e => h.1 e.symm
    simp [dirPart, ha, h.2]

theorem dirPart_append (a b : List Char) :
    dirPart (a ++ '/' :: b) = a ++ '/' :: dirPart b := by
  induction a with
  | nil => simp [dirPart]
  | cons x xs ih =>
    simp only [List.cons_append, dirPart]
    rw [if_pos (by simp)]
    simp only [List.append_eq]
    rw [ih]

theorem validOut_init (r : Bool) (init : List (List Char)) (last : List Char)
    (h : validOut r (init ++ [last]).reverse) : validOut r init.reverse := by
  simp only [List.reverse_append, List.reverse_singleton, List.singleton_append] at h
  exact h.2.1

theorem cleanChars_dir_rooted (cs : List (List Char)) (h : validOut true cs.reverse) :
    cleanChars ('/' :: joinSep cs ++ ['/']) = render true cs := by
  have hp := validOut_reverse_proper true cs h
  have hsep : ∀ c ∈ cs, '/' ∉ c := fun c hc => (hp c hc).2.2
  unfold cleanChars
  rw [if_neg (by simp), if_pos (by simp)]
  simp only [render, if_true]
  congr 1
  by_cases hcs : cs = []
  · subst hcs
    simp [joinSep, splitSep, cleanElem]
  · have : splitSep ('/' :: joinSep cs ++ ['/']) = [] :: (cs ++ [[]]) := by
      simp only [List.cons_append, splitSep, if_true, List.append_eq]
      rw [splitSep_append, splitSep_joinSep cs hcs hsep]
      rfl
    rw [this]
    simp only [List.foldl, cleanElem_skip_nil, List.foldl_append]
    rw [foldl_cleanElem_elems true cs h, List.reverse_reverse]

theorem cleanChars_dir_unrooted (cs : List (List Char)) (hcs : cs ≠ [])
    (h : validOut false cs.reverse) :
    cleanChars (joinSep cs ++ ['/']) = render false cs := by
  have hp := validOut_reverse_proper false cs h
  have hsep : ∀ c ∈ cs, '/' ∉ c := fun c hc => (hp c hc).2.2
  have hne : joinSep cs ≠ [] := by
    rw [ne_eq, joinSep_eq_nil cs (fun c hc => (hp c hc).1)]
    exact hcs
  have hhead : (joinSep cs ++ ['/']).head? ≠ some '/' := by
    have := joinSep_head_ne_sep cs hp
    cases hj : joinSep cs with
    | nil => exact absurd hj hne
    | cons x xs => rw [hj] at this; simpa using this
  unfold cleanChars
  rw [if_neg (by simp), if_neg hhead]
  have : splitSep (joinSep cs ++ ['/']) = cs ++ [[]] := by
    rw [splitSep_append, splitSep_joinSep cs hcs hsep]
    rfl
  rw [this]
  simp only [List.foldl, cleanElem_skip_nil, List.foldl_append]
  rw [foldl_cleanElem_elems false cs h, List.reverse_reverse]
  simp [render, hcs, hne]

/-- The parent of a cleaned path: `filepath.Dir` drops the last element. -/
theorem cleanChars_dirPart_render (r : Bool) (cs : List (List Char))
    (h : validOut r cs.reverse) :
    cleanChars (dirPart (render r cs)) = render r cs.dropLast := by
  rcases List.eq_nil_or_concat cs with hcs | ⟨init, last, hcs⟩
  · subst hcs
    cases r <;> simp [render, joinSep, dirPart, cleanChars, splitSep, cleanElem]
  · subst hcs
    rw [List.concat_eq_append] at h ⊢
    have hp := validOut_reverse_proper r _ h
    have hlast : '/' ∉ last := (hp last (by simp)).2.2
    have hinit := validOut_init r init last h
    rw [List.dropLast_concat]
    by_cases hi : init = []
    · subst hi
      cases r with
      | true =>
        have : dirPart (render true ([] ++ [last])) = ['/'] := by
          simp only [render, if_true, List.nil_append, joinSep]
          have := dirPart_append [] last
          simp only [List.nil_append] at this
          rw [this, dirPart_of_no_sep last hlast]
        rw [this]
        simp [render, joinSep, cleanChars, splitSep, cleanElem]
      | false =>
        have : dirPart (render false ([] ++ [last])) = [] := by
          simp only [render, Bool.false_eq_true, if_false, List.nil_append, joinSep]
          simp [dirPart_of_no_sep last hlast]
        rw [this]
        simp [render, cleanChars]
    · cases r with
      | true =>
        have : dirPart (render true (init ++ [last])) = '/' :: joinSep init ++ ['/'] := by
          simp only [render, if_true, joinSep_append_singleton init last hi]
          have := dirPart_append ('/' :: joinSep init) last
          simp only [List.cons_append] at this ⊢
          rw [this, dirPart_of_no_sep last hlast]
        rw [this]
        exact cleanChars_dir_rooted init hinit
      | false =>
        have : dirPart (render false (init ++ [last])) = joinSep init ++ ['/'] := by
          simp only [render, Bool.false_eq_true, if_false, joinSep_append_singleton init last hi]
          simp only [List.append_eq_nil, hi, false_and, if_false]
          rw [dirPart_append, dirPart_of_no_sep last hlast]
        rw [this]
        exact cleanChars_dir_unrooted init hi hinit

theorem sep_prefix (a b x y : List Char) (ha : '/' ∉ a) (hb : '/' ∉ b)
    (h : a ++ '/' :: x <+: b ++ '/' :: y) : a = b ∧ x <+: y := by
  induction a generalizing b with
  | nil =>
    cases b with
    | nil => exact ⟨rfl, by simpa using h⟩
    | cons d b =>
      simp only [List.nil_append, List.cons_append, List.cons_prefix_cons] at h
      exact absurd (by rw [← h.1]; exact List.mem_cons_self _ _) hb
  | cons c a ih =>
    cases b with
    | nil =>
      simp only [List.nil_append, List.cons_append, List.cons_prefix_cons] at h
      exact absurd (by simp [h.1]) ha
    | cons d b =>
      simp only [List.cons_append, List.cons_prefix_cons] at h
      simp only [List.mem_cons, not_or] at ha hb
      obtain ⟨e, hx⟩ := ih b ha.2 hb.2 h.2
      exact ⟨by rw [h.1, e], hx⟩

theorem sep_prefix_no_sep (a b x : List Char) (hb : '/' ∉ b) : ¬ (a ++ '/' :: x <+: b) := by
  intro h
  apply hb
  exact h.subset (by simp)

theorem joinSep_append (ds : List (List Char)) (e : List Char) (es : List (List Char))
    (h : ds ≠ []) : joinSep (ds ++ e :: es) = joinSep ds ++ '/' :: joinSep (e :: es) := by
  induction ds with
  | nil => exact absurd rfl h
  | cons c rest ih =>
    cases rest with
    | nil => simp [joinSep]
    | cons d rest =>
      have := ih (by simp)
      simp only [List.cons_append, joinSep, List.append_eq] at this ⊢
      rw [this]
      simp

theorem joinSep_prefix (ds cs : List (List Char)) (hds : ds ≠ [])
    (hd : ∀ c ∈ ds, '/' ∉ c) (hc : ∀ c ∈ cs, '/' ∉ c)
    (h : joinSep ds ++ ['/'] <+: joinSep cs) : ∃ e es, cs = ds ++ e :: es := by
  induction ds generalizing cs with
  | nil => exact absurd rfl hds
  | cons d rest ih =>
    cases cs with
    | nil =>
      obtain ⟨t, ht⟩ := h
      simp [joinSep] at ht
    | cons c cs =>
      cases cs with
      | nil =>
        exfalso
        cases rest with
        | nil =>
          simp only [joinSep] at h
          exact sep_prefix_no_sep d c [] (hc c (by simp)) h
        | cons d2 rest =>
          simp only [joinSep, List.append_assoc, List.cons_append] at h
          exact sep_prefix_no_sep d c _ (hc c (by simp)) h
      | cons c2 cs =>
        cases rest with
        | nil =>
          simp only [joinSep] at h
          obtain ⟨e, -⟩ := sep_prefix d c [] _ (hd d (by simp)) (hc c (by simp)) h
          exact ⟨c2, cs, by rw [e]; rfl⟩
        | cons d2 rest =>
          simp only [joinSep, List.append_assoc, List.cons_append] at h
          obtain ⟨e, hx⟩ := sep_prefix d c _ _ (hd d (by simp)) (hc c (by simp)) h
          obtain ⟨e2, es, hes⟩ := ih (c2 :: cs) (by simp)
            (fun x hx => hd x (List.mem_cons_of_mem _ hx))
            (fun x hx => hc x (List.mem_cons_of_mem _ hx)) hx
          exact ⟨e2, es, by rw [e, hes]; rfl⟩

theorem render_prefix (r q : Bool) (cs ds : List (List Char))
    (hc : validOut r cs.reverse) (hd : validOut q ds.reverse)
    (h : render q ds ++ ['/'] <+: render r cs) :
    r = q ∧ ds ≠ [] ∧ ∃ e es, cs = ds ++ e :: es := by
  have hpc := validOut_reverse_proper r cs hc
  have hpd := validOut_reverse_proper q ds hd
  have hhead : (render q ds ++ ['/']).head? = (render r cs).head? := by
    obtain ⟨t, ht⟩ := h
    rw [← ht]
    cases hq : render q ds ++ ['/'] with
    | nil => simp at hq
    | cons x xs => simp
  have hhead2 : (render q ds ++ ['/']).head? = (render q ds).head? := by
    cases hq : render q ds with
    | nil => exact absurd hq (render_ne_nil q ds hpd)
    | cons x xs => simp
  have hrq : r = q := by
    have h1 := render_head r cs hpc
    have h2 := render_head q ds hpd
    rw [← hhead, hhead2] at h1
    cases r <;> cases q <;> simp_all
  subst hrq
  have hne : ds ≠ [] := by
    intro hds
    subst hds
    cases r with
    | true =>
      simp only [render, if_true, joinSep, List.cons_append, List.nil_append,
        List.cons_prefix_cons, true_and] at h
      have := joinSep_head_ne_sep cs hpc
      obtain ⟨t, ht⟩ := h
      rw [← ht] at this
      simp at this
    | false =>
      simp only [render, Bool.false_eq_true, if_false, if_true, List.cons_append,
        List.nil_append] at h
      split at h
      · obtain ⟨t, ht⟩ := h
        simp at ht
      · rename_i hcs
        cases cs with
        | nil => exact hcs rfl
        | cons c rest =>
          obtain ⟨tl, htl, -, -⟩ := joinSep_head (c :: rest) c rest rfl
          rw [htl] at h
          obtain ⟨h1, h2, h3⟩ := hpc c (List.mem_cons_self _ _)
          cases c with
          | nil => exact h1 rfl
          | cons x xs =>
            simp only [List.cons_append, List.cons_prefix_cons] at h
            cases xs with
            | nil => exact h2 (by rw [h.1])
            | cons y ys =>
              simp only [List.cons_append, List.cons_prefix_cons] at h
              apply h3
              rw [← h.2.1]
              simp
  refine ⟨rfl, hne, ?_⟩
  apply joinSep_prefix ds cs hne (fun c hx => (hpd c hx).2.2) (fun c hx => (hpc c hx).2.2)
  cases r with
  | true =>
    simpa [render] using h
  | false =>
    simp only [render, Bool.false_eq_true, if_false, hne] at h
    split at h
    · exfalso
      obtain ⟨t, ht⟩ := h
      have hl := congrArg List.length ht
      have : joinSep ds ≠ [] := by
        rw [ne_eq, joinSep_eq_nil ds (fun c hx => (hpd c hx).1)]
        exact hne
      cases hj : joinSep ds with
      | nil => exact this hj
      | cons x xs =>
        rw [hj] at hl
        simp at hl
    · exact h

theorem render_prefix_of_append (r : Bool) (ds : List (List Char)) (e : List Char)
    (es : List (List Char)) (hne : ds ≠ []) :
    render r ds ++ ['/'] <+: render r (ds ++ e :: es) := by
  have : joinSep ds ++ ['/'] <+: joinSep (ds ++ e :: es) := by
    rw [joinSep_append ds e es hne]
    exact ⟨joinSep (e :: es), by simp⟩
  cases r with
  | true => simpa [render] using this
  | false => simpa [render, hne] using this

/-- The parent of a cleaned path below a cleaned directory is that directory or again
below it. -/
theorem dir_within (r q : Bool) (cs ds : List (List Char))
    (hc : validOut r cs.reverse) (hd : validOut q ds.reverse)
    (h : render q ds ++ ['/'] <+: render r cs) :
    cleanChars (dirPart (render r cs)) = render q ds ∨
      render q ds ++ ['/'] <+: cleanChars (dirPart (render r cs)) := by
  obtain ⟨hrq, hne, e, es, hcs⟩ := render_prefix r q cs ds hc hd h
  subst hrq
  rw [cleanChars_dirPart_render r cs hc]
  subst hcs
  rcases List.eq_nil_or_concat es with hes | ⟨init, last, hes⟩
  · subst hes
    left
    have : (ds ++ [e]).dropLast = ds := by simp
    rw [this]
  · subst hes
    right
    have : (ds ++ e :: init.concat last).dropLast = ds ++ e :: init := by
      rw [List.concat_eq_append]
      have h1 : ds ++ e :: (init ++ [last]) = (ds ++ e :: init) ++ [last] := by simp
      rw [h1, List.dropLast_concat]
    rw [this]
    exact render_prefix_of_append r ds e init hne

theorem Clean_idem (p : String) : Clean (Clean p) = Clean p := by
  apply String.ext
  rw [Clean_data, Clean_data, cleanChars_idem]

theorem Dir_data (p : String) : (Dir p).data = cleanChars (dirPart p.data) := by
  simp only [Dir, Clean_data]

theorem startsWith_iff (s p : String) : startsWith s p = true ↔ p.data <+: s.data := by
  simp only [startsWith, List.isPrefixOf_iff_prefix]

theorem illegalPath_eq (dest name : String) :
    illegalPath dest name = !underDest dest (Join dest name) := by
  simp only [illegalPath, underDest]
  by_cases h1 : Clean (Join dest name) = Clean dest <;>
    by_cases h2 : startsWith (Clean (Join dest name)) (Clean dest ++ "/") = true <;>
    simp [h1, h2]

theorem Join_clean (dest name : String) :
    (dest = "" ∧ name = "" ∧ Join dest name = "") ∨ ∃ x, Join dest name = Clean x := by
  unfold Join
  by_cases hd : dest = ""
  · by_cases hn : name = ""
    · left
      simp [hd, hn]
    · right
      exact ⟨name, by simp [hd, hn]⟩
  · right
    exact ⟨dest ++ "/" ++ name, by simp [hd]⟩

theorem Dir_underDest (dest x : String)
    (h : startsWith (Clean x) (Clean dest ++ "/") = true) :
    underDest dest (Dir (Clean x)) = true := by
  obtain ⟨r, cs, hc, hx⟩ := cleanChars_canonical x.data
  obtain ⟨q, ds, hd, hdest⟩ := cleanChars_canonical dest.data
  rw [startsWith_iff, String.data_append, Clean_data, Clean_data, hx, hdest] at h
  have hdir : (Dir (Clean x)).data = cleanChars (dirPart (render r cs)) := by
    rw [Dir_data, Clean_data, hx]
  have hclean : Clean (Dir (Clean x)) = Dir (Clean x) := by
    unfold Dir
    exact Clean_idem _
  simp only [underDest, hclean, Bool.decide_or, Bool.or_eq_true, decide_eq_true_eq]
  rcases dir_within r q cs ds hc hd h with h1 | h1
  · left
    apply String.ext
    rw [hdir, Clean_data, hdest, h1]
  · right
    rw [startsWith_iff, String.data_append, hdir, Clean_data, hdest]
    exact h1

/-- The directory created for a legal regular entry. -/
theorem Dir_Join_inside (dest name : String) (h : illegalPath dest name = false) :
    underDest dest (Dir (Join dest name)) = true ∨
      Dir (Join dest name) = Dir (Clean dest) := by
  rw [illegalPath_eq] at h
  simp only [Bool.not_eq_false_eq_eq_true, underDest, Bool.decide_or, Bool.or_eq_true,
    decide_eq_true_eq] at h
  rcases Join_clean dest name with ⟨hd, hn, hj⟩ | ⟨x, hx⟩
  · right
    subst hd
    subst hn
    rfl
  · rw [hx] at h ⊢
    rw [Clean_idem] at h
    rcases h with h | h
    · right
      rw [h]
    · left
      exact Dir_underDest dest x h

theorem extractFile_inside {σ : Type} (env : Env σ) (dest : String) (f : ZipEntry)
    (hf : illegalPath dest f.Name = false) {s s0 : St σ}
    (h : Emits (Event.staysInside dest) s s0) :
    Emits (Event.staysInside dest) s (extractFile env dest f s0).2 := by
  have hmk : Event.staysInside dest (Event.mkdirAll (Dir (Join dest f.Name))) = true := by
    simp only [Event.staysInside, Bool.or_eq_true, decide_eq_true_eq]
    exact Dir_Join_inside dest f.Name hf
  have hcr : Event.staysInside dest (Event.create (Join dest f.Name)) = true := by
    simpa [Event.staysInside, illegalPath_eq] using hf
  have hcp : Event.staysInside dest (Event.copy (Join dest f.Name) f.Data) = true := hcr
  have hop : Event.staysInside dest (Event.openEntry f.Name) = true := rfl
  simp only [extractFile]
  repeat' split
  all_goals dsimp only
  all_goals
    first
    | exact Emits.after_call hmk h
    | exact Emits.after_call hop (Emits.after_call hmk h)
    | exact Emits.after_call hcr (Emits.after_call hop (Emits.after_call hmk h))
    | exact Emits.after_call hcp
        (Emits.after_call hcr (Emits.after_call hop (Emits.after_call hmk h)))

theorem extractEntries_inside {σ : Type} (env : Env σ) (dest : String)
    (files : List ZipEntry) {s s0 : St σ} (h : Emits (Event.staysInside dest) s s0) :
    Emits (Event.staysInside dest) s (extractEntries env dest files s0).2 := by
  induction files generalizing s0 with
  | nil => exact h
  | cons f rest ih =>
    simp only [extractEntries]
    split
    · exact h
    · rename_i hf
      have hf : illegalPath dest f.Name = false := by simpa using hf
      split
      · refine ih (Emits.after_call ?_ h)
        simp only [Event.staysInside, Bool.or_eq_true, decide_eq_true_eq]
        left
        simpa [illegalPath_eq] using hf
      · have hx := extractFile_inside env dest f hf h
        rcases hy : extractFile env dest f s0 with ⟨o, s1⟩
        rw [hy] at hx
        cases o with
        | some e => exact hx
        | none => exact ih hx

theorem ExtractZip_inside {σ : Type} (env : Env σ) (src dest : String) (s : St σ) :
    Emits (Event.staysInside dest) s (ExtractZip env src dest s).2 := by
  simp only [ExtractZip]
  split
  · dsimp only
    exact Emits.after_call rfl (Emits.refl _ s)
  · dsimp only
    exact Emits.after_call rfl
      (extractEntries_inside env dest _ (Emits.after_call rfl (Emits.refl _ s)))

/-- C11, as stated, fails: for a regular entry named `.` the target is the destination
`out/bundle` itself, so the entry passes the test, and `ExtractZip` calls `MkdirAll` on
the parent `out` of the destination, a directory that is neither the destination nor
below it. -/
theorem C11_counterexample_parent_of_destination_is_created :
    illegalPath "out/bundle" "." = false ∧
      (ExtractZip demoEnv "out/db-bundle.zip" "out/bundle" (demoState dotWorld)).1 = none ∧
      (ExtractZip demoEnv "out/db-bundle.zip" "out/bundle" (demoState dotWorld)).2.trace =
        [Event.openZip "out/db-bundle.zip", Event.mkdirAll "out", Event.openEntry ".",
          Event.create "out/bundle", Event.copy "out/bundle" [7], Event.closeZip] ∧
      (ExtractZip demoEnv "out/db-bundle.zip" "out/bundle"
        (demoState dotWorld)).2.world.dirs = ["out"] ∧
      Clean "out" = "out" ∧ Clean "out/bundle" = "out/bundle" ∧
      startsWith "out" ("out/bundle" ++ "/") = false ∧
      underDest "out/bundle" "out" = false := by
  refine ⟨by decide, by decide, by decide, by decide, by decide, by decide, by decide,
    by decide⟩

/-- C11 (amended): in every run of `ExtractZip` every file created or written has a
cleaned path equal to the cleaned destination or beginning with the cleaned destination
followed by the separator, and so has every directory passed to `MkdirAll`, except that
for a regular entry whose target is the destination itself `MkdirAll` is called on the
parent of the destination; the run does nothing else but open and close the archive and
open entries.  An entry failing the test makes `ExtractZip` return an error, and the run
is then exactly the extraction of the entries before it: the entry is never written. -/
theorem C11_extraction_stays_inside_destination {σ : Type} (env : Env σ)
    (src dest : String) (s : St σ) :
    (∃ evs : List Event,
        (ExtractZip env src dest s).2.trace = s.trace ++ evs ∧
        (∀ path, Event.create path ∈ evs → underDest dest path = true) ∧
        (∀ path data, Event.copy path data ∈ evs → underDest dest path = true) ∧
        (∀ path, Event.mkdirAll path ∈ evs →
          underDest dest path = true ∨ path = Dir (Clean dest)) ∧
        (∀ e ∈ evs, e.staysInside dest = true)) ∧
      (∀ pre f rest w1, env.openZip s.world src = (.ok (pre ++ f :: rest), w1) →
        illegalPath dest f.Name = true →
        (ExtractZip env src dest s).1 ≠ none ∧
        (ExtractZip env src dest s).2 =
          (call Event.closeZip env.closeZip (extractEntries env dest pre
            { world := w1, trace := s.trace ++ [Event.openZip src],
              status := s.status }).2).2) := by
  constructor
  · obtain ⟨evs, ht, hp⟩ := ExtractZip_inside env src dest s
    refine ⟨evs, ht, ?_, ?_, ?_, hp⟩
    · intro path h
      simpa [Event.staysInside] using hp _ h
    · intro path data h
      simpa [Event.staysInside] using hp _ h
    · intro path h
      simpa [Event.staysInside] using hp _ h
  · intro pre f rest w1 hopen hf
    have hmain : ExtractZip env src dest s =
        ((match (extractEntries env dest pre
              { world := w1, trace := s.trace ++ [Event.openZip src],
                status := s.status }).1 with
          | some e => some e
          | none => some ("illegal path in zip: " ++ f.Name)),
         (call Event.closeZip env.closeZip (extractEntries env dest pre
            { world := w1, trace := s.trace ++ [Event.openZip src],
              status := s.status }).2).2) := by
      simp only [ExtractZip, call, hopen]
      rw [extractEntries_illegal env dest pre f rest _ hf]
    rw [hmain]
    refine ⟨?_, rfl⟩
    simp only
    split <;> simp

/-- Witness of C11 (amended): the archive with `a.sql` followed by `../evil.sql`. -/
theorem C11_extraction_stays_inside_destination_witness :
    illegalPath ".work/bundle" "../evil.sql" = true ∧
      (ExtractZip demoEnv ".work/db-bundle.zip" ".work/bundle"
        (demoState slipWorld)).1 ≠ none ∧
      (ExtractZip demoEnv ".work/db-bundle.zip" ".work/bundle" (demoState slipWorld)).2 =
        (call Event.closeZip demoEnv.closeZip (extractEntries demoEnv ".work/bundle"
          [{ Name := "a.sql", IsDir := false, Data := [1] }]
          { world := slipWorld, trace := [] ++ [Event.openZip ".work/db-bundle.zip"],
            status := (demoState slipWorld).status }).2).2 :=
  ⟨by decide,
    (C11_extraction_stays_inside_destination demoEnv ".work/db-bundle.zip" ".work/bundle"
      (demoState slipWorld)).2 [{ Name := "a.sql", IsDir := false, Data := [1] }]
      { Name := "../evil.sql", IsDir := false, Data := [9] } [] slipWorld rfl (by decide)⟩

/-- C24: `NewStatusPayload` copies status, step and error; each timestamp of the payload
is absent exactly when the given time is the zero time and is that time otherwise.  The
`Status` handler answers HTTP 200, and when `GetStatus` returns `nil` the payload has
status "idle", empty step and error, and no timestamps. -/
theorem C24_status_payload (status step err : String) (startedAt finishedAt : Time) :
    (NewStatusPayload status step err startedAt finishedAt).Status = status ∧
      (NewStatusPayload status step err startedAt finishedAt).Step = step ∧
      (NewStatusPayload status step err startedAt finishedAt).Error = err ∧
      ((NewStatusPayload status step err startedAt finishedAt).StartedAt = none ↔
        startedAt = 0) ∧
      (startedAt ≠ 0 →
        (NewStatusPayload status step err startedAt finishedAt).StartedAt = some startedAt) ∧
      ((NewStatusPayload status step err startedAt finishedAt).FinishedAt = none ↔
        finishedAt = 0) ∧
      (finishedAt ≠ 0 →
        (NewStatusPayload status step err startedAt finishedAt).FinishedAt =
          some finishedAt) ∧
      (∀ (σ : Type) (s : St σ), GetStatus s = none →
        Controller.Status s =
          { code := 200,
            body := { Status := "idle", Step := "", Error := "", StartedAt := none,
                      FinishedAt := none } }) ∧
      (∀ (σ : Type) (s : St σ) (st : RunStatus), GetStatus s = some st →
        Controller.Status s =
          { code := 200,
            body := NewStatusPayload st.Status st.Step st.Error st.StartedAt
              st.FinishedAt }) := by
  refine ⟨rfl, rfl, rfl, ?_, ?_, ?_, ?_, ?_, ?_⟩
  · by_cases h : startedAt = 0 <;> simp [NewStatusPayload, h]
  · intro h
    simp [NewStatusPayload, h]
  · by_cases h : finishedAt = 0 <;> simp [NewStatusPayload, h]
  · intro h
    simp [NewStatusPayload, h]
  · intro σ s h
    simp only [Controller.Status, h]
    rfl
  · intro σ s st h
    simp only [Controller.Status, h]

/-- Witness of C24: the payload of a run that started at instant 5 and has not finished,
and the answer of the `Status` handler on a new service. -/
theorem C24_status_payload_witness :
    NewStatusPayload "running" "LOCK_DB" "" 5 0 =
        { Status := "running", Step := "LOCK_DB", Error := "", StartedAt := some 5,
          FinishedAt := none } ∧
      Controller.Status newService.st =
        { code := 200,
          body := { Status := "idle", Step := "", Error := "", StartedAt := none,
                    FinishedAt := none } } :=
  ⟨rfl, (C24_status_payload "" "" "" 0 0).2.2.2.2.2.2.2.1 Sim newService.st rfl⟩

theorem TryStart_status_isSome {σ : Type} (env : Env σ) (s : St σ) :
    (TryStart env s).2.status.isSome = true := by
  simp only [TryStart]
  split
  · rename_i h
    obtain ⟨st, hst, -⟩ := isRunning_some h
    rw [hst]
    rfl
  · rfl

theorem finalize_status_isSome {σ : Type} (result : InstallationResult) (start now : Time)
    (s : St σ) : (finalize result start now s).status.isSome = true := by
  simp only [finalize]
  split <;> rfl

theorem updateStep_status_isSome {σ : Type} (step : String) (s : St σ)
    (h : s.status.isSome = true) : (updateStep step s).status.isSome = true := by
  rw [updateStep_eq]
  simpa using h

theorem serviceCall_status_isSome {σ : Type} (env : Env σ) (c : ServiceCall)
    (s : St σ) (h : s.status.isSome = true) :
    (ServiceCall.apply env c s).status.isSome = true := by
  cases c with
  | tryStart => exact TryStart_status_isSome env s
  | updateStep step => exact updateStep_status_isSome step s h
  | runInstallation cfg => exact finalize_status_isSome _ _ _ _

theorem runCalls_status_isSome {σ : Type} (env : Env σ) (calls : List ServiceCall)
    (s : St σ) (h : s.status.isSome = true) : (runCalls env calls s).status.isSome = true := by
  induction calls generalizing s with
  | nil => exact h
  | cons c rest ih => exact ih _ (serviceCall_status_isSome env c s h)

theorem action_status_isSome {σ : Type} (env : Env σ) (a : Action σ) (s : St σ)
    (h : s.status.isSome = true) : (Action.apply env a s).status.isSome = true := by
  cases a with
  | tryStart => exact TryStart_status_isSome env s
  | updateStep label => exact updateStep_status_isSome label s h
  | work w evs => exact h
  | finalize result start now => exact finalize_status_isSome result start now s

theorem runActions_status_isSome {σ : Type} (env : Env σ) (acts : List (Action σ))
    (s : St σ) (h : s.status.isSome = true) : (runActions env acts s).status.isSome = true := by
  induction acts generalizing s with
  | nil => exact h
  | cons a rest ih => exact ih _ (action_status_isSome env a s h)

theorem conflictResponse_of_isSome (status : Option RunStatus) (h : status.isSome = true) :
    ∃ st, status = some st ∧
      conflictResponse status =
        some { code := 409,
               body := NewStatusPayload st.Status st.Step st.Error st.StartedAt
                 st.FinishedAt } := by
  cases status with
  | none => cases h
  | some st => exact ⟨st, rfl, rfl⟩

/-- C26: after a call of `TryStart` the status is present, and it stays present through
every further sequence of calls of `TryStart`, `updateStep` and `RunInstallation`, from
whatever state the service was in (a new service included).  Whenever `TryStart` returns
false the status is present, and it is still present when the handler reads it with
`GetStatus`, whatever atomic steps of other requests and of the run in flight come in
between: the 409 branch of the `Installation` handler gets a status and answers with its
payload. -/
theorem C26_status_present_after_try_start {σ : Type} (env : Env σ) (s : St σ) :
    (∀ before after : List ServiceCall,
        GetStatus (runCalls env (before ++ ServiceCall.tryStart :: after) s) ≠ none) ∧
      ((TryStart env s).1 = false →
        GetStatus (TryStart env s).2 ≠ none ∧
        ∀ acts : List (Action σ), ∃ st,
          GetStatus (runActions env acts (TryStart env s).2) = some st ∧
          conflictResponse (GetStatus (runActions env acts (TryStart env s).2)) =
            some { code := 409,
                   body := NewStatusPayload st.Status st.Step st.Error st.StartedAt
                     st.FinishedAt }) := by
  constructor
  · intro before after
    have hsplit : ∀ (l : List ServiceCall) (s0 : St σ),
        runCalls env (l ++ ServiceCall.tryStart :: after) s0 =
          runCalls env after (ServiceCall.apply env ServiceCall.tryStart (runCalls env l s0)) := by
      intro l
      induction l with
      | nil => intro s0; rfl
      | cons c rest ih => intro s0; exact ih _
    rw [hsplit]
    have h := runCalls_status_isSome env after
      (ServiceCall.apply env ServiceCall.tryStart (runCalls env before s))
      (TryStart_status_isSome env (runCalls env before s))
    intro hnone
    simp only [GetStatus] at hnone
    rw [hnone] at h
    cases h
  · intro _
    have h0 := TryStart_status_isSome env s
    refine ⟨?_, ?_⟩
    · intro hnone
      simp only [GetStatus] at hnone
      rw [hnone] at h0
      cases h0
    · intro acts
      exact conflictResponse_of_isSome _ (runActions_status_isSome env acts _ h0)

/-- Witness of C26: a second request on the busy service is rejected and finds the status
of the run in flight, also after that run was finalized. -/
theorem C26_status_present_after_try_start_witness :
    (TryStart demoEnv busyService.st).1 = false ∧
      GetStatus (TryStart demoEnv busyService.st).2 ≠ none ∧
      ∀ acts : List (Action Sim), ∃ st,
        GetStatus (runActions demoEnv acts (TryStart demoEnv busyService.st).2) = some st ∧
        conflictResponse
            (GetStatus (runActions demoEnv acts (TryStart demoEnv busyService.st).2)) =
          some { code := 409,
                 body := NewStatusPayload st.Status st.Step st.Error st.StartedAt
                   st.FinishedAt } :=
  ⟨rfl, (C26_status_present_after_try_start demoEnv busyService.st).2 rfl⟩

theorem extractFile_ledgerErrors {σ : Type} (env : Env σ)
    (err : σ → MigrationRecord → Option String) (dest : String) (f : ZipEntry) (s : St σ) :
    extractFile (withLedgerErrors env err) dest f s = extractFile env dest f s := rfl

theorem extractEntries_ledgerErrors {σ : Type} (env : Env σ)
    (err : σ → MigrationRecord → Option String) (dest : String) (files : List ZipEntry)
    (s : St σ) :
    extractEntries (withLedgerErrors env err) dest files s = extractEntries env dest files s := by
  induction files generalizing s with
  | nil => rfl
  | cons f rest ih =>
    simp only [extractEntries, extractFile_ledgerErrors, ih]
    rfl

theorem ExtractZip_ledgerErrors {σ : Type} (env : Env σ)
    (err : σ → MigrationRecord → Option String) (src dest : String) (s : St σ) :
    ExtractZip (withLedgerErrors env err) src dest s = ExtractZip env src dest s := by
  simp only [ExtractZip, extractEntries_ledgerErrors]
  rfl

theorem findCandidate_ledgerErrors {σ : Type} (env : Env σ)
    (err : σ → MigrationRecord → Option String) (extractDir : String)
    (entries : List (String × Bool)) (s : St σ) :
    findCandidate (withLedgerErrors env err) extractDir entries s =
      findCandidate env extractDir entries s := by
  induction entries generalizing s with
  | nil => rfl
  | cons e rest ih =>
    simp only [findCandidate, ih]
    rfl

theorem ResolveBaseDir_ledgerErrors {σ : Type} (env : Env σ)
    (err : σ → MigrationRecord → Option String) (extractDir : String) (s : St σ) :
    ResolveBaseDir (withLedgerErrors env err) extractDir s = ResolveBaseDir env extractDir s := by
  simp only [ResolveBaseDir, findCandidate_ledgerErrors]
  rfl

theorem fetchBundle_ledgerErrors {σ : Type} (env : Env σ)
    (err : σ → MigrationRecord → Option String) (cfg : Config) (s : St σ) :
    fetchBundle (withLedgerErrors env err) cfg s = fetchBundle env cfg s := by
  simp only [fetchBundle, ExtractZip_ledgerErrors, ResolveBaseDir_ledgerErrors]
  rfl

theorem VerifyChecksums_ledgerErrors {σ : Type} (env : Env σ)
    (err : σ → MigrationRecord → Option String) (baseDir : String)
    (checksums : List (String × String)) (s : St σ) :
    VerifyChecksums (withLedgerErrors env err) baseDir checksums s =
      VerifyChecksums env baseDir checksums s := by
  induction checksums generalizing s with
  | nil => rfl
  | cons c rest ih =>
    simp only [VerifyChecksums, ih]
    rfl

theorem verifyAndLoad_ledgerErrors {σ : Type} (env : Env σ)
    (err : σ → MigrationRecord → Option String) (baseDir : String) (s : St σ) :
    verifyAndLoad (withLedgerErrors env err) baseDir s = verifyAndLoad env baseDir s := by
  have h1 : ∀ s0, LoadChecksums (withLedgerErrors env err) baseDir s0 =
      LoadChecksums env baseDir s0 := fun _ => rfl
  have h2 : ∀ s0, LoadManifest (withLedgerErrors env err) baseDir s0 =
      LoadManifest env baseDir s0 := fun _ => rfl
  simp only [verifyAndLoad, h1, h2, VerifyChecksums_ledgerErrors]

theorem migrationStep_ledgerErrors {σ : Type} (env : Env σ)
    (err : σ → MigrationRecord → Option String) (force : Bool) (baseDir : String)
    (mig : Migration) (s : St σ) :
    migrationStep (withLedgerErrors env err) force baseDir mig s =
      migrationStep env force baseDir mig s := rfl

theorem applyMigrations_ledgerErrors {σ : Type} (env : Env σ)
    (err : σ → MigrationRecord → Option String) (force : Bool) (baseDir : String)
    (migs : List Migration) (lastVersion : String) (s : St σ) :
    applyMigrations (withLedgerErrors env err) force baseDir migs lastVersion s =
      applyMigrations env force baseDir migs lastVersion s := by
  induction migs generalizing lastVersion s with
  | nil => rfl
  | cons mig rest ih =>
    simp only [applyMigrations, migrationStep_ledgerErrors, ih]

theorem connectAndRun_ledgerErrors {σ : Type} (env : Env σ)
    (err : σ → MigrationRecord → Option String) (force skipSmoke : Bool) (key : Int)
    (baseDir : String) (manifest : Manifest) (s : St σ) :
    connectAndRun (withLedgerErrors env err) force skipSmoke key baseDir manifest s =
      connectAndRun env force skipSmoke key baseDir manifest s := by
  have h1 : ∀ lastVersion s0, postCheck (withLedgerErrors env err) skipSmoke baseDir manifest
      lastVersion s0 = postCheck env skipSmoke baseDir manifest lastVersion s0 :=
    fun _ _ => rfl
  have h2 : ∀ s0, migrateAndCheck (withLedgerErrors env err) force skipSmoke baseDir manifest
      s0 = migrateAndCheck env force skipSmoke baseDir manifest s0 := by
    intro s0
    simp only [migrateAndCheck, applyMigrations_ledgerErrors, h1]
  have h3 : ∀ s0, applyBaseline (withLedgerErrors env err) baseDir manifest s0 =
      applyBaseline env baseDir manifest s0 := fun _ => rfl
  have h4 : ∀ s0, IsFreshDB (withLedgerErrors env err) s0 = IsFreshDB env s0 := fun _ => rfl
  have h5 : ∀ s0, lockedSection (withLedgerErrors env err) force skipSmoke baseDir manifest
      s0 = lockedSection env force skipSmoke baseDir manifest s0 := by
    intro s0
    simp only [lockedSection, h2, h3, h4]
  have h6 : ∀ s0, connSection (withLedgerErrors env err) force skipSmoke key baseDir manifest
      s0 = connSection env force skipSmoke key baseDir manifest s0 := by
    intro s0
    simp only [connSection, h5]
    rfl
  simp only [connectAndRun, h6]
  rfl

theorem doInstallation_ledgerErrors {σ : Type} (env : Env σ)
    (err : σ → MigrationRecord → Option String) (cfg : Config) (s : St σ) :
    doInstallation (withLedgerErrors env err) cfg s = doInstallation env cfg s := by
  simp only [doInstallation, fetchBundle_ledgerErrors, verifyAndLoad_ledgerErrors,
    connectAndRun_ledgerErrors]

/-- C23: the error that the upsert of `RecordMigration` returns has no influence on the
run.  With every other operation unchanged (the world evolves as before), `doInstallation`
returns the same `InstallationResult` and ends in the same state whatever the upsert
returns, error or `nil`.  The outcome of one iteration is fixed before the upsert: it does
not depend on the upsert operation at all, and a migration whose execution succeeded lets
the loop go on with its version also when the upsert returns an error. -/
theorem C23_ledger_write_failure_keeps_outcome {σ : Type} (env : Env σ)
    (err1 err2 : σ → MigrationRecord → Option String) (cfg : Config) (s : St σ) :
    doInstallation (withLedgerErrors env err1) cfg s =
        doInstallation (withLedgerErrors env err2) cfg s ∧
      (doInstallation (withLedgerErrors env err1) cfg s).1.Success =
        (doInstallation env cfg s).1.Success ∧
      (doInstallation (withLedgerErrors env err1) cfg s).1.Step =
        (doInstallation env cfg s).1.Step ∧
      (doInstallation (withLedgerErrors env err1) cfg s).1.Error =
        (doInstallation env cfg s).1.Error ∧
      (doInstallation (withLedgerErrors env err1) cfg s).1.SchemaVersion =
        (doInstallation env cfg s).1.SchemaVersion ∧
      (∀ (upsert : σ → MigrationRecord → Option String × σ) (mig : Migration) (sql : Bytes)
          (fileChecksum : String) (s0 : St σ),
        (applyMigration { env with upsertRecord := upsert } mig sql fileChecksum s0).1 =
          (applyMigration env mig sql fileChecksum s0).1) ∧
      (∀ (mig : Migration) (sql : Bytes) (fileChecksum : String) (s0 : St σ),
        (execMigration env mig sql (call Event.now env.now s0).2).1 = none →
        (applyMigration (withLedgerErrors env err1) mig sql fileChecksum s0).1 =
          Flow.next mig.Version) := by
  have h1 := doInstallation_ledgerErrors env err1 cfg s
  have h2 := doInstallation_ledgerErrors env err2 cfg s
  refine ⟨by rw [h1, h2], by rw [h1], by rw [h1], by rw [h1], by rw [h1],
    fun _ _ _ _ _ => rfl, ?_⟩
  intro mig sql fileChecksum s0 hexec
  have hx : (execMigration (withLedgerErrors env err1) mig sql
      (call Event.now (withLedgerErrors env err1).now s0).2).1 = none := hexec
  simp only [applyMigration, hx]

/-- Witness of C23: the run of the first scenario with a ledger upsert that always
returns an error still succeeds with schema version `002`. -/
theorem C23_ledger_write_failure_keeps_outcome_witness :
    (doInstallation (withLedgerErrors bundleEnv (fun _ _ => some "ledger unavailable"))
        demoConfig (demoState freshWorld)).1 =
        { Success := true, SchemaVersion := "002" } ∧
      (doInstallation (withLedgerErrors bundleEnv (fun _ _ => some "ledger unavailable"))
        demoConfig (demoState freshWorld)).1.Success =
        (doInstallation bundleEnv demoConfig (demoState freshWorld)).1.Success :=
  ⟨by decide,
    (C23_ledger_write_failure_keeps_outcome bundleEnv (fun _ _ => some "ledger unavailable")
      (fun _ _ => none) demoConfig (demoState freshWorld)).2.1⟩

theorem VerifyChecksums_passed {σ : Type} (env : Env σ) (baseDir : String)
    (hpure : ∀ w p, (env.readFile w p).2 = w) (cs : List (String × String)) (s : St σ)
    (h : (VerifyChecksums env baseDir cs s).1 = none) :
    ∀ c ∈ cs, ∃ data, (env.readFile s.world (Join baseDir c.1)).1 = .ok data ∧
      SHA256Hex env data = NormalizeChecksum c.2 := by
  induction cs generalizing s with
  | nil => simp
  | cons c rest ih =>
    simp only [VerifyChecksums] at h
    cases hr : (env.readFile s.world (Join baseDir c.1)).1 with
    | error e => simp [call, hr] at h
    | ok data =>
      by_cases hsum : SHA256Hex env data = NormalizeChecksum c.2
      · simp only [call, hr, hsum, ne_eq, not_true_eq_false, if_false] at h
        have := ih _ h
        simp only [hpure] at this
        intro c2 hc2
        rcases List.mem_cons.1 hc2 with e | e
        · subst e
          exact ⟨data, hr, hsum⟩
        · exact this c2 e
      · simp [call, hr, hsum] at h

theorem applyMigrations_withChecksums {σ : Type} (env : Env σ)
    (parse : Bytes → Except String (List (String × String))) (force : Bool)
    (baseDir : String) (migs : List Migration) (lastVersion : String) (s : St σ) :
    applyMigrations (withChecksums env parse) force baseDir migs lastVersion s =
      applyMigrations env force baseDir migs lastVersion s := by
  have hstep : ∀ mig s0, migrationStep (withChecksums env parse) force baseDir mig s0 =
      migrationStep env force baseDir mig s0 := fun _ _ => rfl
  induction migs generalizing lastVersion s with
  | nil => rfl
  | cons mig rest ih =>
    simp only [applyMigrations, hstep, ih]

theorem connectAndRun_withChecksums {σ : Type} (env : Env σ)
    (parse : Bytes → Except String (List (String × String))) (force skipSmoke : Bool)
    (key : Int) (baseDir : String) (manifest : Manifest) (s : St σ) :
    connectAndRun (withChecksums env parse) force skipSmoke key baseDir manifest s =
      connectAndRun env force skipSmoke key baseDir manifest s := by
  have h1 : ∀ lastVersion s0, postCheck (withChecksums env parse) skipSmoke baseDir manifest
      lastVersion s0 = postCheck env skipSmoke baseDir manifest lastVersion s0 :=
    fun _ _ => rfl
  have h2 : ∀ s0, migrateAndCheck (withChecksums env parse) force skipSmoke baseDir manifest
      s0 = migrateAndCheck env force skipSmoke baseDir manifest s0 := by
    intro s0
    simp only [migrateAndCheck, applyMigrations_withChecksums, h1]
  have h3 : ∀ s0, applyBaseline (withChecksums env parse) baseDir manifest s0 =
      applyBaseline env baseDir manifest s0 := fun _ => rfl
  have h4 : ∀ s0, IsFreshDB (withChecksums env parse) s0 = IsFreshDB env s0 := fun _ => rfl
  have h5 : ∀ s0, lockedSection (withChecksums env parse) force skipSmoke baseDir manifest
      s0 = lockedSection env force skipSmoke baseDir manifest s0 := by
    intro s0
    simp only [lockedSection, h2, h3, h4]
  have h6 : ∀ s0, connSection (withChecksums env parse) force skipSmoke key baseDir manifest
      s0 = connSection env force skipSmoke key baseDir manifest s0 := by
    intro s0
    simp only [connSection, h5]
    rfl
  simp only [connectAndRun, h6]
  rfl

theorem verifyAndLoad_ok {σ : Type} (env : Env σ) (baseDir : String) (s s2 : St σ)
    (manifest : Manifest) (h : verifyAndLoad env baseDir s = (.ok manifest, s2)) :
    ∃ (checksums : List (String × String)) (sc : St σ),
      LoadChecksums env baseDir (updateStep StepVerifyChecksum s) = (.ok checksums, sc) ∧
      (VerifyChecksums env baseDir checksums sc).1 = none ∧
      LoadManifest env baseDir
          (updateStep StepParseManifest (VerifyChecksums env baseDir checksums sc).2) =
        (.ok manifest, s2) := by
  simp only [verifyAndLoad] at h
  rcases hl : LoadChecksums env baseDir (updateStep StepVerifyChecksum s) with ⟨lr, sc⟩
  rw [hl] at h
  cases lr with
  | error e => simp at h
  | ok checksums =>
    simp only at h
    cases hv : (VerifyChecksums env baseDir checksums sc).1 with
    | some e => rw [hv] at h; simp at h
    | none =>
      rw [hv] at h
      simp only at h
      rcases hm : LoadManifest env baseDir
          (updateStep StepParseManifest (VerifyChecksums env baseDir checksums sc).2)
        with ⟨mr, sm⟩
      rw [hm] at h
      cases mr with
      | error e => simp at h
      | ok m =>
        simp only [Prod.mk.injEq, Except.ok.injEq] at h
        exact ⟨checksums, sc, rfl, hv, by rw [hm, h.1, h.2]⟩

theorem doInstallation_loaded {σ : Type} (env : Env σ) (cfg : Config) (s s1 s2 : St σ)
    (baseDir : String) (manifest : Manifest)
    (hcfg : cfg.dbURL ≠ "" ∧ cfg.BundleURL ≠ "")
    (hfetch : fetchBundle env cfg s = (.ok baseDir, s1))
    (hload : verifyAndLoad env baseDir s1 = (.ok manifest, s2)) :
    doInstallation env cfg s =
      connectAndRun env (ParseBool cfg.Force) (ParseBool cfg.SkipSmoke)
        (if ParseInt cfg.AdvisoryLockKey = 0 then 987654321 else ParseInt cfg.AdvisoryLockKey)
        baseDir manifest s2 := by
  simp only [doInstallation, hcfg.1, hcfg.2, or_self, if_false, hfetch, hload]

/-- C21, as stated, fails: the manifest references `m2.sql`, checksums.json lists only
`base.sql` and `m1.sql`, and the run succeeds with schema version `002`: `m2.sql` is
read once, by the migration loop and not by `VerifyChecksums`, and its SQL is executed. -/
theorem C21_counterexample_unlisted_migration_is_executed :
    partialEnv.parseChecksums [0] = .ok [("base.sql", "sha256:01"), ("m1.sql", "02")] ∧
      demoM2 ∈ demoManifest.Migrations ∧ demoM2.File = "m2.sql" ∧
      "m2.sql" ∉ [("base.sql", "sha256:01"), ("m1.sql", "02")].map Prod.fst ∧
      (doInstallation partialEnv demoConfig (demoState freshWorld)).1 =
        { Success := true, SchemaVersion := "002" } ∧
      (doInstallation partialEnv demoConfig (demoState freshWorld)).2.trace.count
        (Event.readFile ".work/bundle/m1.sql") = 2 ∧
      (doInstallation partialEnv demoConfig (demoState freshWorld)).2.trace.count
        (Event.readFile ".work/bundle/m2.sql") = 1 ∧
      Event.execContext [3] ∈
        (doInstallation partialEnv demoConfig (demoState freshWorld)).2.trace := by
  refine ⟨rfl, by decide, rfl, by decide, by decide, by decide, by decide, by decide⟩

/-- C21 (amended): in a run that reaches the database, checksums.json was parsed and
`VerifyChecksums` returned no error for its map before the manifest was loaded, so (when
reading leaves the file system as it is) every file listed in the map was readable with
`SHA256Hex` of its bytes equal to the normalized expected value.  The manifest is not
compared with the map: the rest of the run is `connectAndRun` on the manifest, which
reads and executes the manifest's files and is the same whatever checksums.json lists. -/
theorem C21_checksum_keys_verified_manifest_not_compared {σ : Type} (env : Env σ)
    (cfg : Config) (s s1 s2 : St σ) (baseDir : String) (manifest : Manifest)
    (hcfg : cfg.dbURL ≠ "" ∧ cfg.BundleURL ≠ "")
    (hfetch : fetchBundle env cfg s = (.ok baseDir, s1))
    (hload : verifyAndLoad env baseDir s1 = (.ok manifest, s2)) :
    (∃ (checksums : List (String × String)) (sc : St σ),
        LoadChecksums env baseDir (updateStep StepVerifyChecksum s1) = (.ok checksums, sc) ∧
        (VerifyChecksums env baseDir checksums sc).1 = none ∧
        ((∀ w p, (env.readFile w p).2 = w) →
          ∀ c ∈ checksums, ∃ data,
            (env.readFile sc.world (Join baseDir c.1)).1 = .ok data ∧
            SHA256Hex env data = NormalizeChecksum c.2)) ∧
      doInstallation env cfg s =
        connectAndRun env (ParseBool cfg.Force) (ParseBool cfg.SkipSmoke)
          (if ParseInt cfg.AdvisoryLockKey = 0 then 987654321
            else ParseInt cfg.AdvisoryLockKey)
          baseDir manifest s2 ∧
      ∀ (parse : Bytes → Except String (List (String × String))) (force skipSmoke : Bool)
          (key : Int) (s0 : St σ),
        connectAndRun (withChecksums env parse) force skipSmoke key baseDir manifest s0 =
          connectAndRun env force skipSmoke key baseDir manifest s0 := by
  obtain ⟨checksums, sc, h1, h2, -⟩ := verifyAndLoad_ok env baseDir s1 s2 manifest hload
  refine ⟨⟨checksums, sc, h1, h2, fun hpure =>
      VerifyChecksums_passed env baseDir hpure checksums sc h2⟩,
    doInstallation_loaded env cfg s s1 s2 baseDir manifest hcfg hfetch hload, ?_⟩
  intro parse force skipSmoke key s0
  exact connectAndRun_withChecksums env parse force skipSmoke key baseDir manifest s0

/-- Witness of C21 (amended): the run of the first scenario with the incomplete
checksums.json. -/
theorem C21_checksum_keys_verified_manifest_not_compared_witness :
    doInstallation partialEnv demoConfig (demoState freshWorld) =
      connectAndRun partialEnv false false 987654321 ".work/bundle" demoManifest
        (verifyAndLoad partialEnv ".work/bundle"
          (fetchBundle partialEnv demoConfig (demoState freshWorld)).2).2 :=
  (C21_checksum_keys_verified_manifest_not_compared partialEnv demoConfig
    (demoState freshWorld) (fetchBundle partialEnv demoConfig (demoState freshWorld)).2
    (verifyAndLoad partialEnv ".work/bundle"
      (fetchBundle partialEnv demoConfig (demoState freshWorld)).2).2
    ".work/bundle" demoManifest (by decide) rfl rfl).2.1

theorem cleanChars_eq_render (p : List Char) (hp : p ≠ []) :
    cleanChars p =
      render (decide (p.head? = some '/'))
        ((splitSep p).foldl (cleanElem (decide (p.head? = some '/'))) []).reverse := by
  unfold cleanChars
  rw [if_neg hp]
  by_cases hr : p.head? = some '/'
  · simp only [hr, if_true, decide_True, render]
  · have hv := foldl_cleanElem_valid false (splitSep p) [] (splitSep_no_sep p) trivial
    have hne : ∀ c ∈ ((splitSep p).foldl (cleanElem false) []).reverse, c ≠ [] :=
      fun c hc => (validOut_proper false _ hv c (List.mem_reverse.1 hc)).1
    simp only [hr, if_false, decide_False, render, Bool.false_eq_true,
      joinSep_eq_nil _ hne]

theorem foldl_cleanElem_push (r : Bool) (cs out : List (List Char))
    (h : ['.', '.'] ∉ cs) : ∃ pushed, cs.foldl (cleanElem r) out = pushed ++ out := by
  induction cs generalizing out with
  | nil => exact ⟨[], rfl⟩
  | cons c rest ih =>
    simp only [List.mem_cons, not_or] at h
    simp only [List.foldl]
    have hc : cleanElem r out c = out ∨ cleanElem r out c = c :: out := by
      unfold cleanElem
      split
      · left; rfl
      · rw [if_neg (fun e => h.1 e.symm)]
        right; rfl
    rcases hc with hc | hc
    · rw [hc]
      exact ih out h.2
    · rw [hc]
      obtain ⟨pushed, hp⟩ := ih (c :: out) h.2
      exact ⟨pushed ++ [c], by rw [hp]; simp⟩

/-- A path without `..` elements joined to a base directory stays in that directory. -/
theorem Join_underDest (base p : String) (hb : base ≠ "")
    (hroot : Clean base ≠ "." ∧ Clean base ≠ "/")
    (hp : ['.', '.'] ∉ splitSep p.data) : underDest base (Join base p) = true := by
  have hbd : base.data ≠ [] := fun h => hb (String.ext h)
  have hjd : base.data ++ '/' :: p.data ≠ [] := by simp [hbd]
  have hhead : (base.data ++ '/' :: p.data).head? = base.data.head? := by
    cases hd : base.data with
    | nil => exact absurd hd hbd
    | cons x xs => rfl
  have hjoin : Join base p = Clean (base ++ "/" ++ p) := by simp [Join, hb]
  have hdata : (base ++ "/" ++ p).data = base.data ++ '/' :: p.data := by
    simp [String.data_append]
  have hB := cleanChars_eq_render base.data hbd
  have hJ := cleanChars_eq_render (base.data ++ '/' :: p.data) hjd
  rw [hhead, splitSep_append, List.foldl_append] at hJ
  obtain ⟨pushed, hpush⟩ := foldl_cleanElem_push (decide (base.data.head? = some '/'))
    (splitSep p.data) ((splitSep base.data).foldl
      (cleanElem (decide (base.data.head? = some '/'))) []) hp
  rw [hpush, List.reverse_append] at hJ
  have hds : ((splitSep base.data).foldl
      (cleanElem (decide (base.data.head? = some '/'))) []).reverse ≠ [] := by
    intro hnil
    rw [hnil] at hB
    by_cases hr : base.data.head? = some '/'
    · apply hroot.2
      apply String.ext
      rw [Clean_data, hB]
      simp [hr, render, joinSep]
    · apply hroot.1
      apply String.ext
      rw [Clean_data, hB]
      simp [hr, render]
  simp only [underDest, Bool.decide_or, Bool.or_eq_true, decide_eq_true_eq]
  rw [hjoin, Clean_idem]
  cases hrev : pushed.reverse with
  | nil =>
    left
    apply String.ext
    rw [Clean_data, Clean_data, hdata, hJ, hB, hrev, List.append_nil]
  | cons e es =>
    right
    rw [startsWith_iff, String.data_append, Clean_data, Clean_data, hdata, hJ, hB, hrev]
    exact render_prefix_of_append _ _ e es hds

theorem execMigration_readsOnly {σ : Type} (env : Env σ) (paths : List String)
    (mig : Migration) (sql : Bytes) {s s0 : St σ} (h : Emits (Event.readsOnly paths) s s0) :
    Emits (Event.readsOnly paths) s (execMigration env mig sql s0).2 := by
  simp only [execMigration, ExecInTransaction]
  repeat' split
  all_goals try dsimp only
  all_goals
    first
    | exact Emits.after_call rfl h
    | exact Emits.after_call rfl (Emits.after_call rfl h)
    | exact Emits.after_call rfl (Emits.after_call rfl (Emits.after_call rfl h))

theorem applyMigration_readsOnly {σ : Type} (env : Env σ) (paths : List String)
    (mig : Migration) (sql : Bytes) (fileChecksum : String) {s s0 : St σ}
    (h : Emits (Event.readsOnly paths) s s0) :
    Emits (Event.readsOnly paths) s (applyMigration env mig sql fileChecksum s0).2 := by
  have h0 : Emits (Event.readsOnly paths) s (call Event.now env.now s0).2 :=
    Emits.after_call rfl h
  refine (execMigration_readsOnly env paths mig sql h0).append _
    (applyMigration_trace env mig sql fileChecksum s0) ?_
  intro e he
  simp at he
  rcases he with rfl | rfl <;> rfl

theorem migrationStep_readsOnly {σ : Type} (env : Env σ) (paths : List String)
    (force : Bool) (baseDir : String) (mig : Migration)
    (hmem : Join baseDir mig.File ∈ paths) {s s0 : St σ}
    (h : Emits (Event.readsOnly paths) s s0) :
    Emits (Event.readsOnly paths) s (migrationStep env force baseDir mig s0).2 := by
  have hq : Emits (Event.readsOnly paths) s
      (call (Event.getMigrationRecord mig.Version)
        (fun w => env.selectRecord w mig.Version) s0).2 := Emits.after_call rfl h
  have hr : Emits (Event.readsOnly paths) s
      (call (Event.readFile (Join baseDir mig.File))
        (fun w => env.readFile w (Join baseDir mig.File))
        (call (Event.getMigrationRecord mig.Version)
          (fun w => env.selectRecord w mig.Version) s0).2).2 :=
    Emits.after_call (by simpa [Event.readsOnly] using hmem) hq
  simp only [migrationStep, GetMigrationRecord]
  repeat' split
  all_goals dsimp only
  all_goals
    first
    | exact hq
    | exact hr
    | exact applyMigration_readsOnly env paths mig _ _ hr

theorem applyMigrations_readsOnly {σ : Type} (env : Env σ) (paths : List String)
    (force : Bool) (baseDir : String) (migs : List Migration)
    (hmem : ∀ m ∈ migs, Join baseDir m.File ∈ paths) (lastVersion : String) {s s0 : St σ}
    (h : Emits (Event.readsOnly paths) s s0) :
    Emits (Event.readsOnly paths) s
      (applyMigrations env force baseDir migs lastVersion s0).2 := by
  induction migs generalizing lastVersion s0 with
  | nil => exact h
  | cons mig rest ih =>
    have hstep := migrationStep_readsOnly env paths force baseDir mig
      (hmem mig (List.mem_cons_self _ _)) h
    simp only [applyMigrations]
    rcases hst : migrationStep env force baseDir mig s0 with ⟨fl, s1⟩
    rw [hst] at hstep
    cases fl with
    | ret r => exact hstep
    | next v => exact ih (fun m hm => hmem m (List.mem_cons_of_mem _ hm)) v hstep

theorem connectAndRun_readsOnly {σ : Type} (env : Env σ) (force skipSmoke : Bool)
    (key : Int) (baseDir : String) (manifest : Manifest) (s : St σ) :
    Emits (Event.readsOnly ((manifestPaths manifest).map (Join baseDir))) s
      (connectAndRun env force skipSmoke key baseDir manifest s).2 := by
  have hbase : Join baseDir manifest.Baseline ∈ (manifestPaths manifest).map (Join baseDir) :=
    List.mem_map_of_mem _ (by simp [manifestPaths])
  have hsmoke : Join baseDir manifest.Smoke ∈ (manifestPaths manifest).map (Join baseDir) :=
    List.mem_map_of_mem _ (by simp [manifestPaths])
  have hmigs : ∀ m ∈ manifest.Migrations,
      Join baseDir m.File ∈ (manifestPaths manifest).map (Join baseDir) := by
    intro m hm
    refine List.mem_map_of_mem _ ?_
    simp only [manifestPaths, List.mem_cons, List.mem_map]
    exact Or.inr (Or.inr ⟨m, hm, rfl⟩)
  have hpost : ∀ v s0, Emits (Event.readsOnly ((manifestPaths manifest).map (Join baseDir)))
      s s0 → Emits (Event.readsOnly ((manifestPaths manifest).map (Join baseDir))) s
        (postCheck env skipSmoke baseDir manifest v s0).2 := by
    intro v s0 h0
    obtain ⟨evs, ht, hshape⟩ := postCheck_trace env skipSmoke baseDir manifest v s0
    refine h0.append evs ht ?_
    rcases hshape with h | h | ⟨sql, h⟩ <;> subst h <;> intro e he <;> simp at he
    · subst he
      simpa [Event.readsOnly] using hsmoke
    · rcases he with rfl | rfl
      · simpa [Event.readsOnly] using hsmoke
      · rfl
  have hmc : ∀ s0, Emits (Event.readsOnly ((manifestPaths manifest).map (Join baseDir)))
      s s0 → Emits (Event.readsOnly ((manifestPaths manifest).map (Join baseDir))) s
        (migrateAndCheck env force skipSmoke baseDir manifest s0).2 := by
    intro s0 h0
    have hstart : Emits (Event.readsOnly ((manifestPaths manifest).map (Join baseDir))) s
        (updateStep StepApplyMigrations s0) := Emits.after_step h0
    have hloop := applyMigrations_readsOnly env _ force baseDir manifest.Migrations hmigs ""
      hstart
    simp only [migrateAndCheck]
    rcases hl : applyMigrations env force baseDir manifest.Migrations ""
      (updateStep StepApplyMigrations s0) with ⟨fl, s1⟩
    rw [hl] at hloop
    cases fl with
    | ret r => exact hloop
    | next v => exact hpost v s1 hloop
  have hbl : ∀ s0, Emits (Event.readsOnly ((manifestPaths manifest).map (Join baseDir)))
      s s0 → Emits (Event.readsOnly ((manifestPaths manifest).map (Join baseDir))) s
        (applyBaseline env baseDir manifest s0).2 := by
    intro s0 h0
    have hr : Emits (Event.readsOnly ((manifestPaths manifest).map (Join baseDir))) s
        (call (Event.readFile (Join baseDir manifest.Baseline))
          (fun w => env.readFile w (Join baseDir manifest.Baseline)) s0).2 :=
      Emits.after_call (by simpa [Event.readsOnly] using hbase) h0
    simp only [applyBaseline, EnsureMigrationsTable]
    repeat' split
    all_goals dsimp only
    all_goals
      first
      | exact hr
      | exact Emits.after_call rfl hr
      | exact Emits.after_call rfl (Emits.after_call rfl hr)
  have hlocked : ∀ s0, Emits (Event.readsOnly ((manifestPaths manifest).map (Join baseDir)))
      s s0 → Emits (Event.readsOnly ((manifestPaths manifest).map (Join baseDir))) s
        (lockedSection env force skipSmoke baseDir manifest s0).2 := by
    intro s0 h0
    have hfr : Emits (Event.readsOnly ((manifestPaths manifest).map (Join baseDir))) s
        (IsFreshDB env (updateStep StepApplyBaseline s0)).2 := by
      simp only [IsFreshDB]
      split <;> dsimp only <;> exact Emits.after_call rfl (Emits.after_step h0)
    simp only [lockedSection]
    split
    · exact hfr
    · have hb := hbl _ hfr
      rcases hx : applyBaseline env baseDir manifest
        (IsFreshDB env (updateStep StepApplyBaseline s0)).2 with ⟨o, s1⟩
      rw [hx] at hb
      cases o with
      | some r => exact hb
      | none => exact hmc s1 hb
    · exact hmc _ hfr
  have hconn : ∀ s0, Emits (Event.readsOnly ((manifestPaths manifest).map (Join baseDir)))
      s s0 → Emits (Event.readsOnly ((manifestPaths manifest).map (Join baseDir))) s
        (connSection env force skipSmoke key baseDir manifest s0).2 := by
    intro s0 h0
    simp only [connSection]
    split
    · dsimp only
      exact Emits.after_call rfl h0
    · split
      · dsimp only
        exact Emits.after_call rfl (Emits.after_step (Emits.after_call rfl h0))
      · dsimp only
        exact Emits.after_call rfl
          (hlocked _ (Emits.after_call rfl (Emits.after_step (Emits.after_call rfl h0))))
  simp only [connectAndRun]
  split
  · dsimp only
    exact Emits.after_call rfl (Emits.after_step (Emits.refl _ s))
  · dsimp only
    exact Emits.after_call rfl
      (hconn _ (Emits.after_call rfl (Emits.after_step (Emits.refl _ s))))

/-- C22, as stated, fails: the manifest entry `../outside.sql` is joined with the base
directory `.work/bundle` to `.work/outside.sql`, which is outside the base directory, and
the run reads that file, executes its SQL and succeeds with schema version `001`. -/
theorem C22_counterexample_outside_file_is_read_and_executed :
    (fetchBundle escapeEnv demoConfig (demoState escapeWorld)).1 = .ok ".work/bundle" ∧
      Join ".work/bundle" "../outside.sql" = ".work/outside.sql" ∧
      underDest ".work/bundle" ".work/outside.sql" = false ∧
      (doInstallation escapeEnv demoConfig (demoState escapeWorld)).1 =
        { Success := true, SchemaVersion := "001" } ∧
      Event.readFile ".work/outside.sql" ∈
        (doInstallation escapeEnv demoConfig (demoState escapeWorld)).2.trace ∧
      Event.execContext [9] ∈
        (doInstallation escapeEnv demoConfig (demoState escapeWorld)).2.trace := by
  refine ⟨rfl, by decide, by decide, by decide, by decide, by decide⟩

/-- C22 (amended): every file that the database part of `doInstallation` reads is at
`filepath.Join(baseDir, path)` for a path the manifest refers to (baseline, smoke check,
a migration's file), and no test is made on the joined path.  A path without a `..`
element resolves inside the base directory (when that is neither empty nor cleans to `.`
or `/`).  Any other path is used in the same way: a migration without a ledger record
whose joined path is readable is read from there and its SQL is executed, wherever the
joined path lies. -/
theorem C22_manifest_files_are_read_at_the_joined_path {σ : Type} (env : Env σ)
    (force skipSmoke : Bool) (key : Int) (baseDir : String) (manifest : Manifest)
    (s : St σ) :
    (∃ evs : List Event,
        (connectAndRun env force skipSmoke key baseDir manifest s).2.trace = s.trace ++ evs ∧
        ∀ path, Event.readFile path ∈ evs →
          ∃ p ∈ manifestPaths manifest, path = Join baseDir p) ∧
      (∀ p : String, baseDir ≠ "" → Clean baseDir ≠ "." → Clean baseDir ≠ "/" →
        ['.', '.'] ∉ splitSep p.data → underDest baseDir (Join baseDir p) = true) ∧
      (∀ (mig : Migration) (s0 : St σ) (w1 w2 : σ) (content : Bytes),
        env.selectRecord s0.world mig.Version = (.ok none, w1) →
        env.readFile w1 (Join baseDir mig.File) = (.ok content, w2) →
        migrationStep env force baseDir mig s0 =
          applyMigration env mig content (SHA256Hex env content)
            (afterRead baseDir mig s0 w2) ∧
        ∃ (evs : List Event) (rec : MigrationRecord),
          (migrationStep env force baseDir mig s0).2.trace =
            s0.trace ++ [Event.getMigrationRecord mig.Version,
              Event.readFile (Join baseDir mig.File), Event.now] ++ evs ++
              [Event.now, Event.now, Event.recordMigration rec] ∧
          (mig.Transaction = false → evs = [Event.execContext content]) ∧
          (mig.Transaction = true → (env.beginTx (env.now w2).2).1 = none →
            ∃ e, evs = [Event.beginTx, Event.txExec content, e])) := by
  refine ⟨?_, ?_, ?_⟩
  · obtain ⟨evs, ht, hp⟩ := connectAndRun_readsOnly env force skipSmoke key baseDir manifest s
    refine ⟨evs, ht, ?_⟩
    intro path hmem
    have := hp _ hmem
    simp only [Event.readsOnly, decide_eq_true_eq, List.mem_map] at this
    obtain ⟨p, hp1, hp2⟩ := this
    exact ⟨p, hp1, hp2.symm⟩
  · intro p hb h1 h2 hp
    exact Join_underDest baseDir p hb ⟨h1, h2⟩ hp
  · intro mig s0 w1 w2 content hq hf
    have hstep := migrationStep_none env force baseDir mig s0 w1 w2 content hq hf
    refine ⟨hstep, ?_⟩
    obtain ⟨evs, rec, h1, -, -, -, -, -, -, -, h9, h10, -, -⟩ :=
      applyMigration_events env baseDir mig s0 w2 content (SHA256Hex env content)
    exact ⟨evs, rec, by rw [hstep, h1], h9, h10⟩

/-- Witness of C22 (amended): `m1.sql` resolves inside `.work/bundle`. -/
theorem C22_manifest_files_are_read_at_the_joined_path_witness :
    underDest ".work/bundle" (Join ".work/bundle" "m1.sql") = true :=
  (C22_manifest_files_are_read_at_the_joined_path demoEnv false false 1 ".work/bundle"
    demoManifest (demoState appliedWorld)).2.1 "m1.sql" (by decide) (by decide) (by decide)
    (by decide)

theorem sentVersions_append_lookup (cur : Option String) (a : List Event) (v : String)
    (t : List Event) :
    sentVersions cur (a ++ Event.getMigrationRecord v :: t) =
      sentVersions cur a ++ sentVersions none (Event.getMigrationRecord v :: t) := by
  induction a generalizing cur with
  | nil => simp [sentVersions]
  | cons e rest ih =>
    cases e <;> simp [sentVersions, ih]

theorem sentVersions_append_headed (cur : Option String) (a b : List Event)
    (hb : b = [] ∨ ∃ v t, b = Event.getMigrationRecord v :: t) :
    sentVersions cur (a ++ b) = sentVersions cur a ++ sentVersions none b := by
  rcases hb with rfl | ⟨v, t, rfl⟩
  · simp [sentVersions]
  · exact sentVersions_append_lookup cur a v t

/-- The apply block of one iteration against the specification: the batch is submitted
as `specRunBatch` says, and the world after the upsert is the one of `specApply`. -/
theorem applyMigration_spec {σ : Type} (env : Env σ) (mig : Migration) (sql : Bytes)
    (s : St σ) :
    ∃ t : List Event,
      (applyMigration env mig sql (SHA256Hex env sql) s).2.trace = s.trace ++ t ∧
      sentVersions (some mig.Version) t = (specApply env mig sql s.world).1 ∧
      (((applyMigration env mig sql (SHA256Hex env sql) s).1 = Flow.next mig.Version ∧
          (specApply env mig sql s.world).2 =
            some (applyMigration env mig sql (SHA256Hex env sql) s).2.world) ∨
        ((∃ r, (applyMigration env mig sql (SHA256Hex env sql) s).1 = Flow.ret r) ∧
          (specApply env mig sql s.world).2 = none)) := by
  by_cases htx : mig.Transaction = true
  · rcases hb : env.beginTx (env.now s.world).2 with ⟨b, wb⟩
    cases b with
    | some e =>
      refine ⟨[Event.now, Event.beginTx, Event.now, Event.now,
          Event.recordMigration (migrationRecord mig (SHA256Hex env sql)
            (env.now (env.now wb).2).1
            (timeSub (env.now wb).1 (env.now s.world).1) (some ("begin tx: " ++ e)))],
        ?_, ?_, ?_⟩
      · simp [applyMigration, execMigration, ExecInTransaction, RecordMigration, call, htx, hb]
      · simp [sentVersions, specApply, specRunBatch, htx, hb]
      · right
        simp [applyMigration, execMigration, ExecInTransaction, call, htx, hb, specApply,
          specRunBatch]
    | none =>
      rcases hx : env.txExec wb sql with ⟨x, wx⟩
      cases x with
      | some e =>
        refine ⟨[Event.now, Event.beginTx, Event.txExec sql, Event.txRollback, Event.now,
          Event.now,
          Event.recordMigration (migrationRecord mig (SHA256Hex env sql)
            (env.now (env.now (env.txRollback wx).2).2).1
            (timeSub (env.now (env.txRollback wx).2).1 (env.now s.world).1) (some e))],
          ?_, ?_, ?_⟩
        · simp [applyMigration, execMigration, ExecInTransaction, RecordMigration, call, htx,
            hb, hx]
        · simp [sentVersions, specApply, specRunBatch, htx, hb, hx]
        · right
          simp [applyMigration, execMigration, ExecInTransaction, call, htx, hb, hx,
            specApply, specRunBatch]
      | none =>
        refine ⟨[Event.now, Event.beginTx, Event.txExec sql, Event.txCommit, Event.now,
          Event.now,
          Event.recordMigration (migrationRecord mig (SHA256Hex env sql)
            (env.now (env.now (env.txCommit wx).2).2).1
            (timeSub (env.now (env.txCommit wx).2).1 (env.now s.world).1) (env.txCommit wx).1)],
          ?_, ?_, ?_⟩
        · simp [applyMigration, execMigration, ExecInTransaction, RecordMigration, call, htx,
            hb, hx]
        · simp [sentVersions, specApply, specRunBatch, htx, hb, hx]
        · cases hc : (env.txCommit wx).1 with
          | none =>
            left
            simp [applyMigration, execMigration, ExecInTransaction, RecordMigration, call,
              htx, hb, hx, hc, specApply, specRunBatch, migrationRecord]
          | some e =>
            right
            simp [applyMigration, execMigration, ExecInTransaction, call, htx, hb, hx, hc,
              specApply, specRunBatch]
  · have htx2 : mig.Transaction = false := by simpa using htx
    refine ⟨[Event.now, Event.execContext sql, Event.now, Event.now,
      Event.recordMigration (migrationRecord mig (SHA256Hex env sql)
            (env.now (env.now (env.execContext (env.now s.world).2 sql).2).2).1
            (timeSub (env.now (env.execContext (env.now s.world).2 sql).2).1
              (env.now s.world).1)
            (env.execContext (env.now s.world).2 sql).1)],
      ?_, ?_, ?_⟩
    · simp [applyMigration, execMigration, RecordMigration, call, htx2]
    · simp [sentVersions, specApply, specRunBatch, htx2]
    · cases hc : (env.execContext (env.now s.world).2 sql).1 with
      | none =>
        left
        simp [applyMigration, execMigration, RecordMigration, call, htx2, hc, specApply,
          specRunBatch, migrationRecord]
      | some e =>
        right
        simp [applyMigration, execMigration, call, htx2, hc, specApply, specRunBatch]

/-- One iteration of the loop against the specification of one manifest entry. -/
theorem migrationStep_spec {σ : Type} (env : Env σ) (force : Bool) (baseDir : String)
    (mig : Migration) (s : St σ) :
    ∃ t : List Event,
      (migrationStep env force baseDir mig s).2.trace =
        s.trace ++ Event.getMigrationRecord mig.Version :: t ∧
      (sentVersions (some mig.Version) t = [] ∨
        sentVersions (some mig.Version) t = [mig.Version]) ∧
      ((migrationStep env force baseDir mig s).1 = Flow.next mig.Version ∨
        ∃ r, (migrationStep env force baseDir mig s).1 = Flow.ret r) ∧
      ((∀ w v, (env.selectRecord w v).2 = w) → (∀ w p, (env.readFile w p).2 = w) →
        sentVersions (some mig.Version) t = (specEntry env force baseDir mig s.world).1 ∧
        (((migrationStep env force baseDir mig s).1 = Flow.next mig.Version ∧
            (specEntry env force baseDir mig s.world).2 =
              some (migrationStep env force baseDir mig s).2.world) ∨
          ((∃ r, (migrationStep env force baseDir mig s).1 = Flow.ret r) ∧
            (specEntry env force baseDir mig s.world).2 = none))) := by
  obtain ⟨q, w1, hq⟩ : ∃ q w1, env.selectRecord s.world mig.Version = (q, w1) :=
    ⟨_, _, rfl⟩
  obtain ⟨f, w2, hf⟩ : ∃ f w2, env.readFile w1 (Join baseDir mig.File) = (f, w2) :=
    ⟨_, _, rfl⟩
  have hframe : (∀ w v, (env.selectRecord w v).2 = w) → (∀ w p, (env.readFile w p).2 = w) →
      w1 = s.world ∧ w2 = s.world ∧ (env.selectRecord s.world mig.Version).1 = q ∧
        (env.readFile s.world (Join baseDir mig.File)).1 = f := by
    intro h1 h2
    have e1 : w1 = s.world := by
      have := h1 s.world mig.Version
      rw [hq] at this
      exact this
    have e2 : w2 = w1 := by
      have := h2 w1 (Join baseDir mig.File)
      rw [hf] at this
      exact this
    refine ⟨e1, by rw [e2, e1], by rw [hq], ?_⟩
    rw [← e1, hf]
  cases q with
  | error e =>
    have hst : migrationStep env force baseDir mig s =
        (Flow.ret { Step := StepApplyMigrations,
                    Error := "failed to check migration " ++ mig.Version ++ ": " ++ e },
          { world := w1, trace := s.trace ++ [Event.getMigrationRecord mig.Version],
            status := s.status }) := by
      simp [migrationStep, GetMigrationRecord, call, hq]
    refine ⟨[], by rw [hst], Or.inl rfl, Or.inr ⟨_, by rw [hst]⟩, ?_⟩
    intro h1 h2
    obtain ⟨-, -, e3, e4⟩ := hframe h1 h2
    refine ⟨?_, Or.inr ⟨⟨_, by rw [hst]⟩, ?_⟩⟩
    · simp only [specEntry, e3, e4]
      cases f <;> rfl
    · simp only [specEntry, e3, e4]
      cases f <;> rfl
  | ok prior =>
    cases f with
    | error e =>
      have hst : migrationStep env force baseDir mig s =
          (Flow.ret { Step := StepApplyMigrations,
                      Error := "failed to read migration " ++ mig.Version ++ ": " ++ e },
            afterRead baseDir mig s w2) := by
        cases prior <;> simp [migrationStep, GetMigrationRecord, call, hq, hf, afterRead]
      refine ⟨[Event.readFile (Join baseDir mig.File)], by rw [hst]; simp [afterRead],
        Or.inl rfl, Or.inr ⟨_, by rw [hst]⟩, ?_⟩
      intro h1 h2
      obtain ⟨-, -, e3, e4⟩ := hframe h1 h2
      exact ⟨by simp [specEntry, e4, sentVersions],
        Or.inr ⟨⟨_, by rw [hst]⟩, by simp [specEntry, e4]⟩⟩
    | ok sql =>
      have hskipped : ∀ (fl : Flow),
          migrationStep env force baseDir mig s = (fl, afterRead baseDir mig s w2) →
          (migrationStep env force baseDir mig s).2.trace =
            s.trace ++ Event.getMigrationRecord mig.Version ::
              [Event.readFile (Join baseDir mig.File)] := by
        intro fl h
        rw [h]
        simp [afterRead]
      have happly : migrationStep env force baseDir mig s =
          applyMigration env mig sql (SHA256Hex env sql) (afterRead baseDir mig s w2) →
          (∀ row, prior = some row → ¬ (row.success = true ∧ force = false) ∧
            ¬ row.checksum ≠ SHA256Hex env sql) →
          ∃ t : List Event,
            (migrationStep env force baseDir mig s).2.trace =
              s.trace ++ Event.getMigrationRecord mig.Version :: t ∧
            (sentVersions (some mig.Version) t = [] ∨
              sentVersions (some mig.Version) t = [mig.Version]) ∧
            ((migrationStep env force baseDir mig s).1 = Flow.next mig.Version ∨
              ∃ r, (migrationStep env force baseDir mig s).1 = Flow.ret r) ∧
            ((∀ w v, (env.selectRecord w v).2 = w) → (∀ w p, (env.readFile w p).2 = w) →
              sentVersions (some mig.Version) t =
                (specEntry env force baseDir mig s.world).1 ∧
              (((migrationStep env force baseDir mig s).1 = Flow.next mig.Version ∧
                  (specEntry env force baseDir mig s.world).2 =
                    some (migrationStep env force baseDir mig s).2.world) ∨
                ((∃ r, (migrationStep env force baseDir mig s).1 = Flow.ret r) ∧
                  (specEntry env force baseDir mig s.world).2 = none))) := by
        intro hst hpol
        obtain ⟨t, ht, hsent, hflow⟩ :=
          applyMigration_spec env mig sql (afterRead baseDir mig s w2)
        have hw : (afterRead baseDir mig s w2).world = w2 := rfl
        rw [hw] at hsent hflow
        refine ⟨Event.readFile (Join baseDir mig.File) :: t, ?_, ?_, ?_, ?_⟩
        · rw [hst, ht]
          simp [afterRead]
        · simp only [sentVersions, hsent, specApply]
          split
          · exact Or.inr rfl
          · exact Or.inl rfl
        · rw [hst]
          rcases hflow with ⟨h, -⟩ | ⟨h, -⟩
          · exact Or.inl h
          · exact Or.inr h
        · intro h1 h2
          obtain ⟨-, e2, e3, e4⟩ := hframe h1 h2
          have hspec : specEntry env force baseDir mig s.world =
              specApply env mig sql s.world := by
            simp only [specEntry, e3, e4]
            cases prior with
            | none => rfl
            | some row =>
              obtain ⟨hp1, hp2⟩ := hpol row rfl
              simp only [hp1, hp2, if_false]
          rw [hspec, hst]
          rw [e2] at hsent hflow
          refine ⟨by simp only [sentVersions, hsent], ?_⟩
          rw [e2]
          exact hflow
      cases prior with
      | none =>
        exact happly (migrationStep_none env force baseDir mig s w1 w2 sql hq hf)
          (fun row h => by cases h)
      | some row =>
        have hs := migrationStep_some env force baseDir mig s row w1 w2 sql hq hf
        by_cases hskip : (row.success && !force) = true
        · rw [if_pos hskip] at hs
          have hskip2 : row.success = true ∧ force = false := by simpa using hskip
          refine ⟨[Event.readFile (Join baseDir mig.File)], hskipped _ hs, Or.inl rfl,
            Or.inl (by rw [hs]), ?_⟩
          intro h1 h2
          obtain ⟨-, e2, e3, e4⟩ := hframe h1 h2
          refine ⟨by simp [specEntry, e3, e4, hskip2, sentVersions],
            Or.inl ⟨by rw [hs], ?_⟩⟩
          rw [hs]
          simp [specEntry, e3, e4, hskip2, afterRead, e2]
        · rw [if_neg hskip] at hs
          have hskip2 : ¬ (row.success = true ∧ force = false) := by simpa using hskip
          by_cases hne : row.checksum ≠ SHA256Hex env sql
          · rw [if_pos hne] at hs
            refine ⟨[Event.readFile (Join baseDir mig.File)], hskipped _ hs, Or.inl rfl,
              Or.inr ⟨_, by rw [hs]⟩, ?_⟩
            intro h1 h2
            obtain ⟨-, e2, e3, e4⟩ := hframe h1 h2
            exact ⟨by simp [specEntry, e3, e4, hskip2, hne, sentVersions],
              Or.inr ⟨⟨_, by rw [hs]⟩, by simp [specEntry, e3, e4, hskip2, hne]⟩⟩
          · rw [if_neg hne] at hs
            exact happly hs (fun r h => by cases h; exact ⟨hskip2, hne⟩)

theorem applyMigrations_spec {σ : Type} (env : Env σ) (force : Bool) (baseDir : String)
    (migs : List Migration) (lastVersion : String) (s : St σ) :
    ∃ evs : List Event,
      (applyMigrations env force baseDir migs lastVersion s).2.trace = s.trace ++ evs ∧
      (evs = [] ∨ ∃ v t, evs = Event.getMigrationRecord v :: t) ∧
      List.Sublist (executedVersions evs) (migs.map fun m => m.Version) ∧
      ((∀ w v, (env.selectRecord w v).2 = w) → (∀ w p, (env.readFile w p).2 = w) →
        executedVersions evs = specExecuted env force baseDir migs s.world) := by
  induction migs generalizing lastVersion s with
  | nil => exact ⟨[], by simp [applyMigrations], Or.inl rfl, by simp [executedVersions,
      sentVersions], fun _ _ => rfl⟩
  | cons mig rest ih =>
    obtain ⟨t, ht, hsent, hflow, hspec⟩ := migrationStep_spec env force baseDir mig s
    have hsub : List.Sublist (sentVersions (some mig.Version) t) [mig.Version] := by
      rcases hsent with h | h <;> simp [h]
    rcases hst : migrationStep env force baseDir mig s with ⟨fl, s1⟩
    rw [hst] at ht hflow hspec
    simp only at ht hflow hspec
    cases fl with
    | ret r =>
      refine ⟨Event.getMigrationRecord mig.Version :: t, by simp [applyMigrations, hst, ht],
        Or.inr ⟨_, _, rfl⟩, ?_, ?_⟩
      · simp only [executedVersions, sentVersions, List.map_cons]
        exact hsub.trans (List.Sublist.cons₂ _ (List.nil_sublist _))
      · intro h1 h2
        obtain ⟨e1, e2⟩ := hspec h1 h2
        rcases e2 with ⟨h, -⟩ | ⟨-, h⟩
        · cases h
        · simp only [executedVersions, sentVersions, specExecuted, h, e1, List.append_nil]
    | next v1 =>
      obtain ⟨evs, hevs, hhead, hsubr, hspecr⟩ := ih v1 s1
      have hsplit : executedVersions (Event.getMigrationRecord mig.Version :: t ++ evs) =
          sentVersions (some mig.Version) t ++ executedVersions evs := by
        simp only [executedVersions]
        rw [sentVersions_append_headed none _ evs hhead]
        simp only [sentVersions]
      refine ⟨Event.getMigrationRecord mig.Version :: t ++ evs, ?_, Or.inr ⟨_, _, rfl⟩,
        ?_, ?_⟩
      · simp only [applyMigrations, hst, hevs, ht]
        simp
      · rw [hsplit, List.map_cons]
        exact (hsub.append hsubr)
      · intro h1 h2
        obtain ⟨e1, e2⟩ := hspec h1 h2
        rcases e2 with ⟨-, h⟩ | ⟨⟨r, h⟩, -⟩
        · rw [hsplit, hspecr h1 h2]
          simp only [specExecuted, h, e1]
        · cases h

/-- C6: the migrations are executed in manifest declaration order.  The versions whose
SQL the loop over `migs` submits form, in the order of submission, a sublist of the
manifest's versions.  When the ledger lookup and the file read change nothing, they are
exactly the versions the specification lists: the manifest list with the skipped entries
removed, truncated after the first migration that fails or is rejected, where the state
of the ledger for each entry is the one left by the upserts of the entries before it. -/
theorem C6_executed_in_manifest_order {σ : Type} (env : Env σ) (force : Bool)
    (baseDir : String) (migs : List Migration) (lastVersion : String) (s : St σ) :
    ∃ evs : List Event,
      (applyMigrations env force baseDir migs lastVersion s).2.trace = s.trace ++ evs ∧
      List.Sublist (executedVersions evs) (migs.map fun m => m.Version) ∧
      ((∀ w v, (env.selectRecord w v).2 = w) → (∀ w p, (env.readFile w p).2 = w) →
        executedVersions evs = specExecuted env force baseDir migs s.world) := by
  obtain ⟨evs, h1, -, h3, h4⟩ := applyMigrations_spec env force baseDir migs lastVersion s
  exact ⟨evs, h1, h3, h4⟩

/-- Witness of C6: with `force = false`, `001` is skipped and `002`, which has no record,
is submitted and fails; the executed versions are `002` alone. -/
theorem C6_executed_in_manifest_order_witness :
    ∃ evs : List Event,
      (applyMigrations demoEnv false "/b" [demoM1, demoM2] ""
        (demoState brokenM2World)).2.trace = (demoState brokenM2World).trace ++ evs ∧
      executedVersions evs = ["002"] := by
  obtain ⟨evs, h1, -, h3⟩ :=
    C6_executed_in_manifest_order demoEnv false "/b" [demoM1, demoM2] ""
      (demoState brokenM2World)
  refine ⟨evs, h1, (h3 ?_ ?_).trans (by decide)⟩
  · intro w v
    simp only [demoEnv, simEnv]
    split <;> rfl
  · intro w p
    simp only [demoEnv, simEnv]
    split <;> rfl

end AgentService
